import Mathlib

/-!
# Gate: accounts, configuration, live synchronisation and the supervisor

A shallow embedding of the Go sources `common/helper.go`,
`backend/xray/api/account.go`, `backend/xray/api/stats.go`,
`backend/xray/user.go`, `backend/xray/config.go`, `backend/xray/core.go`,
`backend/xray/xray.go`, `backend/xray/jobs.go`, `backend/xray/log.go`,
`backend/xray/process_unix.go`, `controller/rest/stats.go` and
`logger/logger.go`, followed by theorems about them.

Conventions of the embedding:

* Go strings are Lean strings; `[]byte(s)` is the UTF-8 encoding of `s`.
* Bytes and machine words are natural numbers, reduced modulo `2^8` or `2^32`
  where the source wraps around.
* A Go function that can panic returns `Option`, `none` being the panic.
* A `map[string]interface{}` decoded from JSON is an association list of keys
  and JSON values. The map `Settings` of an inbound may be nil; a store into a
  nil map is a panic.
* A pointer that may be nil is an `Option`; the elements of the client slices
  are such pointers. The model is sequential and leaves the locks out, except
  for the lock of the backend in `Xray.Restart`, where a call that finds the
  lock held waits.
* The calls to the engine (`AddInboundUser`, `RemoveInboundUser`) are recorded
  as a trace, and the result of an addition is a parameter of `SyncUser`.
* What the supervisor does to the operating system is recorded as a trace of
  effects; what the operating system, the engine and the passing of time
  answer is a parameter of the function that asks.
* An error is a value of `GoErr`, which keeps what `errors.Is` and `Error()`
  can see of it.
* The enumeration of processes reads one state of the host: `/proc`, the
  links and files below it and the output of `ps` are the fields of a `Host`,
  the same for every question of one enumeration.
* Library functions the sources call are modelled beside them: `StdEncoding` of
  `encoding/base64`, `crypto/sha256`, the expressions of `regexp` the sources
  compile, `strings.Fields`, `strings.TrimSpace`, `strconv.Atoi`,
  `filepath.Base`, and, as a parameter, `uuid.Parse`.
-/

namespace Gate

/-! ## Strings -/

/-- Go `strings.HasPrefix`. -/
def hasPrefix (s pre : String) : Bool :=
  pre.data.isPrefixOf s.data

/-- Substring test on character lists. -/
def containsChars : List Char → List Char → Bool
  | [], sub => sub.isEmpty
  | c :: cs, sub => sub.isPrefixOf (c :: cs) || containsChars cs sub

/-- Go `strings.Contains`. -/
def strContains (s sub : String) : Bool :=
  containsChars s.data sub.data

/-- UTF-8 encoding of one code point, as bytes. -/
def utf8EncodeChar (c : Char) : List Nat :=
  let v := c.toNat
  if v ≤ 0x7f then [v]
  else if v ≤ 0x7ff then [0xc0 + v / 64, 0x80 + v % 64]
  else if v ≤ 0xffff then [0xe0 + v / 4096, 0x80 + v / 64 % 64, 0x80 + v % 64]
  else [0xf0 + v / 262144, 0x80 + v / 4096 % 64, 0x80 + v / 64 % 64, 0x80 + v % 64]

/-- Go `[]byte(s)`. -/
def utf8Bytes (s : String) : List Nat :=
  s.data.flatMap utf8EncodeChar

/-! ## `encoding/base64`, `StdEncoding` -/

/-- The standard base64 alphabet. -/
def b64Alphabet : List Char :=
  "ABCDEFGHIJKLMNOPQRSTUVWXYZabcdefghijklmnopqrstuvwxyz0123456789+/".data

/-- The character that encodes a six-bit value. -/
def b64Char (n : Nat) : Char :=
  b64Alphabet.getD n 'A'

/-- The decode map of the alphabet: the six-bit value of a character, if any. -/
def b64Val (c : Char) : Option Nat :=
  let i := b64Alphabet.indexOf c
  if i < 64 then some i else none

/-- `StdEncoding.EncodeToString` on a byte list: three bytes give four
characters, a remainder of one or two bytes is padded with `=`. The 24-bit
value `b0<<16 | b1<<8 | b2` is written as a sum, its fields being disjoint. -/
def b64EncodeChars : List Nat → List Char
  | [] => []
  | [b0] =>
    let val := b0 * 65536
    [b64Char (val / 262144 % 64), b64Char (val / 4096 % 64), '=', '=']
  | [b0, b1] =>
    let val := b0 * 65536 + b1 * 256
    [b64Char (val / 262144 % 64), b64Char (val / 4096 % 64), b64Char (val / 64 % 64), '=']
  | b0 :: b1 :: b2 :: rest =>
    let val := b0 * 65536 + b1 * 256 + b2
    b64Char (val / 262144 % 64) :: b64Char (val / 4096 % 64) :: b64Char (val / 64 % 64)
      :: b64Char (val % 64) :: b64EncodeChars rest

/-- `StdEncoding.EncodeToString`. -/
def b64Encode (bs : List Nat) : String :=
  String.mk (b64EncodeChars bs)

/-- The quanta of `StdEncoding.Decode` once line breaks are skipped: groups of
four alphabet characters, the last group possibly `xx==` or `xxx=`; anything
else is a `CorruptInputError`. The decoder is not strict, so the unused low
bits of a padded group are not checked. -/
def b64DecodeQuanta : List Char → Option (List Nat)
  | [] => some []
  | a :: b :: c :: d :: rest =>
    match b64Val a, b64Val b with
    | some x, some y =>
      if c = '=' then
        if d = '=' ∧ rest = [] then
          let val := x * 262144 + y * 4096
          some [val / 65536 % 256]
        else none
      else
        match b64Val c with
        | none => none
        | some z =>
          if d = '=' then
            if rest = [] then
              let val := x * 262144 + y * 4096 + z * 64
              some [val / 65536 % 256, val / 256 % 256]
            else none
          else
            match b64Val d with
            | none => none
            | some w =>
              let val := x * 262144 + y * 4096 + z * 64 + w
              (b64DecodeQuanta rest).map
                (fun t => val / 65536 % 256 :: val / 256 % 256 :: val % 256 :: t)
    | _, _ => none
  | _ => none

/-- `StdEncoding.DecodeString`: carriage returns and line feeds are ignored
wherever they stand; `none` is a decoding error. -/
def b64Decode (s : String) : Option (List Nat) :=
  b64DecodeQuanta (s.data.filter (fun c => c != '\n' && c != '\r'))

/-! ## `crypto/sha256` -/

/-- Rotate a 32-bit word right. -/
def rotr32 (x n : Nat) : Nat :=
  (x >>> n ||| x <<< (32 - n)) % 4294967296

/-- The 64 round constants of SHA-256 (the first 32 bits of the fractional parts
of the cube roots of the first 64 primes), in decimal. -/
def sha256K : List Nat :=
  [1116352408, 1899447441, 3049323471, 3921009573, 961987163, 1508970993,
   2453635748, 2870763221, 3624381080, 310598401, 607225278, 1426881987,
   1925078388, 2162078206, 2614888103, 3248222580, 3835390401, 4022224774,
   264347078, 604807628, 770255983, 1249150122, 1555081692, 1996064986,
   2554220882, 2821834349, 2952996808, 3210313671, 3336571891, 3584528711,
   113926993, 338241895, 666307205, 773529912, 1294757372, 1396182291,
   1695183700, 1986661051, 2177026350, 2456956037, 2730485921, 2820302411,
   3259730800, 3345764771, 3516065817, 3600352804, 4094571909, 275423344,
   430227734, 506948616, 659060556, 883997877, 958139571, 1322822218,
   1537002063, 1747873779, 1955562222, 2024104815, 2227730452, 2361852424,
   2428436474, 2756734187, 3204031479, 3329325298]

/-- The eight working words of SHA-256. -/
structure Sha256State where
  a : Nat
  b : Nat
  c : Nat
  d : Nat
  e : Nat
  f : Nat
  g : Nat
  h : Nat

/-- The initial hash value. -/
def sha256Init : Sha256State :=
  ⟨0x6a09e667, 0xbb67ae85, 0x3c6ef372, 0xa54ff53a, 0x510e527f, 0x9b05688c, 0x1f83d9ab, 0x5be0cd19⟩

/-- Big-endian 32-bit words of a byte list (a trailing partial word is dropped;
blocks are always whole). -/
def beWords : List Nat → List Nat
  | b0 :: b1 :: b2 :: b3 :: rest =>
    (b0 * 16777216 + b1 * 65536 + b2 * 256 + b3) :: beWords rest
  | _ => []

/-- Extend the sixteen words of a block to the message schedule; `w` holds the
schedule in reverse order (latest word first). -/
def sha256Schedule : Nat → List Nat → List Nat
  | 0, w => w
  | n + 1, w =>
    let w2 := w.getD 1 0
    let w7 := w.getD 6 0
    let w15 := w.getD 14 0
    let w16 := w.getD 15 0
    let s0 := rotr32 w15 7 ^^^ rotr32 w15 18 ^^^ (w15 >>> 3)
    let s1 := rotr32 w2 17 ^^^ rotr32 w2 19 ^^^ (w2 >>> 10)
    sha256Schedule n (((w16 + s0 + w7 + s1) % 4294967296) :: w)

/-- One round of the compression function. -/
def sha256Round (s : Sha256State) (kw : Nat × Nat) : Sha256State :=
  let S1 := rotr32 s.e 6 ^^^ rotr32 s.e 11 ^^^ rotr32 s.e 25
  let ch := (s.e &&& s.f) ^^^ ((4294967295 - s.e) &&& s.g)
  let t1 := (s.h + S1 + ch + kw.1 + kw.2) % 4294967296
  let S0 := rotr32 s.a 2 ^^^ rotr32 s.a 13 ^^^ rotr32 s.a 22
  let maj := (s.a &&& s.b) ^^^ (s.a &&& s.c) ^^^ (s.b &&& s.c)
  let t2 := (S0 + maj) % 4294967296
  ⟨(t1 + t2) % 4294967296, s.a, s.b, s.c, (s.d + t1) % 4294967296, s.e, s.f, s.g⟩

/-- Process one 64-byte block. -/
def sha256Block (s : Sha256State) (block : List Nat) : Sha256State :=
  let w := (sha256Schedule 48 (beWords block).reverse).reverse
  let t := (sha256K.zip w).foldl sha256Round s
  ⟨(s.a + t.a) % 4294967296, (s.b + t.b) % 4294967296, (s.c + t.c) % 4294967296,
   (s.d + t.d) % 4294967296, (s.e + t.e) % 4294967296, (s.f + t.f) % 4294967296,
   (s.g + t.g) % 4294967296, (s.h + t.h) % 4294967296⟩

/-- Big-endian bytes of a 32-bit word. -/
def beBytes32 (x : Nat) : List Nat :=
  [x / 16777216 % 256, x / 65536 % 256, x / 256 % 256, x % 256]

/-- The padded message: a `0x80` byte, zeros up to 56 modulo 64, and the
bit length as a 64-bit big-endian number. -/
def sha256Pad (msg : List Nat) : List Nat :=
  let len := msg.length
  let zeros := (119 - len % 64) % 64
  let bits := len * 8
  msg ++ [0x80] ++ List.replicate zeros 0 ++
    beBytes32 (bits / 4294967296 % 4294967296) ++ beBytes32 (bits % 4294967296)

/-- Fold the compression function over the `n` blocks of a padded message. -/
def sha256Blocks : Nat → Sha256State → List Nat → Sha256State
  | 0, s, _ => s
  | n + 1, s, bytes => sha256Blocks n (sha256Block s (bytes.take 64)) (bytes.drop 64)

/-- The SHA-256 digest (`sha256.New`, `Write`, `Sum(nil)`): 32 bytes. -/
def sha256 (msg : List Nat) : List Nat :=
  let padded := sha256Pad msg
  let s := sha256Blocks (padded.length / 64) sha256Init padded
  beBytes32 s.a ++ beBytes32 s.b ++ beBytes32 s.c ++ beBytes32 s.d ++
    beBytes32 s.e ++ beBytes32 s.f ++ beBytes32 s.g ++ beBytes32 s.h

/-! ## `common.EnsureBase64Password` -/

/-- The test `EnsureBase64Password` applies to a password that decoded without
error: its length is the one the cipher named in `method` requires. -/
def keyLengthOk (method : String) (decoded : List Nat) : Bool :=
  (strContains method "aes-128-gcm" && decoded.length == 16) ||
    ((strContains method "aes-256-gcm" || strContains method "chacha20-poly1305")
      && decoded.length == 32)

/-- `EnsureBase64Password` of `common/helper.go`. -/
def EnsureBase64Password (password method : String) : String :=
  match b64Decode password with
  | some decodedBytes =>
    if keyLengthOk method decodedBytes then password
    else
      let hashBytes := sha256 (utf8Bytes password)
      let keyBytes := if strContains method "aes-128-gcm" then hashBytes.take 16
        else hashBytes.take 32
      b64Encode keyBytes
  | none =>
    let hashBytes := sha256 (utf8Bytes password)
    let keyBytes := if strContains method "aes-128-gcm" then hashBytes.take 16
      else hashBytes.take 32
    b64Encode keyBytes

/-! ## JSON values -/

/-- A value decoded by `encoding/json` into `interface{}`. -/
inductive JVal where
  | null
  | bool (b : Bool)
  | num (n : Int)
  | str (s : String)
  | arr (xs : List JVal)
  | obj (kvs : List (String × JVal))

/-- A decoded `map[string]interface{}`. A nil map reads as the empty list; that
the map `Settings` of an inbound, into which the sources store, is nil is
recorded beside it (`Clients.noMap`). -/
abbrev JMap := List (String × JVal)

/-- The comma-ok map read `v, ok := m[key]`. -/
def JMap.get (m : JMap) (key : String) : Option JVal :=
  m.lookup key

/-- The comparison `v == "lit"` of an `interface{}` with a string constant. -/
def JVal.eqStr (v : JVal) (lit : String) : Bool :=
  match v with
  | .str s => s == lit
  | _ => false

/-- The assertion `m[key].(string)` in comma-ok form. -/
def JMap.getStr (m : JMap) (key : String) : Option String :=
  match m.get key with
  | some (.str s) => some s
  | _ => none

/-- The assertion `m[key].(map[string]interface{})` in comma-ok form. -/
def JMap.getMap (m : JMap) (key : String) : Option JMap :=
  match m.get key with
  | some (.obj kvs) => some kvs
  | _ => none

/-! ## Users (`common.User`, generated from the protocol description) -/

/-- The VMess settings of a user. -/
structure Vmess where
  Id : String

/-- The VLess settings of a user. -/
structure Vless where
  Id : String
  Flow : String

/-- The Trojan settings of a user. -/
structure Trojan where
  Password : String

/-- The Shadowsocks settings of a user. -/
structure Shadowsocks where
  Password : String
  Method : String

/-- The per-protocol settings of a user; an absent message is `none`. -/
structure Proxy where
  Vmess : Option Vmess := none
  Vless : Option Vless := none
  Trojan : Option Trojan := none
  Shadowsocks : Option Shadowsocks := none

/-- A user of the directory. -/
structure User where
  Email : String
  Proxies : Option Proxy := none
  Inbounds : List String := []

/-- The getter chain `user.GetProxies().GetVmess()`. -/
def User.getVmess (user : User) : Option Vmess :=
  user.Proxies.bind (fun p => p.Vmess)

/-- The getter chain `user.GetProxies().GetVless()`. -/
def User.getVless (user : User) : Option Vless :=
  user.Proxies.bind (fun p => p.Vless)

/-- The getter chain `user.GetProxies().GetTrojan()`. -/
def User.getTrojan (user : User) : Option Trojan :=
  user.Proxies.bind (fun p => p.Trojan)

/-- The getter chain `user.GetProxies().GetShadowsocks()`. -/
def User.getShadowsocks (user : User) : Option Shadowsocks :=
  user.Proxies.bind (fun p => p.Shadowsocks)

/-! ## Accounts (`backend/xray/api/account.go`) -/

/-- A parsed UUID: its sixteen bytes. -/
abbrev UUID := List Nat

/-- The signature of `uuid.Parse` (package `github.com/google/uuid`), which the
account constructors take as a parameter; `none` is a parse error. -/
abbrev UUIDParser := String → Option UUID

/-- `VmessAccount`, with the fields of the embedded `BaseAccount`. -/
structure VmessAccount where
  Email : String
  Level : Nat
  ID : UUID
deriving DecidableEq

/-- `VlessAccount`. -/
structure VlessAccount where
  Email : String
  Level : Nat
  ID : UUID
  Flow : String
deriving DecidableEq

/-- `TrojanAccount`. -/
structure TrojanAccount where
  Email : String
  Level : Nat
  Password : String
deriving DecidableEq

/-- `ShadowsocksAccount`, the account of a Shadowsocks-2022 inbound. -/
structure ShadowsocksAccount where
  Email : String
  Level : Nat
  Password : String
deriving DecidableEq

/-- `ShadowsocksTcpAccount`, the account of a classic Shadowsocks inbound. -/
structure ShadowsocksTcpAccount where
  Email : String
  Level : Nat
  Password : String
  Method : String
deriving DecidableEq

/-- The keys of the table `CipherType_value`. -/
def CipherType_value_keys : List String :=
  ["aes-128-gcm", "aes-256-gcm", "chacha20-poly1305", "chacha20-ietf-poly1305",
   "xchacha20-poly1305", "xchacha20-ietf-poly1305", "none"]

/-- `NewVmessAccount`; `none` is the pair `(nil, err)`. -/
def NewVmessAccount (parse : UUIDParser) (user : User) : Option VmessAccount :=
  match parse ((user.getVmess.map (fun v => v.Id)).getD "") with
  | none => none
  | some id => some { Email := user.Email, Level := 0, ID := id }

/-- `NewVlessAccount`; `none` is the pair `(nil, err)`. -/
def NewVlessAccount (parse : UUIDParser) (user : User) : Option VlessAccount :=
  match parse ((user.getVless.map (fun v => v.Id)).getD "") with
  | none => none
  | some id =>
    some { Email := user.Email, Level := 0, ID := id,
           Flow := (user.getVless.map (fun v => v.Flow)).getD "" }

/-- `NewTrojanAccount`. -/
def NewTrojanAccount (user : User) : TrojanAccount :=
  { Email := user.Email, Level := 0,
    Password := (user.getTrojan.map (fun t => t.Password)).getD "" }

/-- `NewShadowsocksAccount`. -/
def NewShadowsocksAccount (user : User) : ShadowsocksAccount :=
  { Email := user.Email, Level := 0,
    Password := (user.getShadowsocks.map (fun s => s.Password)).getD "" }

/-- `NewShadowsocksTcpAccount`: a method outside `CipherType_value` becomes
`CipherType_name[9]`, which is `"none"`. -/
def NewShadowsocksTcpAccount (user : User) : ShadowsocksTcpAccount :=
  let method := (user.getShadowsocks.map (fun s => s.Method)).getD ""
  { Email := user.Email, Level := 0,
    Password := (user.getShadowsocks.map (fun s => s.Password)).getD "",
    Method := if CipherType_value_keys.contains method then method else "none" }

/-- `ProxySettings`: the accounts derived from one user, a nil pointer being
`none`. -/
structure ProxySettings where
  Vmess : Option VmessAccount := none
  Vless : Option VlessAccount := none
  Trojan : Option TrojanAccount := none
  Shadowsocks : Option ShadowsocksTcpAccount := none
  Shadowsocks2022 : Option ShadowsocksAccount := none

/-- A value of the interface `api.Account`: a non-nil pointer to one of the
five account types. -/
inductive Account where
  | vmess (a : VmessAccount)
  | vless (a : VlessAccount)
  | trojan (a : TrojanAccount)
  | shadowsocksTcp (a : ShadowsocksTcpAccount)
  | shadowsocks (a : ShadowsocksAccount)
deriving DecidableEq

/-- `Account.GetEmail`. -/
def Account.GetEmail : Account → String
  | .vmess a => a.Email
  | .vless a => a.Email
  | .trojan a => a.Email
  | .shadowsocksTcp a => a.Email
  | .shadowsocks a => a.Email

/-- `Account.GetLevel`. -/
def Account.GetLevel : Account → Nat
  | .vmess a => a.Level
  | .vless a => a.Level
  | .trojan a => a.Level
  | .shadowsocksTcp a => a.Level
  | .shadowsocks a => a.Level

/-! ## The configuration model (`backend/xray/config.go`) -/

/-- The map `Settings` as to its entry `clients`. The map is nil (`noMap`) when
the document gives the inbound no `settings` object: a nil map has no entry, a
read of it finds nothing and a store into it is a panic. Otherwise the entry
is what the engine document held (`raw`, `none` when the key is absent), or one
of the five typed slices the synchronisation code stores. A slice element is a
pointer, `none` being nil. -/
inductive Clients where
  | noMap
  | raw (v : Option JVal)
  | vmess (l : List (Option VmessAccount))
  | vless (l : List (Option VlessAccount))
  | trojan (l : List (Option TrojanAccount))
  | shadowsocksTcp (l : List (Option ShadowsocksTcpAccount))
  | shadowsocks (l : List (Option ShadowsocksAccount))

/-- `Inbound`. The map `Settings` is split into `clients`, which says whether
the map is nil and what its `clients` entry is, and the other entries
(`Settings`, of which a nil map has none); the lock is not part of the
sequential model. -/
structure Inbound where
  Tag : String
  Listen : String := ""
  Port : Option JVal := none
  Protocol : String
  clients : Clients := .raw none
  Settings : JMap := []
  StreamSettings : JMap := []
  Sniffing : Option JVal := none
  Allocation : JMap := []
  exclude : Bool := false

/-- `conf.LogConfig` of the engine. -/
structure LogConfig where
  AccessLog : String := ""
  ErrorLog : String := ""
  LogLevel : String := ""
  DNSLog : Bool := false

/-- `conf.RouterConfig` of the engine: the rule list, each rule a raw JSON
message given by the value it holds, and the other routing settings. -/
structure RouterConfig where
  RuleList : List JVal := []
  DomainStrategy : Option String := none
  Balancers : List JVal := []

/-- `conf.Policy` of the engine: the policy of one level. -/
structure Policy where
  Handshake : Option Nat := none
  ConnectionIdle : Option Nat := none
  UplinkOnly : Option Nat := none
  DownlinkOnly : Option Nat := none
  StatsUserUplink : Bool := false
  StatsUserDownlink : Bool := false
  StatsUserOnline : Bool := false
  BufferSize : Option Int := none

/-- `conf.SystemPolicy` of the engine. -/
structure SystemPolicy where
  StatsInboundUplink : Bool := false
  StatsInboundDownlink : Bool := false
  StatsOutboundUplink : Bool := false
  StatsOutboundDownlink : Bool := false

/-- `conf.PolicyConfig` of the engine. The map `Levels` is a partial function
from the level to its policy, `none` at the top being the nil map; every entry
of the map is a policy object. -/
structure PolicyConfig where
  Levels : Option (Nat → Option Policy) := none
  System : Option SystemPolicy := none

/-- `conf.APIConfig` of the engine. -/
structure APIConfig where
  Tag : String
  Services : List String

/-- `Config`: the fields the synchronisation engine reads or writes, and the
remaining sections of the document as JSON. -/
structure Config where
  LogConfig : Option LogConfig := none
  RouterConfig : Option RouterConfig := none
  InboundConfigs : List Inbound := []
  OutboundConfigs : Option JVal := none
  Policy : Option PolicyConfig := none
  API : Option APIConfig := none
  rest : JMap := []


/-! ## Account checks (`backend/xray/user.go`) -/

/-- `setupUserAccount`: an identifier that does not parse leaves the VMess or
VLess slot nil. -/
def setupUserAccount (parse : UUIDParser) (user : User) : ProxySettings :=
  { Vmess := if user.getVmess.isSome then NewVmessAccount parse user else none,
    Vless := if user.getVless.isSome then NewVlessAccount parse user else none,
    Trojan := if user.getTrojan.isSome then some (NewTrojanAccount user) else none,
    Shadowsocks :=
      if user.getShadowsocks.isSome then some (NewShadowsocksTcpAccount user) else none,
    Shadowsocks2022 :=
      if user.getShadowsocks.isSome then some (NewShadowsocksAccount user) else none }

/-- `checkVless`. -/
def checkVless (inbound : Inbound) (account : VlessAccount) : VlessAccount :=
  if account.Flow != "" then
    match inbound.StreamSettings.get "network" with
    | none => { account with Flow := "" }
    | some networkType =>
      if !(networkType.eqStr "tcp" || networkType.eqStr "raw" || networkType.eqStr "kcp") then
        { account with Flow := "" }
      else
        match inbound.StreamSettings.get "security" with
        | none => { account with Flow := "" }
        | some securityType =>
          if !(securityType.eqStr "tls" || securityType.eqStr "reality") then
            { account with Flow := "" }
          else
            let rawMap :=
              match inbound.StreamSettings.getMap "rawSettings" with
              | some m => some m
              | none => inbound.StreamSettings.getMap "tcpSettings"
            match rawMap with
            | none => account
            | some rawMap =>
              match rawMap.getMap "header" with
              | none => account
              | some headerMap =>
                match headerMap.getStr "Type" with
                | none => account
                | some headerType =>
                  if headerType == "http" then { account with Flow := "" } else account
  else account

/-- `checkShadowsocks2022`. -/
def checkShadowsocks2022 (method : String) (account : ShadowsocksAccount) :
    ShadowsocksAccount :=
  { account with Password := EnsureBase64Password account.Password method }

/-- The test `methodOk && strings.HasPrefix(method, "2022-blake3")` on an
inbound: the method when the inbound is a Shadowsocks-2022 one. -/
def Inbound.method2022 (i : Inbound) : Option String :=
  match i.Settings.getStr "method" with
  | some method => if hasPrefix method "2022-blake3" then some method else none
  | none => none

/-- `isActiveInbound`; `none` is the pair `(nil, false)`. -/
def isActiveInbound (inbound : Inbound) (inbounds : List String) (settings : ProxySettings) :
    Option Account :=
  if inbounds.contains inbound.Tag then
    if inbound.Protocol = "vless" then
      match settings.Vless with
      | none => none
      | some vless => some (.vless (checkVless inbound vless))
    else if inbound.Protocol = "vmess" then
      match settings.Vmess with
      | none => none
      | some vmess => some (.vmess vmess)
    else if inbound.Protocol = "trojan" then
      match settings.Trojan with
      | none => none
      | some trojan => some (.trojan trojan)
    else if inbound.Protocol = "shadowsocks" then
      match inbound.method2022 with
      | some method =>
        match settings.Shadowsocks2022 with
        | none => none
        | some ss => some (.shadowsocks (checkShadowsocks2022 method ss))
      | none =>
        match settings.Shadowsocks with
        | none => none
        | some ss => some (.shadowsocksTcp ss)
    else none
  else none

/-! ## Bulk synchronisation (`Config.syncUsers`) -/

/-- The VMess loop of `Inbound.syncUsers`. A failed `NewVmessAccount` is logged
and the loop goes on with the nil account it returned. -/
def vmessClients (parse : UUIDParser) (tag : String) : List User → List (Option VmessAccount)
  | [] => []
  | user :: rest =>
    if user.getVmess.isNone then vmessClients parse tag rest
    else
      let account := NewVmessAccount parse user
      if user.Inbounds.contains tag then account :: vmessClients parse tag rest
      else vmessClients parse tag rest

/-- The VLess loop of `Inbound.syncUsers`. A failed `NewVlessAccount` is logged;
`checkVless(i, *account)` then dereferences the nil account, a panic. -/
def vlessClients (parse : UUIDParser) (i : Inbound) : List User → Option (List (Option VlessAccount))
  | [] => some []
  | user :: rest =>
    if user.getVless.isNone then vlessClients parse i rest
    else
      let account := NewVlessAccount parse user
      if user.Inbounds.contains i.Tag then
        match account with
        | none => none
        | some account =>
          (vlessClients parse i rest).map (fun l => some (checkVless i account) :: l)
      else vlessClients parse i rest

/-- The Trojan loop of `Inbound.syncUsers`. -/
def trojanClients (tag : String) : List User → List (Option TrojanAccount)
  | [] => []
  | user :: rest =>
    if user.getTrojan.isNone then trojanClients tag rest
    else if user.Inbounds.contains tag then
      some (NewTrojanAccount user) :: trojanClients tag rest
    else trojanClients tag rest

/-- The Shadowsocks-2022 loop of `Inbound.syncUsers`. -/
def shadowsocks2022Clients (method tag : String) : List User → List (Option ShadowsocksAccount)
  | [] => []
  | user :: rest =>
    if user.getShadowsocks.isNone then shadowsocks2022Clients method tag rest
    else if user.Inbounds.contains tag then
      some (checkShadowsocks2022 method (NewShadowsocksAccount user))
        :: shadowsocks2022Clients method tag rest
    else shadowsocks2022Clients method tag rest

/-- The classic Shadowsocks loop of `Inbound.syncUsers`. -/
def shadowsocksTcpClients (tag : String) : List User → List (Option ShadowsocksTcpAccount)
  | [] => []
  | user :: rest =>
    if user.getShadowsocks.isNone then shadowsocksTcpClients tag rest
    else if user.Inbounds.contains tag then
      some (NewShadowsocksTcpAccount user) :: shadowsocksTcpClients tag rest
    else shadowsocksTcpClients tag rest

/-- The store `i.Settings["clients"] = clients`: an assignment to an entry of a
nil map is a panic (`none`). -/
def Inbound.storeClients (i : Inbound) (clients : Clients) : Option Inbound :=
  match i.clients with
  | .noMap => none
  | _ => some { i with clients := clients }

/-- `Inbound.syncUsers`; `none` is a panic. -/
def Inbound.syncUsers (parse : UUIDParser) (i : Inbound) (users : List User) : Option Inbound :=
  if i.Protocol = "vmess" then
    i.storeClients (.vmess (vmessClients parse i.Tag users))
  else if i.Protocol = "vless" then
    (vlessClients parse i users).bind (fun l => i.storeClients (.vless l))
  else if i.Protocol = "trojan" then
    i.storeClients (.trojan (trojanClients i.Tag users))
  else if i.Protocol = "shadowsocks" then
    match i.method2022 with
    | some method =>
      i.storeClients (.shadowsocks (shadowsocks2022Clients method i.Tag users))
    | none => i.storeClients (.shadowsocksTcp (shadowsocksTcpClients i.Tag users))
  else some i

/-- The loop of `Config.syncUsers` over the inbounds. -/
def syncUsersInbounds (parse : UUIDParser) (users : List User) : List Inbound → Option (List Inbound)
  | [] => some []
  | i :: rest =>
    if i.exclude then (syncUsersInbounds parse users rest).map (fun l => i :: l)
    else
      match i.syncUsers parse users with
      | none => none
      | some i2 => (syncUsersInbounds parse users rest).map (fun l => i2 :: l)

/-- `Config.syncUsers`; `none` is a panic. -/
def Config.syncUsers (parse : UUIDParser) (c : Config) (users : List User) : Option Config :=
  (syncUsersInbounds parse users c.InboundConfigs).map (fun l => { c with InboundConfigs := l })

/-! ## Single-user updates (`Inbound.updateUser`, `Inbound.removeUser`) -/

/-- The removal loop shared by `updateUser` and `removeUser`: the first client
whose email is `email` is cut out and the loop breaks. Reading `client.Email`
of a nil client is a panic (`none`). -/
def removeClient {α : Type} (emailOf : α → String) (email : String) :
    List (Option α) → Option (List (Option α))
  | [] => some []
  | none :: _ => none
  | some client :: rest =>
    if emailOf client = email then some rest
    else (removeClient emailOf email rest).map (fun l => some client :: l)

/-- `Inbound.updateUser`; `none` is a panic. Where `clients` is not a slice of
the type of the account, the loop runs over the empty slice. -/
def Inbound.updateUser (i : Inbound) (account : Account) : Option Inbound :=
  match account with
  | .vmess a =>
    let clients := match i.clients with
      | .vmess l => l
      | _ => []
    (removeClient VmessAccount.Email a.Email clients).bind
      (fun l => i.storeClients (.vmess (l ++ [some a])))
  | .vless a =>
    let clients := match i.clients with
      | .vless l => l
      | _ => []
    (removeClient VlessAccount.Email a.Email clients).bind
      (fun l => i.storeClients (.vless (l ++ [some a])))
  | .trojan a =>
    let clients := match i.clients with
      | .trojan l => l
      | _ => []
    (removeClient TrojanAccount.Email a.Email clients).bind
      (fun l => i.storeClients (.trojan (l ++ [some a])))
  | .shadowsocksTcp a =>
    let clients := match i.clients with
      | .shadowsocksTcp l => l
      | _ => []
    (removeClient ShadowsocksTcpAccount.Email a.Email clients).bind
      (fun l => i.storeClients (.shadowsocksTcp (l ++ [some a])))
  | .shadowsocks a =>
    let clients := match i.clients with
      | .shadowsocks l => l
      | _ => []
    match removeClient ShadowsocksAccount.Email a.Email clients with
    | none => none
    | some l =>
      match i.Settings.getStr "method" with
      | none => none
      | some method =>
        i.storeClients (.shadowsocks (l ++ [some (checkShadowsocks2022 method a)]))

/-- `Inbound.removeUser`; `none` is a panic. -/
def Inbound.removeUser (i : Inbound) (email : String) : Option Inbound :=
  if i.Protocol = "vmess" then
    let clients := match i.clients with
      | .vmess l => l
      | _ => []
    (removeClient VmessAccount.Email email clients).bind (fun l => i.storeClients (.vmess l))
  else if i.Protocol = "vless" then
    let clients := match i.clients with
      | .vless l => l
      | _ => []
    (removeClient VlessAccount.Email email clients).bind (fun l => i.storeClients (.vless l))
  else if i.Protocol = "trojan" then
    let clients := match i.clients with
      | .trojan l => l
      | _ => []
    (removeClient TrojanAccount.Email email clients).bind (fun l => i.storeClients (.trojan l))
  else if i.Protocol = "shadowsocks" then
    match i.method2022 with
    | some _ =>
      let clients := match i.clients with
        | .shadowsocks l => l
        | _ => []
      (removeClient ShadowsocksAccount.Email email clients).bind
        (fun l => i.storeClients (.shadowsocks l))
    | none =>
      let clients := match i.clients with
        | .shadowsocksTcp l => l
        | _ => []
      (removeClient ShadowsocksTcpAccount.Email email clients).bind
        (fun l => i.storeClients (.shadowsocksTcp l))
  else some i

/-! ## Live synchronisation of one user (`Xray.SyncUser`) -/

/-- A request sent to the engine through the handler. -/
inductive RpcCall where
  | removeInboundUser (tag email : String)
  | addInboundUser (tag : String) (account : Account)
deriving DecidableEq

/-- What the loop of `SyncUser` has produced: the inbounds as updated in memory,
the requests sent in order, and the accumulated `errMessage`. -/
structure SyncState where
  inbounds : List Inbound
  calls : List RpcCall
  errMessage : String

/-- The loop of `SyncUser` from the inbound at position `k` on. The outcome of
`AddInboundUser` for the inbound at position `k` is `addResult k`: `none` for
success, `some text` for an error whose `Error()` is `text`. The result of
`RemoveInboundUser` is discarded by the source. `none` is a panic. -/
def syncUserLoop (addResult : Nat → Option String) (user : User) (settings : ProxySettings) :
    Nat → List Inbound → String → Option SyncState
  | _, [], errMessage => some { inbounds := [], calls := [], errMessage := errMessage }
  | k, inbound :: rest, errMessage =>
    if inbound.exclude then
      (syncUserLoop addResult user settings (k + 1) rest errMessage).map
        (fun st => { st with inbounds := inbound :: st.inbounds })
    else
      match isActiveInbound inbound user.Inbounds settings with
      | some account =>
        match inbound.updateUser account with
        | none => none
        | some updated =>
          let errMessage2 := match addResult k with
            | some text => errMessage ++ "\n" ++ text
            | none => errMessage
          (syncUserLoop addResult user settings (k + 1) rest errMessage2).map
            (fun st => { st with
              inbounds := updated :: st.inbounds,
              calls := .removeInboundUser inbound.Tag user.Email
                :: .addInboundUser inbound.Tag account :: st.calls })
      | none =>
        match inbound.removeUser user.Email with
        | none => none
        | some updated =>
          (syncUserLoop addResult user settings (k + 1) rest errMessage).map
            (fun st => { st with
              inbounds := updated :: st.inbounds,
              calls := .removeInboundUser inbound.Tag user.Email :: st.calls })

/-- What `SyncUser` leaves behind: the inbounds in memory, the requests sent,
and the returned error (`none` for nil, else its message). -/
structure SyncResult where
  inbounds : List Inbound
  calls : List RpcCall
  err : Option String

/-- `Xray.SyncUser` on the inbounds of the configuration; `none` is a panic. -/
def SyncUser (parse : UUIDParser) (addResult : Nat → Option String) (inbounds : List Inbound)
    (user : User) : Option SyncResult :=
  (syncUserLoop addResult user (setupUserAccount parse user) 0 inbounds "").map
    (fun st =>
      { inbounds := st.inbounds, calls := st.calls,
        err := if st.errMessage != "" then some ("failed to add user:" ++ st.errMessage)
          else none })


/-! ## The administrative inbound and rule (`Config.ApplyAPI`) -/

/-- The loop body of `filterRules` on one rule: the raw message is unmarshalled
into a map, which fails (`none`) unless the message is an object or `null`;
the answer is whether `obj["outboundTag"]` is a string equal to `apiTag`. -/
def ruleTargets (apiTag : String) (raw : JVal) : Option Bool :=
  match raw with
  | .obj kvs =>
    match JMap.getStr kvs "outboundTag" with
    | some outboundTagValue => some (outboundTagValue == apiTag)
    | none => some false
  | .null => some false
  | _ => none

/-- `filterRules`; `none` is the error return `(nil, err)`. -/
def filterRules (rules : List JVal) (apiTag : String) : Option (List JVal) :=
  match rules with
  | [] => some []
  | raw :: rest =>
    match ruleTargets apiTag raw with
    | none => none
    | some true => filterRules rest apiTag
    | some false => (filterRules rest apiTag).map (fun filtered => raw :: filtered)

/-- The first loop of `ApplyAPI`, which ranges over the slice it had on entry
(`steps` elements are left, `i` is the index) while `c.InboundConfigs` is
reassigned in the body. The reassigned slice shares the backing array `arr`
and has length `len`: `append(s[:i], s[i+1:]...)` moves the elements
`i+1 .. len-1` one place down inside the array and leaves the elements from
`len-1` on where they were, and the range statement goes on reading the array.
The slice expression `s[i+1:]` panics (`none`) when `i+1` exceeds `len`. -/
def removeApiLoop : Nat → Nat → List Inbound → Nat → Option (List Inbound × Nat)
  | 0, _, arr, len => some (arr, len)
  | steps + 1, i, arr, len =>
    match arr[i]? with
    | none => none
    | some inbound =>
      if inbound.Tag = "API_INBOUND" then
        if i + 1 ≤ len then
          removeApiLoop steps (i + 1)
            (arr.take i ++ (arr.take len).drop (i + 1) ++ arr.drop (len - 1)) (len - 1)
        else none
      else removeApiLoop steps (i + 1) arr len

/-- The inbounds `c.InboundConfigs` holds after the first loop of `ApplyAPI`;
`none` is a panic. -/
def removeApiInbounds (inbounds : List Inbound) : Option (List Inbound) :=
  (removeApiLoop inbounds.length 0 inbounds inbounds.length).map (fun r => r.1.take r.2)

/-- `Config.checkPolicy`. -/
def Config.checkPolicy (c : Config) : Config :=
  let policy : PolicyConfig :=
    match c.Policy with
    | none =>
      { Levels := some (fun level =>
          if level = 0 then some { StatsUserUplink := true, StatsUserDownlink := true }
          else none),
        System := none }
    | some policy =>
      let levels : Nat → Option Gate.Policy := policy.Levels.getD (fun _ => none)
      match levels 0 with
      | none =>
        { policy with Levels := some (fun level =>
            if level = 0 then some { StatsUserUplink := true, StatsUserDownlink := true }
            else levels level) }
      | some zero =>
        { policy with Levels := some (fun level =>
            if level = 0 then some { zero with StatsUserDownlink := true, StatsUserUplink := true }
            else levels level) }
  let system : SystemPolicy :=
    match policy.System with
    | none =>
      { StatsInboundDownlink := false, StatsInboundUplink := false,
        StatsOutboundDownlink := true, StatsOutboundUplink := true }
    | some system => { system with StatsOutboundDownlink := true, StatsOutboundUplink := true }
  { c with Policy := some { policy with System := some system } }

/-- The inbound `ApplyAPI` inserts. -/
def apiInbound (apiPort : Int) : Inbound :=
  { Listen := "127.0.0.1", Port := some (.num apiPort), Protocol := "dokodemo-door",
    Settings := [("address", .str "127.0.0.1")], Tag := "API_INBOUND" }

/-- The rule `ApplyAPI` inserts, as `json.Marshal` writes the map (keys in
sorted order). -/
def apiRule : JVal :=
  .obj [("inboundTag", .arr [.str "API_INBOUND"]), ("outboundTag", .str "API"),
        ("source", .arr [.str "127.0.0.1"]), ("type", .str "field")]

/-- `Config.ApplyAPI`; `none` is a panic. The error of `filterRules` is
overwritten by the later assignment from `json.Marshal`, which cannot fail on
the rule, so the function returns nil whenever it returns; after a failed
`filterRules` the rule list is the nil slice. -/
def Config.ApplyAPI (c : Config) (apiPort : Int) : Option Config :=
  match removeApiInbounds c.InboundConfigs with
  | none => none
  | some inbounds =>
    let router : Gate.RouterConfig := c.RouterConfig.getD {}
    let ruleList := (filterRules router.RuleList "API").getD []
    let c1 : Config :=
      { c with
        InboundConfigs := inbounds,
        API := some { Services := ["HandlerService", "LoggerService", "StatsService"],
                      Tag := "API" },
        RouterConfig := some { router with RuleList := ruleList } }
    let c2 := c1.checkPolicy
    some { c2 with
      InboundConfigs := apiInbound apiPort :: c2.InboundConfigs,
      RouterConfig := some { router with RuleList := apiRule :: ruleList } }

/-- The rule list of a configuration, empty when there is no routing section. -/
def Config.rules (c : Config) : List JVal :=
  (c.RouterConfig.map (fun r => r.RuleList)).getD []

/-- The policy of a level, if the configuration has one. -/
def Config.level (c : Config) (k : Nat) : Option Gate.Policy :=
  (c.Policy.bind (fun p => p.Levels)).bind (fun levels => levels k)

/-- The system policy, if the configuration has one. -/
def Config.system (c : Config) : Option SystemPolicy :=
  c.Policy.bind (fun p => p.System)


/-! ## Cipher types and the engine message (`backend/xray/api/account.go`) -/

/-- The table `CipherType_name`. -/
def CipherType_name : List (Nat × String) :=
  [(5, "aes-128-gcm"), (6, "aes-256-gcm"), (7, "chacha20-poly1305"),
   (8, "xchacha20-poly1305"), (9, "none")]

/-- The table `CipherType_value`. -/
def CipherType_value : List (String × Nat) :=
  [("aes-128-gcm", 5), ("aes-256-gcm", 6), ("chacha20-poly1305", 7),
   ("chacha20-ietf-poly1305", 7), ("xchacha20-poly1305", 8),
   ("xchacha20-ietf-poly1305", 8), ("none", 9)]

/-- The message `shadowsocks.Account` of the engine, before it is marshalled. -/
structure ShadowsocksMessage where
  Password : String
  CipherType : Nat
deriving DecidableEq

/-- The account message `ShadowsocksTcpAccount.Message` builds: the cipher type
is `CipherType_value[sa.Method]`, the zero value when the key is missing. -/
def ShadowsocksTcpAccount.Message (sa : ShadowsocksTcpAccount) : ShadowsocksMessage :=
  { Password := sa.Password, CipherType := (CipherType_value.lookup sa.Method).getD 0 }

/-! ## Counter queries (`backend/xray/api/stats.go`) -/

/-- The loop of `strings.Split` for a separator that is not empty: `skip` is the
number of characters of a separator still to pass over, `acc` the segment
collected so far, in reverse. -/
def splitGo (sep : List Char) : Nat → List Char → List Char → List (List Char)
  | _, [], acc => [acc.reverse]
  | skip + 1, _ :: cs, acc => splitGo sep skip cs acc
  | 0, c :: cs, acc =>
    if sep.isPrefixOf (c :: cs) then acc.reverse :: splitGo sep (sep.length - 1) cs []
    else splitGo sep 0 cs (c :: acc)

/-- Go `strings.Split(s, sep)` for a separator that is not empty. -/
def strSplit (s sep : String) : List String :=
  (splitGo sep.data 0 s.data []).map String.mk

/-- A counter of the engine (`command.Stat`): its name and value. -/
structure Counter where
  Name : String
  Value : Int
deriving DecidableEq

/-- A record of `common.StatResponse` (`common.Stat`); `Type_` is its field
`Type`. -/
structure Stat where
  Name : String
  Type_ : String
  Link : String
  Value : Int
deriving DecidableEq

/-- The loop body of `GetUsersStats`, `GetInboundsStats` and
`GetOutboundsStats`: `link := parts[2]`, `statType := parts[3]`. An index out of
range is a panic (`none`). -/
def statOfAll (stat : Counter) : Option Stat :=
  let parts := strSplit stat.Name ">>>"
  match parts[1]?, parts[2]?, parts[3]? with
  | some name, some link, some statType =>
    some { Name := name, Type_ := statType, Link := link, Value := stat.Value }
  | _, _, _ => none

/-- The loop body of `GetUserStats`, `GetInboundStats` and `GetOutboundStats`:
`statType := parts[2]`, `link := parts[3]`. An index out of range is a panic
(`none`). -/
def statOfOne (stat : Counter) : Option Stat :=
  let parts := strSplit stat.Name ">>>"
  match parts[1]?, parts[2]?, parts[3]? with
  | some name, some statType, some link =>
    some { Name := name, Type_ := statType, Link := link, Value := stat.Value }
  | _, _, _ => none

/-- The engine's `QueryStats`, as the handler sees it: for a pattern and the
reset flag, an error text or the counters found. -/
abbrev StatsQuery := String → Bool → Except String (List Counter)

/-- The result of a statistics request: `none` is a panic, otherwise the error
text or the records. -/
abbrev StatsResult := Option (Except String (List Stat))

/-- The part common to the six requests: the query, then the loop over the
counters it returned. -/
def collectStats (query : StatsQuery) (pattern : String) (reset : Bool)
    (body : Counter → Option Stat) : StatsResult :=
  match query pattern reset with
  | .error err => some (.error err)
  | .ok counters => (counters.mapM body).map Except.ok

/-- `XrayHandler.GetUsersStats`. -/
def GetUsersStats (query : StatsQuery) (reset : Bool) : StatsResult :=
  collectStats query "user>>>" reset statOfAll

/-- `XrayHandler.GetInboundsStats`. -/
def GetInboundsStats (query : StatsQuery) (reset : Bool) : StatsResult :=
  collectStats query "inbound>>>" reset statOfAll

/-- `XrayHandler.GetOutboundsStats`. -/
def GetOutboundsStats (query : StatsQuery) (reset : Bool) : StatsResult :=
  collectStats query "outbound>>>" reset statOfAll

/-- `XrayHandler.GetUserStats`. -/
def GetUserStats (query : StatsQuery) (email : String) (reset : Bool) : StatsResult :=
  if email = "" then some (.error "email required")
  else collectStats query ("user>>>" ++ email ++ ">>>") reset statOfOne

/-- `XrayHandler.GetInboundStats`. -/
def GetInboundStats (query : StatsQuery) (tag : String) (reset : Bool) : StatsResult :=
  if tag = "" then some (.error "tag required")
  else collectStats query ("inbound>>>" ++ tag ++ ">>>") reset statOfOne

/-- `XrayHandler.GetOutboundStats`. -/
def GetOutboundStats (query : StatsQuery) (tag : String) (reset : Bool) : StatsResult :=
  if tag = "" then some (.error "tag required")
  else collectStats query ("outbound>>>" ++ tag ++ ">>>") reset statOfOne

/-- An engine that holds the given counters and answers a query with those
whose name contains the pattern. -/
def engineQuery (counters : List Counter) : StatsQuery :=
  fun pattern _ => .ok (counters.filter (fun c => strContains c.Name pattern))

/-! ## Loading the configuration (`NewXRayConfig`) -/

/-- `json.Unmarshal` of the engine document into a `Config`, a parameter of the
model; `none` is a decoding error. The field `exclude` of `Inbound` is not
exported, so the decoder never sets it (see `DecodesDocuments`). -/
abbrev ConfigDecoder := String → Option Config

/-- `NewXRayConfig`; `none` is the error return. -/
def NewXRayConfig (decode : ConfigDecoder) (config : String) (exclude : List String) :
    Option Config :=
  match decode config with
  | none => none
  | some xrayConfig =>
    some { xrayConfig with
      InboundConfigs := xrayConfig.InboundConfigs.map (fun i =>
        if exclude.contains i.Tag then { i with exclude := true } else i) }

/-! ## Errors and status codes (`errors`, `context`, `google.golang.org/grpc`) -/

/-- The status codes of `google.golang.org/grpc/codes`, in the order of their
numbers 0 to 16. -/
inductive Code
  | OK | Canceled | Unknown | InvalidArgument | DeadlineExceeded | NotFound
  | AlreadyExists | PermissionDenied | ResourceExhausted | FailedPrecondition
  | Aborted | OutOfRange | Unimplemented | Internal | Unavailable | DataLoss
  | Unauthenticated
  deriving DecidableEq, Repr

/-- The text `Code.String` prints for a code. -/
def Code.String : Code → String
  | .OK => "OK"
  | .Canceled => "Canceled"
  | .Unknown => "Unknown"
  | .InvalidArgument => "InvalidArgument"
  | .DeadlineExceeded => "DeadlineExceeded"
  | .NotFound => "NotFound"
  | .AlreadyExists => "AlreadyExists"
  | .PermissionDenied => "PermissionDenied"
  | .ResourceExhausted => "ResourceExhausted"
  | .FailedPrecondition => "FailedPrecondition"
  | .Aborted => "Aborted"
  | .OutOfRange => "OutOfRange"
  | .Unimplemented => "Unimplemented"
  | .Internal => "Internal"
  | .Unavailable => "Unavailable"
  | .DataLoss => "DataLoss"
  | .Unauthenticated => "Unauthenticated"

/-- The Go error values the supervisor meets: the two sentinels of `context`,
an `errors.New` value, an error that wraps another one (`fmt.Errorf` with
`%w`; `text` is the whole formatted message), and the status error of gRPC,
which has a code and a description and no `Unwrap` method. -/
inductive GoErr
  | contextCanceled
  | contextDeadlineExceeded
  | errorString (text : String)
  | wrapError (text : String) (err : GoErr)
  | statusError (c : Code) (desc : String)
  deriving DecidableEq, Repr

/-- The method `Error()`: the message of an error, which is also what the verb
`%v` prints. -/
def GoErr.Error : GoErr → String
  | .contextCanceled => "context canceled"
  | .contextDeadlineExceeded => "context deadline exceeded"
  | .errorString text => text
  | .wrapError text _ => text
  | .statusError c desc => "rpc error: code = " ++ c.String ++ " desc = " ++ desc

/-- The test `errors.Is(err, context.Canceled)`: `err` is the sentinel, or
wraps an error of which this holds. A status error is never the sentinel: its
`Is` method accepts status errors only, and it wraps nothing. -/
def isCanceled : GoErr → Bool
  | .contextCanceled => true
  | .wrapError _ err => isCanceled err
  | _ => false

/-! ## Health probes (`api/stats.go`, `jobs.go`) -/

/-- `command.SysStatsResponse`: the answer of the engine to the probe. -/
structure SysStatsResponse where
  NumGoroutine : Nat := 0
  NumGC : Nat := 0
  Alloc : Nat := 0
  TotalAlloc : Nat := 0
  Sys : Nat := 0
  Mallocs : Nat := 0
  Frees : Nat := 0
  LiveObjects : Nat := 0
  PauseTotalNs : Nat := 0
  Uptime : Nat := 0
  deriving DecidableEq, Repr

/-- `common.BackendStatsResponse`. -/
structure BackendStatsResponse where
  NumGoroutine : Nat := 0
  NumGc : Nat := 0
  Alloc : Nat := 0
  TotalAlloc : Nat := 0
  Sys : Nat := 0
  Mallocs : Nat := 0
  Frees : Nat := 0
  LiveObjects : Nat := 0
  PauseTotalNs : Nat := 0
  Uptime : Nat := 0
  deriving DecidableEq, Repr

/-- `XrayHandler.GetSysStats`, given what the call `client.GetSysStats` of the
stats service returned. An error of the call is not passed on:
`status.Errorf(codes.Unknown, ...)` makes a new status error with the code
`Unknown`, and the error of the call only contributes its message through
`%v`. `Xray.GetSysStats` forwards to this function. -/
def GetSysStats (rpc : Except GoErr SysStatsResponse) : Except GoErr BackendStatsResponse :=
  match rpc with
  | .error err => .error (.statusError .Unknown ("failed to get sys stats: " ++ err.Error))
  | .ok resp =>
    .ok { NumGoroutine := resp.NumGoroutine, NumGc := resp.NumGC, Alloc := resp.Alloc,
          TotalAlloc := resp.TotalAlloc, Sys := resp.Sys, Mallocs := resp.Mallocs,
          Frees := resp.Frees, LiveObjects := resp.LiveObjects,
          PauseTotalNs := resp.PauseTotalNs, Uptime := resp.Uptime }

/-- What the surroundings decide in one round of the health loop: whether the
lifetime context is done when the `select` at the top of the round looks at
it, what the probe call of the stats service returns, and what `x.Restart()`
returns should the round call it (`none` is the nil error). -/
structure HealthTick where
  done : Bool := false
  probe : Except GoErr SysStatsResponse
  restart : Option GoErr := none

/-- The state of `checkXrayHealth` between two rounds: the local variable
`consecutiveFailures`, the number of calls of `x.Restart()` made so far, and
whether the function has returned. -/
structure HealthRun where
  consecutiveFailures : Nat
  restarts : Nat
  returned : Bool
  deriving DecidableEq, Repr

/-- The local constant `maxFailures` of `checkXrayHealth`. -/
def maxFailures : Nat := 3

/-- The `for` loop of `checkXrayHealth` over the rounds the surroundings
provide. The counter is a Go `int`; it grows by at most one per round, so it
stays below `2^63` on every run of fewer rounds than that. -/
def checkXrayHealthLoop : Nat → Nat → List HealthTick → HealthRun
  | consecutiveFailures, restarts, [] =>
    { consecutiveFailures := consecutiveFailures, restarts := restarts, returned := false }
  | consecutiveFailures, restarts, t :: rest =>
    if t.done then
      { consecutiveFailures := consecutiveFailures, restarts := restarts, returned := true }
    else
      match GetSysStats t.probe with
      | .error err =>
        if isCanceled err then
          { consecutiveFailures := consecutiveFailures, restarts := restarts, returned := true }
        else
          if consecutiveFailures + 1 ≥ maxFailures then
            match t.restart with
            | some _ => checkXrayHealthLoop (consecutiveFailures + 1) (restarts + 1) rest
            | none => checkXrayHealthLoop 0 (restarts + 1) rest
          else checkXrayHealthLoop (consecutiveFailures + 1) restarts rest
      | .ok _ => checkXrayHealthLoop 0 restarts rest

/-- `Xray.checkXrayHealth`: the loop entered with `consecutiveFailures := 0`. -/
def checkXrayHealth (ticks : List HealthTick) : HealthRun :=
  checkXrayHealthLoop 0 0 ticks

/-! ## The log writer (`logger/logger.go`) -/

/-- `LogLevel` and its five constants. -/
inductive LogLevel
  | LogDebug | LogInfo | LogWarning | LogError | LogCritical
  deriving DecidableEq, Repr

/-- `Logger`: whether lines are echoed to the standard output, the two open
files, and the two `log.Logger` values writing to them. A file is given by its
path. -/
structure Logger where
  outputLogs : Bool
  accessLogFile : Option String := none
  errorLogFile : Option String := none
  accessLogger : Option String := none
  errorLogger : Option String := none
  deriving DecidableEq, Repr

/-- `logger.New`. -/
def Logger.New (outputLogs : Bool) : Logger :=
  { outputLogs := outputLogs }

/-- `openLogFile`: no file for the empty path; otherwise the directory is made
and the file opened for appending, `fs path` being the error of the file
system, if any. -/
def openLogFile (fs : String → Option GoErr) (path : String) : Except GoErr (Option String) :=
  if path = "" then .ok none
  else
    match fs path with
    | some err => .error err
    | none => .ok (some path)

/-- `Logger.SetLogFile`. -/
def Logger.SetLogFile (fs : String → Option GoErr) (l : Logger) (accessPath errorPath : String) :
    Logger × Option GoErr :=
  match openLogFile fs accessPath with
  | .error err =>
    ({ l with accessLogFile := none },
      some (.wrapError ("failed to open access log: " ++ err.Error) err))
  | .ok accessLogFile =>
    let l := { l with accessLogFile := accessLogFile }
    let l := if accessLogFile.isSome then { l with accessLogger := accessLogFile } else l
    match openLogFile fs errorPath with
    | .error err =>
      ({ l with errorLogFile := none },
        some (.wrapError ("failed to open error log: " ++ err.Error) err))
    | .ok errorLogFile =>
      let l := { l with errorLogFile := errorLogFile }
      let l := if errorLogFile.isSome then { l with errorLogger := errorLogFile } else l
      (l, none)

/-- One `Println`: through the `log.Logger` of the file at `path`, or to the
standard output. `text` is what is written, the line feed included. -/
inductive LogWrite
  | file (path : String) (text : String)
  | stdout (text : String)
  deriving DecidableEq, Repr

/-- `Logger.Log`: the writes it makes, in order. -/
def Logger.Log (l : Logger) (level : LogLevel) (message : String) : List LogWrite :=
  (match level with
    | .LogError | .LogCritical =>
      match l.errorLogger with
      | some path => [.file path (message ++ "\n")]
      | none => []
    | _ =>
      match l.accessLogger with
      | some path => [.file path (message ++ "\n")]
      | none => [])
  ++ (if l.outputLogs then [.stdout (message ++ "\n")] else [])

/-- `Logger.Close`: both files are closed and forgotten; the two `log.Logger`
values stay. -/
def Logger.Close (l : Logger) : Logger :=
  { l with accessLogFile := none, errorLogFile := none }

/-! ## The supervisor (`backend/xray/core.go`) -/

/-- `os.Process`, by its process id. -/
structure OsProcess where
  Pid : Int
  deriving DecidableEq, Repr

/-- `exec.Cmd`: the process, present once the command was started, and the
process state, present once `Wait` has reported the exit (the value is the
exit code). -/
structure Cmd where
  Process : Option OsProcess := none
  ProcessState : Option Int := none
  deriving DecidableEq, Repr

/-- The channel `logsChan`: its capacity and the lines waiting in it, oldest
first. -/
structure LogChan where
  cap : Nat
  buf : List String := []
  deriving DecidableEq, Repr

/-- `Core`. The cancel function is given by the process id of the child whose
log capture it ends. The lock `mu` is not a field: a call is entered with the
lock free and leaves it free. -/
structure Core where
  executablePath : String
  assetsPath : String
  configPath : String
  version : String
  process : Option Cmd := none
  processPID : Int := 0
  restarting : Bool := false
  logsChan : LogChan
  logger : Option Logger := none
  cancelFunc : Option Int := none
  deriving DecidableEq, Repr

/-- What the supervisor does to the operating system, the diagnostics printed
with the package `log` left out: `Process.Kill()` on the child,
`killProcessTree(pid)`, a call of a cancel function, the closing of the files
of a logger, the writing of `xray.json` (the document `doc`, indented) into a
directory, the opening of a log file, and the start of a child fed `stdin`. -/
inductive Effect
  | kill (pid : Int)
  | killProcessTree (pid : Int)
  | cancel (child : Int)
  | closeLogs (accessLogFile errorLogFile : Option String)
  | writeConfig (dir : String) (doc : String)
  | openLog (path : String)
  | spawn (pid : Int) (stdin : String)
  deriving DecidableEq, Repr

/-- `Core.Started`. -/
def Core.Started (c : Core) : Bool :=
  match c.process with
  | none => false
  | some process =>
    match process.Process with
    | none => false
    | some _ =>
      match process.ProcessState with
      | none => true
      | some _ => false

/-- What the surroundings decide during `Core.Stop`: whether `Wait` reports
within the five seconds, and whether `verifyProcessDead` still finds the
process afterwards. -/
structure StopEnv where
  exited : Bool := true
  alive : Bool := false

/-- `Core.Stop`: the state it leaves and what it did. -/
def Core.Stop (env : StopEnv) (c : Core) : Core × List Effect :=
  if !c.Started then (c, [])
  else
    let (c, killed) : Core × List Effect :=
      match c.process.bind (fun process => process.Process) with
      | some proc =>
        ({ c with processPID := proc.Pid },
          [.kill proc.Pid]
            ++ (if env.exited then [] else [.killProcessTree proc.Pid])
            ++ (if env.alive then [.killProcessTree proc.Pid] else []))
      | none => (c, [])
    let c := { c with process := none, processPID := 0 }
    let cancelled : List Effect :=
      match c.cancelFunc with
      | some child => [.cancel child]
      | none => []
    match c.logger with
    | some l =>
      ({ c with logger := none },
        killed ++ cancelled ++ [.closeLogs l.accessLogFile l.errorLogFile])
    | none => (c, killed ++ cancelled)

/-- `ProcessInfo`. -/
structure ProcessInfo where
  PID : Int
  PPID : Int
  IsZombie : Bool
  deriving DecidableEq, Repr

/-- The loop of `cleanupOrphanedProcesses`: the kills it makes, in order, and
the counter `killedCount`. `killProcessTree pid` is the error the call
`killProcessTree(pid)` returns (`none` is nil); it decides whether the kill is
counted. -/
def cleanupLoop (killProcessTree : Int → Option GoErr) (currentPID GatePID : Int) :
    List ProcessInfo → List Effect × Nat
  | [] => ([], 0)
  | procInfo :: rest =>
    let r := cleanupLoop killProcessTree currentPID GatePID rest
    if procInfo.PID = currentPID then r
    else
      let kill :=
        if procInfo.IsZombie ∧ (procInfo.PPID = 0 ∨ procInfo.PPID = 1) then true
        else if procInfo.PPID = GatePID then true
        else false
      if !kill then r
      else
        match killProcessTree procInfo.PID with
        | some _ => (.killProcessTree procInfo.PID :: r.1, r.2)
        | none => (.killProcessTree procInfo.PID :: r.1, r.2 + 1)

/-- `Core.cleanupOrphanedProcesses`, given what `findXrayProcesses` returned,
the process id of Gate and the errors of the kills: the error it returns and
the kills it makes. The counter only feeds a diagnostic. -/
def Core.cleanupOrphanedProcesses (found : Except GoErr (List ProcessInfo)) (GatePID : Int)
    (killProcessTree : Int → Option GoErr) (c : Core) : Option GoErr × List Effect :=
  match found with
  | .error err => (some (.wrapError ("failed to find xray processes: " ++ err.Error) err), [])
  | .ok processes =>
    let currentPID : Int :=
      match c.process.bind (fun process => process.Process) with
      | some proc => proc.Pid
      | none => 0
    (none, (cleanupLoop killProcessTree currentPID GatePID processes).1)

/-- `Config.RemoveLogFiles`: the two paths, and the configuration with the
paths cleared. `none` is the nil dereference of a missing log section. -/
def Config.RemoveLogFiles (c : Config) : Option (Config × String × String) :=
  match c.LogConfig with
  | none => none
  | some logConfig =>
    some ({ c with LogConfig := some { logConfig with AccessLog := "", ErrorLog := "" } },
      logConfig.AccessLog, logConfig.ErrorLog)

/-- What the surroundings decide during `Core.Start`: the document
`Config.ToBytes` produces for a configuration (`Start` drops the error of
`ToBytes`, so the model has none), the error of
`GenerateConfigFile`, what `findXrayProcesses` returns, the process id of
Gate, the errors of `killProcessTree`, the errors of the two pipes and of the
file system when a log file is opened, and what `cmd.Start()` gives: an error
or the process id of the new child. -/
structure StartEnv where
  ToBytes : Config → String
  GenerateConfigFile : Option GoErr := none
  found : Except GoErr (List ProcessInfo) := .ok []
  GatePID : Int
  killProcessTree : Int → Option GoErr := fun _ => none
  StdoutPipe : Option GoErr := none
  StderrPipe : Option GoErr := none
  fs : String → Option GoErr := fun _ => none
  cmdStart : Except GoErr Int

/-- What a call of `Start` or `Restart` leaves: the supervisor, the
configuration (which `Start` writes to), the error returned, and what was done
to the operating system. -/
structure StartResult where
  core : Core
  config : Config
  err : Option GoErr
  effects : List Effect

/-- `Core.Start`. -/
def Core.Start (env : StartEnv) (c : Core) (xConfig : Config) (debugMode : Bool) : StartResult :=
  match xConfig.LogConfig with
  | none => ⟨c, xConfig, some (.errorString "log config is empty"), []⟩
  | some logConfig =>
    let xConfig : Config :=
      if logConfig.LogLevel = "none" ∨ logConfig.LogLevel = "error" then
        { xConfig with LogConfig := some { logConfig with LogLevel := "warning" } }
      else xConfig
    match xConfig.RemoveLogFiles with
    | none =>
      -- not reached: the log section is present
      ⟨c, xConfig, some (.errorString "log config is empty"), []⟩
    | some (xConfig, accessFile, errorFile) =>
      let bytesConfig := env.ToBytes xConfig
      match (if debugMode then env.GenerateConfigFile else none) with
      | some err => ⟨c, xConfig, some err, []⟩
      | none =>
        let written : List Effect :=
          if debugMode then [.writeConfig c.configPath bytesConfig] else []
        if c.Started then
          ⟨c, xConfig, some (.errorString "xray is started already"), written⟩
        else
          let cleaned :=
            (c.cleanupOrphanedProcesses env.found env.GatePID env.killProcessTree).2
          let (c, leftover) : Core × List Effect :=
            match c.process.bind (fun process => process.Process) with
            | some proc =>
              ({ c with process := none, processPID := 0 },
                [.kill proc.Pid, .killProcessTree proc.Pid])
            | none => (c, [])
          match env.StdoutPipe with
          | some err => ⟨c, xConfig, some err, written ++ cleaned ++ leftover⟩
          | none =>
            match env.StderrPipe with
            | some err => ⟨c, xConfig, some err, written ++ cleaned ++ leftover⟩
            | none =>
              let (l, err) := (Logger.New debugMode).SetLogFile env.fs accessFile errorFile
              let c := { c with logger := some l }
              let opened : List Effect :=
                (l.accessLogFile.toList ++ l.errorLogFile.toList).map Effect.openLog
              match err with
              | some err => ⟨c, xConfig, some err, written ++ cleaned ++ leftover ++ opened⟩
              | none =>
                match env.cmdStart with
                | .error err =>
                  ⟨c, xConfig, some err, written ++ cleaned ++ leftover ++ opened⟩
                | .ok pid =>
                  ⟨{ c with process := some { Process := some { Pid := pid } },
                            processPID := pid, cancelFunc := some pid },
                    xConfig, none,
                    written ++ cleaned ++ leftover ++ opened ++ [.spawn pid bytesConfig]⟩

/-- `Core.Restart`. The deferred function clears the flag on every return
that follows its registration. -/
def Core.Restart (stopEnv : StopEnv) (startEnv : StartEnv) (c : Core) (config : Config)
    (debugMode : Bool) : StartResult :=
  if c.restarting then ⟨c, config, some (.errorString "xray is already restarting"), []⟩
  else
    let c := { c with restarting := true }
    let (c, stopped) := c.Stop stopEnv
    let r := c.Start startEnv config debugMode
    { r with core := { r.core with restarting := false }, effects := stopped ++ r.effects }

/-! ## The backend (`backend/xray/xray.go`) -/

/-- `Xray`: the configuration, the debug switch of the settings `cfg`, the
supervisor, and whether the lock `mu` is held (by another goroutine). -/
structure Xray where
  config : Config
  Debug : Bool
  core : Core
  mu : Bool := false

/-- What a call that starts by taking a lock comes to: it waits at the lock,
having done nothing, or it runs and returns. -/
inductive Call (α : Type)
  | waits
  | returns (a : α)

/-- `Xray.Restart`: with the lock held by someone else the call waits at
`x.mu.Lock()`; otherwise it holds the lock for the whole of `Core.Restart` and
releases it on return. -/
def Xray.Restart (stopEnv : StopEnv) (startEnv : StartEnv) (x : Xray) :
    Call (Xray × Option GoErr × List Effect) :=
  if x.mu then .waits
  else
    let r := x.core.Restart stopEnv startEnv x.config x.Debug
    .returns ({ x with config := r.config, core := r.core }, r.err, r.effects)

/-! ## Regular expressions (`regexp`) -/

/-- The regular expressions the sources use, as `regexp/syntax` parses them:
nothing, the empty string, one character of a class, alternation,
concatenation and repetition. -/
inductive Regex
  | zero
  | epsilon
  | cls (p : Char → Bool)
  | plus (a b : Regex)
  | comp (a b : Regex)
  | star (a : Regex)

/-- The expression matches the empty string. -/
def Regex.nullable : Regex → Bool
  | .zero => false
  | .epsilon => true
  | .cls _ => false
  | .plus a b => a.nullable || b.nullable
  | .comp a b => a.nullable && b.nullable
  | .star _ => true

/-- Alternation, with an alternative that matches nothing left out. -/
def Regex.mkPlus : Regex → Regex → Regex
  | .zero, b => b
  | a, .zero => a
  | a, b => .plus a b

/-- Concatenation, with the parts that match nothing or only the empty string
simplified away. -/
def Regex.mkComp : Regex → Regex → Regex
  | .zero, _ => .zero
  | .epsilon, b => b
  | a, b => .comp a b

/-- The expression for what may follow the character `c` in a match. -/
def Regex.deriv : Regex → Char → Regex
  | .zero, _ => .zero
  | .epsilon, _ => .zero
  | .cls p, c => if p c then .epsilon else .zero
  | .plus a b, c => .mkPlus (a.deriv c) (b.deriv c)
  | .comp a b, c =>
    if a.nullable then .mkPlus (.mkComp (a.deriv c) b) (b.deriv c)
    else .mkComp (a.deriv c) b
  | .star a, c => .mkComp (a.deriv c) (.star a)

/-- The expression matches the whole of the text. -/
def Regex.rmatch : Regex → List Char → Bool
  | r, [] => r.nullable
  | r, c :: cs => (r.deriv c).rmatch cs

/-- A literal text. -/
def Regex.lit : List Char → Regex
  | [] => .epsilon
  | c :: cs => .comp (.cls (fun x => x == c)) (Regex.lit cs)

/-- The operator `+`: once or more. -/
def Regex.many1 (a : Regex) : Regex :=
  .comp a (.star a)

/-- The operator `{n}`: exactly `n` times. -/
def Regex.times (a : Regex) : Nat → Regex
  | 0 => .epsilon
  | n + 1 => .comp a (a.times n)

/-- The class `.`: any character but the line feed. -/
def Regex.dot : Regex :=
  .cls (fun c => c != '\n')

/-- The class `\d`: an ASCII digit. -/
def Regex.digit : Regex :=
  .cls (fun c => '0' ≤ c && c ≤ '9')

/-- Any character at all. -/
def Regex.any : Regex :=
  .cls (fun _ => true)

/-- `Regexp.MatchString` for an expression without anchors: some substring of
the text matches. -/
def Regex.MatchString (r : Regex) (s : String) : Bool :=
  (Regex.comp (.star .any) (.comp r (.star .any))).rmatch s.data

/-! ## Log lines of the engine (`backend/xray/log.go`) -/

/-- The pattern `accessLogPattern`,
`from .+:\d+ accepted (tcp|udp):.+:\d+ \[.+\] email: .+`. -/
def accessLogPattern : Regex :=
  .comp (.lit "from ".data) <| .comp (.many1 .dot) <| .comp (.lit ":".data) <|
  .comp (.many1 .digit) <| .comp (.lit " accepted ".data) <|
  .comp (.plus (.lit "tcp".data) (.lit "udp".data)) <| .comp (.lit ":".data) <|
  .comp (.many1 .dot) <| .comp (.lit ":".data) <| .comp (.many1 .digit) <|
  .comp (.lit " [".data) <| .comp (.many1 .dot) <| .comp (.lit "] email: ".data) <|
  .many1 .dot

/-- `Core.detectLogType`: the writes it makes; `none` is the nil dereference of
a supervisor without logger. -/
def Core.detectLogType (c : Core) (log : String) : Option (List LogWrite) :=
  match c.logger with
  | none => none
  | some logger =>
    if accessLogPattern.MatchString log then some (logger.Log .LogInfo log)
    else some (logger.Log .LogError log)

/-! ## Waiting for the engine to start (`checkXrayStatus`, `jobs.go`) -/

/-- The first group of `logRegex`, `\d{4}/\d{2}/\d{2} \d{2}:\d{2}:\d{2}`. -/
def logRegexTime : Regex :=
  .comp (Regex.times .digit 4) <| .comp (.lit "/".data) <| .comp (Regex.times .digit 2) <|
  .comp (.lit "/".data) <| .comp (Regex.times .digit 2) <| .comp (.lit " ".data) <|
  .comp (Regex.times .digit 2) <| .comp (.lit ":".data) <| .comp (Regex.times .digit 2) <|
  .comp (.lit ":".data) (Regex.times .digit 2)

/-- The second group of `logRegex`, `[^]]+`. A negated class matches the line
feed too. -/
def logRegexLevel : Regex :=
  .many1 (.cls (fun c => c != ']'))

/-- The third group of `logRegex`, `.+`. -/
def logRegexText : Regex :=
  .many1 .dot

/-- The expression `logRegex` between its anchors,
`(\d{4}/\d{2}/\d{2} \d{2}:\d{2}:\d{2}) \[([^]]+)] (.+)`. -/
def logRegex : Regex :=
  .comp logRegexTime <| .comp (.lit " [".data) <| .comp logRegexLevel <|
  .comp (.lit "] ".data) logRegexText

/-- `logRegex.FindStringSubmatch`: the empty slice if the text does not match
from `^` to `$`; otherwise the text and its three groups. The first group is
the first 19 characters, the second starts at the 22nd and runs up to the next
`]`, the third is what follows that `]` and the blank after it. -/
def logRegexFindStringSubmatch (s : String) : List String :=
  if logRegex.rmatch s.data then
    let level := (s.data.drop 21).takeWhile (fun c => c != ']')
    [s, String.mk (s.data.take 19), String.mk level,
      String.mk (s.data.drop (21 + level.length + 2))]
  else []

/-- The body of the loop of `checkXrayStatus` for one line of the log channel:
`none` if the loop goes on, otherwise the error returned (`some none` is the
nil error). -/
def checkXrayStatusLine (version lastLog : String) : Option (Option GoErr) :=
  if strContains lastLog "core:" && strContains lastLog ("Xray " ++ version)
      && strContains lastLog "started" then
    some none
  else
    let submatch := logRegexFindStringSubmatch lastLog
    if submatch.length > 3 then
      if submatch.getD 2 "" = "Error" ∨ strContains (submatch.getD 3 "") "Failed to start" then
        some (some (.errorString ("failed to start xray: " ++ submatch.getD 3 "")))
      else none
    else
      if strContains lastLog "Failed to start" then
        some (some (.errorString ("failed to start xray: " ++ lastLog)))
      else none

/-- What the `select` of `checkXrayStatus` receives: a line of the log
channel, or the end of the ten seconds. -/
inductive StatusEvent
  | log (lastLog : String)
  | timeout
  deriving DecidableEq, Repr

/-- `Xray.checkXrayStatus` over what its `select` receives: `none` while the
loop is still waiting at the end of the list. -/
def checkXrayStatus (version : String) : List StatusEvent → Option (Option GoErr)
  | [] => none
  | .timeout :: _ => some (some (.errorString "failed to start xray: context timeout"))
  | .log lastLog :: rest =>
    match checkXrayStatusLine version lastLog with
    | some r => some r
    | none => checkXrayStatus version rest

/-! ## Not-found errors (`common/helper.go`, `controller/rest/stats.go`) -/

/-- Go `strings.HasSuffix`. -/
def hasSuffix (s suffix : String) : Bool :=
  suffix.data.isSuffixOf s.data

/-- `GrpcCodeToHTTP`. -/
def GrpcCodeToHTTP : Code → Nat
  | .OK => 200
  | .Canceled => 499
  | .InvalidArgument => 400
  | .Unauthenticated => 401
  | .PermissionDenied => 403
  | .NotFound => 404
  | .AlreadyExists => 409
  | .ResourceExhausted => 429
  | .FailedPrecondition => 412
  | .Aborted => 409
  | .OutOfRange => 400
  | .Unimplemented => 501
  | .Internal => 500
  | .Unavailable => 503
  | .DeadlineExceeded => 504
  | _ => 500

/-- `InterceptNotFound`; `none` is the nil error. `status.Error` with a code
other than `OK` makes a status error with the given description. -/
def InterceptNotFound (err : Option GoErr) : Option GoErr :=
  match err with
  | some e =>
    if hasSuffix e.Error "not found." then some (.statusError .NotFound e.Error)
    else some e
  | none => none

/-- The status an error is or wraps, as `errors.As` finds it: its code and
description. -/
def GoErr.grpcStatus : GoErr → Option (Code × String)
  | .statusError c desc => some (c, desc)
  | .wrapError _ err => err.grpcStatus
  | _ => none

/-- The pair `st, _ := status.FromError(err)` as far as `st.Code()` and
`st.Message()` show it: the nil status for the nil error (`none`; its code is
`OK`), the status of a status error, the code of a wrapped status with the
message of the wrapper, and otherwise `Unknown` with the message of the
error. -/
def statusFromError (err : Option GoErr) : Option (Code × String) :=
  match err with
  | none => none
  | some (.statusError c desc) => some (c, desc)
  | some e =>
    match e.grpcStatus with
    | some (c, _) => some (c, e.Error)
    | none => some (.Unknown, e.Error)

/-- `Status.Code` on the result of `statusFromError`. -/
def statusCode (st : Option (Code × String)) : Code :=
  match st with
  | none => .OK
  | some (c, _) => c

/-- The error branch of the REST handlers `GetStats`, `GetUserOnlineStat` and
`GetUserOnlineIpListStats`, entered with the non-nil error of the backend: the
body and the status code handed to `http.Error`. -/
def restError (err : GoErr) : String × Nat :=
  match InterceptNotFound (some err) with
  | some e => (e.Error, GrpcCodeToHTTP (statusCode (statusFromError (some e))))
  | none => ("", GrpcCodeToHTTP (statusCode (statusFromError none)))

/-! ## Capturing the output of the engine (`NewXRayCore`, `captureProcessLogs`) -/

/-- `NewXRayCore`, given what `refreshVersion` returns: the channel is made
with the capacity `logBufferSize`; `none` is the panic of `make` on a negative
size. -/
def NewXRayCore (refreshVersion : Except GoErr String)
    (executablePath assetsPath configPath : String) (logBufferSize : Int) :
    Option (Except GoErr Core) :=
  if logBufferSize < 0 then none
  else
    match refreshVersion with
    | .error err => some (.error err)
    | .ok version =>
      some (.ok { executablePath := executablePath, assetsPath := assetsPath,
                  configPath := configPath, version := version,
                  logsChan := { cap := logBufferSize.toNat } })

/-- The send `select { case c.logsChan <- output: default: }`: the channel
afterwards and whether the line was sent. A send on a buffered channel
proceeds when there is room in the buffer; a send on a channel of capacity 0
proceeds when a receiver is ready (`ready`), which then has the line. -/
def LogChan.offer (ready : Bool) (ch : LogChan) (output : String) : LogChan × Bool :=
  if ch.cap = 0 then (ch, ready)
  else if ch.buf.length < ch.cap then ({ ch with buf := ch.buf ++ [output] }, true)
  else (ch, false)

/-- One line the scanner delivers, with what the surroundings decide while it
is handled: whether the context of the capture is done at the `select`, and
whether a receiver is waiting at the channel. -/
structure Scanned where
  text : String
  done : Bool := false
  ready : Bool := false
  deriving DecidableEq, Repr

/-- What a run of `captureProcessLogs` leaves: the supervisor, the lines sent
on the channel, and the writes of the logger, both in order. -/
structure Capture where
  core : Core
  sent : List String
  writes : List LogWrite
  deriving DecidableEq, Repr

/-- `Core.captureProcessLogs` over the lines the scanner delivers; `none` is
the panic of `detectLogType`. -/
def Core.captureProcessLogs (c : Core) : List Scanned → Option Capture
  | [] => some { core := c, sent := [], writes := [] }
  | line :: rest =>
    if line.done then some { core := c, sent := [], writes := [] }
    else
      let offered := c.logsChan.offer line.ready line.text
      let c2 : Core := { c with logsChan := offered.1 }
      match c2.detectLogType line.text with
      | none => none
      | some written =>
        (Core.captureProcessLogs c2 rest).map (fun r =>
          { r with sent := (if offered.2 then [line.text] else []) ++ r.sent,
                   writes := written ++ r.writes })

/-! ## Enumerating the processes of the engine (`backend/xray/process_unix.go`) -/

/-- Go `unicode.IsSpace`, the separator test of `strings.Fields` and
`strings.TrimSpace`. -/
def IsSpace (c : Char) : Bool :=
  let n := c.toNat
  (9 ≤ n && n ≤ 13) || n == 32 || n == 0x85 || n == 0xA0 || n == 0x1680
    || (0x2000 ≤ n && n ≤ 0x200A) || n == 0x2028 || n == 0x2029 || n == 0x202F
    || n == 0x205F || n == 0x3000

/-- The loop of `strings.Fields`: `cur` is the field collected so far, in
reverse. -/
def fieldsGo : List Char → List Char → List String
  | [], cur => if cur.isEmpty then [] else [String.mk cur.reverse]
  | c :: cs, cur =>
    if IsSpace c then
      if cur.isEmpty then fieldsGo cs [] else String.mk cur.reverse :: fieldsGo cs []
    else fieldsGo cs (c :: cur)

/-- Go `strings.Fields`: the maximal runs of characters that are not white
space. -/
def Fields (s : String) : List String :=
  fieldsGo s.data []

/-- Go `strings.TrimSpace`. -/
def TrimSpace (s : String) : String :=
  String.mk ((s.data.dropWhile IsSpace).reverse.dropWhile IsSpace).reverse

/-- The digits of `strconv.Atoi`: the number read so far is `n`; `none` when a
character is not a decimal digit. -/
def atoiDigits : List Char → Nat → Option Nat
  | [], n => some n
  | c :: cs, n => if c.isDigit then atoiDigits cs (n * 10 + (c.toNat - 48)) else none

/-- Go `strconv.Atoi` on a 64-bit platform: an optional sign and at least one
decimal digit, the value within the range of `int`. `none` is an error, whose
text no caller reads. -/
def Atoi (s : String) : Option Int :=
  match s.data with
  | [] => none
  | c :: cs =>
    let neg := c == '-'
    let digits := if c == '-' || c == '+' then cs else c :: cs
    if digits.isEmpty then none
    else
      match atoiDigits digits 0 with
      | none => none
      | some n =>
        if neg then (if n ≤ 2 ^ 63 then some (-(n : Int)) else none)
        else if n < 2 ^ 63 then some (n : Int) else none

/-- Go `filepath.Base` on Unix: the last element of the path, trailing slashes
removed first. -/
def Base (path : String) : String :=
  if path = "" then "."
  else
    let stripped := (path.data.reverse.dropWhile (fun c => c == '/')).reverse
    let last := (stripped.reverse.takeWhile (fun c => c != '/')).reverse
    if last.isEmpty then "/" else String.mk last

/-- An entry of a directory (`os.DirEntry`): what `Name()` and `IsDir()`
return. -/
structure DirEntry where
  Name : String
  IsDir : Bool
  deriving DecidableEq, Repr

/-- What the host answers to the questions of `process_unix.go`, at the time of
one enumeration: `runtime.GOOS`, `filepath.Abs`, `filepath.EvalSymlinks`,
`os.ReadDir("/proc")`, `os.Readlink` of `/proc/<pid>/exe`, `os.ReadFile` of
`/proc/<pid>/stat`, the output of `ps -eo pid,ppid,state,command` and that of
`ps -p <pid> -o command=`. -/
structure Host where
  GOOS : String
  Abs : String → Except GoErr String
  EvalSymlinks : String → Except GoErr String
  ReadDir : Except GoErr (List DirEntry)
  exe : Int → Except GoErr String
  stat : Int → Except GoErr String
  ps : Except GoErr String
  psCommand : Int → Except GoErr String

/-- `pathsMatch`. -/
def pathsMatch (h : Host) (candidate target : String) : Bool :=
  if candidate = "" ∨ target = "" then false
  else
    match h.Abs candidate with
    | .error _ => false
    | .ok candidateAbs =>
      match h.Abs target with
      | .error _ => false
      | .ok targetAbs =>
        if candidateAbs = targetAbs then true
        else
          match h.EvalSymlinks candidateAbs, h.EvalSymlinks targetAbs with
          | .ok candidateReal, .ok targetReal => candidateReal == targetReal
          | _, _ => false

/-- `getProcessPath`. -/
def getProcessPath (h : Host) (pid : Int) : Except GoErr String :=
  match h.exe pid with
  | .ok path => .ok path
  | .error err =>
    match h.psCommand pid with
    | .error psErr =>
      .error (.wrapError ("failed to read process path: " ++ err.Error
        ++ " (ps fallback error: " ++ psErr.Error ++ ")") err)
    | .ok psOutput =>
      let cmdline := TrimSpace psOutput
      if cmdline = "" then
        .error (.errorString
          ("failed to read process path: empty command for pid " ++ toString pid))
      else
        match Fields cmdline with
        | [] =>
          .error (.errorString
            ("failed to read process path: empty command for pid " ++ toString pid))
        | first :: _ => .ok first

/-- The body of the loop of `findXrayProcessesFromProc` for one entry of
`/proc`: the process it appends, `none` where it continues. -/
def procEntry (h : Host) (absPath : String) (entry : DirEntry) : Option ProcessInfo :=
  if !entry.IsDir then none
  else
    match Atoi entry.Name with
    | none => none
    | some pid =>
      if pid ≤ 0 then none
      else
        match h.exe pid with
        | .error _ => none
        | .ok exePath =>
          if !pathsMatch h exePath absPath then none
          else
            match h.stat pid with
            | .error _ => none
            | .ok data =>
              match Fields data with
              | _ :: _ :: state :: ppidStr :: _ =>
                match Atoi ppidStr with
                | none => none
                | some ppid =>
                  some { PID := pid, PPID := ppid, IsZombie := state == "Z" || state == "z" }
              | _ => none

/-- `findXrayProcessesFromProc`. -/
def findXrayProcessesFromProc (h : Host) (absPath : String) :
    Except GoErr (List ProcessInfo) :=
  match h.ReadDir with
  | .error err => .error err
  | .ok entries => .ok (entries.filterMap (procEntry h absPath))

/-- The variable `match` of the loop of `findXrayProcesses`, for a process
number and the fourth field of its line: first the path found for the process,
then, if that did not match, the field and its last element. -/
def psMatch (h : Host) (absPath executableName cmdPath : String) (pid : Int) : Bool :=
  let byPath :=
    match getProcessPath h pid with
    | .ok procPath => pathsMatch h procPath absPath
    | .error _ => false
  if !byPath then pathsMatch h cmdPath absPath || Base cmdPath == executableName
  else byPath

/-- The body of the loop of `findXrayProcesses` for one line of the output of
`ps`: the process it appends, `none` where it continues. -/
def psLine (h : Host) (absPath executableName : String) (line : String) :
    Option ProcessInfo :=
  let line := TrimSpace line
  if line = "" ∨ hasPrefix line "PID" then none
  else
    match Fields line with
    | pidStr :: ppidStr :: state :: cmdPath :: _ =>
      match Atoi pidStr with
      | none => none
      | some pid =>
        match Atoi ppidStr with
        | none => none
        | some ppid =>
          if !psMatch h absPath executableName cmdPath pid then none
          else some { PID := pid, PPID := ppid, IsZombie := state == "Z" || state == "z" }
    | _ => none

/-- `findXrayProcesses`. -/
def findXrayProcesses (h : Host) (executablePath : String) :
    Except GoErr (List ProcessInfo) :=
  match h.Abs executablePath with
  | .error err => .error err
  | .ok absPath =>
    let fromProc : Option (List ProcessInfo) :=
      if h.GOOS = "linux" then
        match findXrayProcessesFromProc h absPath with
        | .ok procs => some procs
        | .error _ => none
      else none
    match fromProc with
    | some procs => .ok procs
    | none =>
      match h.ps with
      | .error err => .error (.wrapError ("failed to list processes: " ++ err.Error) err)
      | .ok output =>
        .ok ((strSplit output "\n").filterMap (psLine h absPath (Base absPath)))

/-! ## Vocabulary of the statements -/

/-- The method names one of the three ciphers `EnsureBase64Password` knows. -/
def namesCipher (method : String) : Bool :=
  strContains method "aes-128-gcm" || strContains method "aes-256-gcm"
    || strContains method "chacha20-poly1305"

/-- The key `EnsureBase64Password` derives by hashing: the base64 of the first
16 or 32 bytes of the SHA-256 digest of the password. -/
def hashedKey (password method : String) : String :=
  b64Encode
    (if strContains method "aes-128-gcm" then (sha256 (utf8Bytes password)).take 16
     else (sha256 (utf8Bytes password)).take 32)

/-- The value of a hexadecimal digit. -/
def hexValue (c : Char) : Option Nat :=
  if '0' ≤ c ∧ c ≤ '9' then some (c.toNat - '0'.toNat)
  else if 'a' ≤ c ∧ c ≤ 'f' then some (c.toNat - 'a'.toNat + 10)
  else if 'A' ≤ c ∧ c ≤ 'F' then some (c.toNat - 'A'.toNat + 10)
  else none

/-- The bytes written by a list of hexadecimal digits, two digits a byte. -/
def hexBytes : List Char → Option (List Nat)
  | [] => some []
  | [_] => none
  | a :: b :: rest =>
    match hexValue a, hexValue b, hexBytes rest with
    | some x, some y, some t => some ((x * 16 + y) :: t)
    | _, _, _ => none

/-- A parser for the canonical form `xxxxxxxx-xxxx-xxxx-xxxx-xxxxxxxxxxxx` of a
UUID, one of the forms `uuid.Parse` accepts. It stands for `uuid.Parse` where a
statement is applied to concrete users. -/
def canonicalUUID (s : String) : Option UUID :=
  let cs := s.data
  if cs.length = 36 ∧ cs[8]? = some '-' ∧ cs[13]? = some '-' ∧ cs[18]? = some '-'
      ∧ cs[23]? = some '-' then
    hexBytes (cs.filter (fun c => c != '-'))
  else none

/-- The transport test of `checkVless`: `network` is present and is one of
`tcp`, `raw`, `kcp`. -/
def Inbound.flowNetwork (i : Inbound) : Bool :=
  match i.StreamSettings.get "network" with
  | some v => v.eqStr "tcp" || v.eqStr "raw" || v.eqStr "kcp"
  | none => false

/-- The security test of `checkVless`: `security` is present and is one of
`tls`, `reality`. -/
def Inbound.flowSecurity (i : Inbound) : Bool :=
  match i.StreamSettings.get "security" with
  | some v => v.eqStr "tls" || v.eqStr "reality"
  | none => false

/-- The string stored under `key` in the `header` object of `rawSettings`, or
of `tcpSettings` when `rawSettings` is not an object. -/
def Inbound.headerField (i : Inbound) (key : String) : Option String :=
  let rawMap :=
    match i.StreamSettings.getMap "rawSettings" with
    | some m => some m
    | none => i.StreamSettings.getMap "tcpSettings"
  (rawMap.bind (fun m => JMap.getMap m "header")).bind (fun h => JMap.getStr h key)


/-- The inbound carries the tag of the administrative inbound. -/
def Inbound.isApi (i : Inbound) : Bool :=
  i.Tag == "API_INBOUND"

/-- The rule is an object whose `outboundTag` is the string `API`. -/
def targetsApi (raw : JVal) : Bool :=
  ruleTargets "API" raw == some true


/-- The accounts of a typed client slice, in order, as values of the interface
`api.Account`; nil elements carry no account, and an untyped `clients` entry
and a nil map have none. -/
def Clients.accounts : Clients → List Account
  | .noMap => []
  | .raw _ => []
  | .vmess l => l.reduceOption.map Account.vmess
  | .vless l => l.reduceOption.map Account.vless
  | .trojan l => l.reduceOption.map Account.trojan
  | .shadowsocksTcp l => l.reduceOption.map Account.shadowsocksTcp
  | .shadowsocks l => l.reduceOption.map Account.shadowsocks

/-- The accounts in the client list of an inbound. -/
def Inbound.accounts (i : Inbound) : List Account :=
  i.clients.accounts

/-- No element of a typed client slice is nil. -/
def Clients.noNil : Clients → Bool
  | .noMap => true
  | .raw _ => true
  | .vmess l => l.all Option.isSome
  | .vless l => l.all Option.isSome
  | .trojan l => l.all Option.isSome
  | .shadowsocksTcp l => l.all Option.isSome
  | .shadowsocks l => l.all Option.isSome

/-- The `clients` entry of the inbound is what a bulk synchronisation stores
for an inbound of its protocol when every identifier parses: the slice of the
protocol's account type (for Shadowsocks the one its method selects), no
element nil. An inbound of another protocol keeps what the document gave it:
the untyped entry, or no map at all. -/
def Inbound.typed (i : Inbound) : Bool :=
  if i.Protocol = "vmess" then
    match i.clients with
    | .vmess l => l.all Option.isSome
    | _ => false
  else if i.Protocol = "vless" then
    match i.clients with
    | .vless l => l.all Option.isSome
    | _ => false
  else if i.Protocol = "trojan" then
    match i.clients with
    | .trojan l => l.all Option.isSome
    | _ => false
  else if i.Protocol = "shadowsocks" then
    match i.method2022, i.clients with
    | some _, .shadowsocks l => l.all Option.isSome
    | none, .shadowsocksTcp l => l.all Option.isSome
    | _, _ => false
  else
    match i.clients with
    | .noMap => true
    | .raw _ => true
    | _ => false

/-- The protocol is one of the four whose clients the directory manages. -/
def managedProtocol (protocol : String) : Bool :=
  protocol == "vmess" || protocol == "vless" || protocol == "trojan"
    || protocol == "shadowsocks"

/-- The stores of the synchronisation code into `Settings` do not panic: the
inbound has the map, or its protocol is one for which nothing is stored. -/
def Inbound.storable (i : Inbound) : Bool :=
  match i.clients with
  | .noMap => !managedProtocol i.Protocol
  | _ => true

/-- What one pass of the loop of `SyncUser` does to an inbound in memory:
nothing when it is excluded, `updateUser` with the derived account when the
user is active on it, `removeUser` otherwise. -/
def syncInbound (user : User) (settings : ProxySettings) (inbound : Inbound) : Option Inbound :=
  if inbound.exclude then some inbound
  else
    match isActiveInbound inbound user.Inbounds settings with
    | some account => inbound.updateUser account
    | none => inbound.removeUser user.Email

/-- The requests one pass of the loop of `SyncUser` sends for an inbound: none
when it is excluded, otherwise a removal, followed by an addition when the user
is active on the inbound. -/
def inboundCalls (user : User) (settings : ProxySettings) (inbound : Inbound) : List RpcCall :=
  if inbound.exclude then []
  else
    match isActiveInbound inbound user.Inbounds settings with
    | some account =>
      [.removeInboundUser inbound.Tag user.Email, .addInboundUser inbound.Tag account]
    | none => [.removeInboundUser inbound.Tag user.Email]

/-- The account `updateUser` stores for the account it is given: a
Shadowsocks-2022 account has its key normalised once more, any other account is
stored as it is. -/
def storedAccount (inbound : Inbound) (account : Account) : Account :=
  match account with
  | .shadowsocks a =>
    match inbound.Settings.getStr "method" with
    | some method => .shadowsocks (checkShadowsocks2022 method a)
    | none => account
  | _ => account

/-- The live addition for the inbound at position `k` is attempted and fails
with the error text `text`. -/
def addFails (addResult : Nat → Option String) (user : User) (settings : ProxySettings)
    (inbounds : List Inbound) (k : Nat) (text : String) : Prop :=
  ∃ inbound, inbounds[k]? = some inbound ∧ inbound.exclude = false ∧
    (isActiveInbound inbound user.Inbounds settings).isSome = true ∧ addResult k = some text


/-- The error texts of the live additions that are attempted and fail, in the
order of the inbounds, `k` being the position of the first inbound of the
list. -/
def failedAdds (addResult : Nat → Option String) (user : User) (settings : ProxySettings) :
    Nat → List Inbound → List String
  | _, [] => []
  | k, inbound :: rest =>
    if inbound.exclude = false ∧
        (isActiveInbound inbound user.Inbounds settings).isSome = true then
      match addResult k with
      | some text => text :: failedAdds addResult user settings (k + 1) rest
      | none => failedAdds addResult user settings (k + 1) rest
    else failedAdds addResult user settings (k + 1) rest


/-- The text `SyncUser` accumulates in `errMessage` for the given error texts:
each one on a line of its own, preceded by a line feed. -/
def errorLines : List String → String
  | [] => ""
  | text :: rest => "\n" ++ text ++ errorLines rest


/-- The user supplied settings for the protocol: the test of `Inbound.syncUsers`
on `user.GetProxies()`. -/
def User.suppliedFor (user : User) (protocol : String) : Bool :=
  if protocol = "vmess" then user.getVmess.isSome
  else if protocol = "vless" then user.getVless.isSome
  else if protocol = "trojan" then user.getTrojan.isSome
  else if protocol = "shadowsocks" then user.getShadowsocks.isSome
  else false

/-- Every VMess and VLess identifier the users supply is accepted by the
parser. -/
def idsParse (parse : UUIDParser) (users : List User) : Prop :=
  ∀ u ∈ users,
    (∀ v, u.getVmess = some v → (parse v.Id).isSome = true) ∧
    (∀ v, u.getVless = some v → (parse v.Id).isSome = true)


/-- What holds of `json.Unmarshal` into a `Config`: every inbound it builds has
the unexported field `exclude` at its zero value. -/
def DecodesDocuments (decode : ConfigDecoder) : Prop :=
  ∀ s c, decode s = some c → ∀ i ∈ c.InboundConfigs, i.exclude = false

/-- The inbound tag a request to the engine carries. -/
def RpcCall.tag : RpcCall → String
  | .removeInboundUser tag _ => tag
  | .addInboundUser tag _ => tag

/-- A decoder for the examples: it knows one document, `doc`, which holds a
VMess inbound `managed` and a Trojan inbound `manual` with a client of its
own. -/
def sampleDecoder : ConfigDecoder :=
  fun s =>
    if s = "doc" then
      some { InboundConfigs :=
        [{ Tag := "managed", Protocol := "vmess" },
         { Tag := "manual", Protocol := "trojan",
           clients := .raw (some (.arr [.obj [("email", .str "hand@example.com")]])) }] }
    else none


/-- What it means for a text to match an expression, read off the syntax: the
meaning `regexp` gives to an expression without anchors applied to a whole
text. -/
inductive Regex.Matches : Regex → List Char → Prop
  | epsilon : Regex.Matches .epsilon []
  | cls {p : Char → Bool} {c : Char} : p c = true → Regex.Matches (.cls p) [c]
  | plusLeft {a b : Regex} {x : List Char} : Regex.Matches a x → Regex.Matches (.plus a b) x
  | plusRight {a b : Regex} {x : List Char} : Regex.Matches b x → Regex.Matches (.plus a b) x
  | comp {a b : Regex} {x y : List Char} :
      Regex.Matches a x → Regex.Matches b y → Regex.Matches (.comp a b) (x ++ y)
  | starNil {a : Regex} : Regex.Matches (.star a) []
  | starCons {a : Regex} {x y : List Char} :
      Regex.Matches a x → Regex.Matches (.star a) y → Regex.Matches (.star a) (x ++ y)

/-- A non-empty text without line feed: what `.+` matches. -/
def oneLine (s : String) : Prop :=
  s ≠ "" ∧ ∀ c ∈ s.data, c ≠ '\n'

/-- A non-empty text of ASCII digits: what `\d+` matches. -/
def allDigits (s : String) : Prop :=
  s ≠ "" ∧ ∀ c ∈ s.data, '0' ≤ c ∧ c ≤ '9'

/-- The line holds the phrase of an accepted connection: somewhere in it,
`from <source>:<port> accepted <tcp or udp>:<destination>:<port> [<route>]
email: <id>`, where source, destination, route and id are non-empty and on
one line and the ports are digits. -/
def AcceptedPhrase (line : String) : Prop :=
  ∃ pre src sport proto dst dport route email post : String,
    line = pre ++ "from " ++ src ++ ":" ++ sport ++ " accepted " ++ proto ++ ":" ++ dst
      ++ ":" ++ dport ++ " [" ++ route ++ "] email: " ++ email ++ post ∧
    oneLine src ∧ allDigits sport ∧ (proto = "tcp" ∨ proto = "udp") ∧ oneLine dst ∧
    allDigits dport ∧ oneLine route ∧ oneLine email

/-- The supervisor of `TestDetectLogType`: every field zero but the logger,
which was made with `New(false)` and has the two files open. -/
def testCore (accessLog errorLog : String) : Core :=
  { executablePath := "", assetsPath := "", configPath := "", version := "",
    logsChan := { cap := 0 },
    logger := some ((Logger.New false).SetLogFile (fun _ => none) accessLog errorLog).1 }

/-- The text is a time stamp of the form `2006/01/02 15:04:05`. -/
def TimeStamp (s : String) : Prop :=
  Regex.Matches logRegexTime s.data

/-- The process id `cleanupOrphanedProcesses` spares: that of the child the
supervisor holds, or 0 when it holds none. -/
def Core.currentPID (c : Core) : Int :=
  match c.process.bind (fun process => process.Process) with
  | some proc => proc.Pid
  | none => 0

/-- The process is to be reaped: it is not the current child, and it is a
zombie whose parent is process 0 or 1, or its parent is Gate itself. -/
def reaped (currentPID GatePID : Int) (p : ProcessInfo) : Bool :=
  decide (p.PID ≠ currentPID) &&
    ((p.IsZombie && (decide (p.PPID = 0) || decide (p.PPID = 1))) || decide (p.PPID = GatePID))

/-- The lines a run of `captureProcessLogs` handles: those before the first
one at which the context is done. -/
def handled (lines : List Scanned) : List Scanned :=
  lines.takeWhile (fun line => !line.done)

/-- The writes `detectLogType` makes for a line with the logger `l`. -/
def classified (l : Logger) (text : String) : List LogWrite :=
  if accessLogPattern.MatchString text then l.Log .LogInfo text else l.Log .LogError text

/-- The channel after the sends for the given lines. -/
def offeredAll (ch : LogChan) : List Scanned → LogChan
  | [] => ch
  | line :: rest => offeredAll (ch.offer line.ready line.text).1 rest

/-- A stand-in for `Config.ToBytes` that shows the two log paths of the
document. -/
def logPathsOf (c : Config) : String :=
  match c.LogConfig with
  | some logConfig => "access=" ++ logConfig.AccessLog ++ ";error=" ++ logConfig.ErrorLog
  | none => "no log section"

/-- A configuration whose logging block names an access log and an error
log. -/
def loggingConfig : Config :=
  { LogConfig := some { AccessLog := "/var/log/xray/access.log",
                        ErrorLog := "/var/log/xray/error.log", LogLevel := "warning" } }

/-- A supervisor as `NewXRayCore` makes it. -/
def freshCore : Core :=
  { executablePath := "/usr/local/bin/xray", assetsPath := "/usr/local/share/xray",
    configPath := "/var/lib/gate", version := "1.8.4", logsChan := { cap := 100 } }

/-- The first `Start` of `freshCore` on `loggingConfig`; the child is process
4242. -/
def firstStart : StartResult :=
  Core.Start { ToBytes := logPathsOf, GatePID := 100, cmdStart := .ok 4242 }
    freshCore loggingConfig false

/-- The `Restart` that follows `firstStart`, on the same configuration; the new
child is process 4243. -/
def thenRestart : StartResult :=
  Core.Restart {} { ToBytes := logPathsOf, GatePID := 100, cmdStart := .ok 4243 }
    firstStart.core firstStart.config false

/-- A channel of capacity 100 that holds 100 lines: nobody has read the live
tail. -/
def fullChan : LogChan :=
  { cap := 100, buf := List.replicate 100 "2024/01/15 10:30:44 [Info] earlier line" }

/-- The account is of the variant the client list of the inbound holds. -/
def Account.fits (a : Account) (i : Inbound) : Bool :=
  match a, i.clients with
  | .vmess _, .vmess _ => true
  | .vless _, .vless _ => true
  | .trojan _, .trojan _ => true
  | .shadowsocksTcp _, .shadowsocksTcp _ => true
  | .shadowsocks _, .shadowsocks _ => true
  | _, _ => false

/-- The accounts the bulk path stores in the inbound, taken with no client
list, for the one user: those of the client list after `Inbound.syncUsers` for
the list `[u]`; `none` is a panic. -/
def bulkAccounts (parse : UUIDParser) (i : Inbound) (u : User) : Option (List Account) :=
  (Inbound.syncUsers parse { i with clients := .raw none } [u]).map Inbound.accounts

/-- The accounts the single-user path stores in the inbound, taken with no
client list, for the user: those of the client list after the pass of the loop
of `SyncUser` (`setupUserAccount`, `isActiveInbound`, then `updateUser` or
`removeUser`); `none` is a panic. -/
def singleAccounts (parse : UUIDParser) (i : Inbound) (u : User) : Option (List Account) :=
  (syncInbound u (setupUserAccount parse u) { i with clients := .raw none }).map
    Inbound.accounts

/-- The flag of a process whose state field is `state`: set for `Z` and for
`z`. -/
def zombieState (state : String) : Bool :=
  state == "Z" || state == "z"

/-- What `/proc` says of the process `p`, for the executable at `absPath`: a
directory of `/proc` is named by its positive number, the link `exe` of that
number reads as a path that `pathsMatch` accepts, and the text of `stat` splits
into four fields or more, the fourth a number, the parent of `p`, the third the
state from which the flag of `p` is taken. -/
def listedInProc (h : Host) (absPath : String) (entries : List DirEntry)
    (p : ProcessInfo) : Prop :=
  (∃ entry ∈ entries, entry.IsDir = true ∧ Atoi entry.Name = some p.PID) ∧
  0 < p.PID ∧
  (∃ exePath, h.exe p.PID = .ok exePath ∧ pathsMatch h exePath absPath = true) ∧
  ∃ data first comm state ppidStr rest,
    h.stat p.PID = .ok data ∧
    Fields data = first :: comm :: state :: ppidStr :: rest ∧
    Atoi ppidStr = some p.PPID ∧ p.IsZombie = zombieState state

/-- What a line of the output of `ps` says of the process `p`, for the
executable at `absPath`: the line, trimmed, is not empty, does not begin with
`PID` and splits into four fields or more, the first two the numbers of `p` and
of its parent, the third the state from which the flag of `p` is taken; and
either the path found for the process or the fourth field is accepted by
`pathsMatch`, or the last element of the fourth field is that of `absPath`. -/
def listedByPs (h : Host) (absPath : String) (output : String) (p : ProcessInfo) : Prop :=
  ∃ line ∈ strSplit output "\n",
    TrimSpace line ≠ "" ∧ hasPrefix (TrimSpace line) "PID" = false ∧
    ∃ pidStr ppidStr state cmdPath rest,
      Fields (TrimSpace line) = pidStr :: ppidStr :: state :: cmdPath :: rest ∧
      Atoi pidStr = some p.PID ∧ Atoi ppidStr = some p.PPID ∧
      p.IsZombie = zombieState state ∧
      ((∃ procPath, getProcessPath h p.PID = .ok procPath
          ∧ pathsMatch h procPath absPath = true)
        ∨ pathsMatch h cmdPath absPath = true
        ∨ Base cmdPath = Base absPath)

/-- A host without `/proc`, on which `ps` lists one process, started from
`/opt/other/xray`. Paths are absolute and there are no links. -/
def hostWithPs : Host :=
  { GOOS := "darwin"
    Abs := fun path => .ok path
    EvalSymlinks := fun path => .ok path
    ReadDir := .error (.errorString "open /proc: no such file or directory")
    exe := fun _ => .error (.errorString "readlink: no such file or directory")
    stat := fun _ => .error (.errorString "open: no such file or directory")
    ps := .ok "  PID  PPID STAT COMMAND\n 4242     1 S    /opt/other/xray run -c /etc/xray.json\n"
    psCommand := fun pid =>
      if pid = 4242 then .ok "/opt/other/xray run -c /etc/xray.json\n"
      else .error (.errorString "exit status 1") }

/-- A Linux host on which process 4242, a child of process 1, runs the
executable `/usr/local/bin/x ray`; `/proc` also holds the file `version`. -/
def hostWithProc : Host :=
  { GOOS := "linux"
    Abs := fun path => .ok path
    EvalSymlinks := fun path => .ok path
    ReadDir := .ok [{ Name := "4242", IsDir := true }, { Name := "version", IsDir := false }]
    exe := fun pid =>
      if pid = 4242 then .ok "/usr/local/bin/x ray"
      else .error (.errorString "readlink: no such file or directory")
    stat := fun pid =>
      if pid = 4242 then .ok "4242 (x ray) S 1 4242 4242 0 -1 4194560 120 0 0 0\n"
      else .error (.errorString "open: no such file or directory")
    ps := .error (.errorString "exec: ps: executable file not found")
    psCommand := fun _ => .error (.errorString "exec: ps: executable file not found") }

/-- A Linux host on which two processes run `/usr/local/bin/xray`, 4242 and the
zombie 4300, and process 77 runs another executable. -/
def hostWithTwo : Host :=
  { GOOS := "linux"
    Abs := fun path => .ok path
    EvalSymlinks := fun path => .ok path
    ReadDir := .ok [{ Name := "77", IsDir := true }, { Name := "4242", IsDir := true },
      { Name := "4300", IsDir := true }, { Name := "self", IsDir := true }]
    exe := fun pid =>
      if pid = 4242 ∨ pid = 4300 then .ok "/usr/local/bin/xray"
      else if pid = 77 then .ok "/usr/sbin/sshd"
      else .error (.errorString "readlink: no such file or directory")
    stat := fun pid =>
      if pid = 4242 then .ok "4242 (xray) S 900 4242 4242 0 -1 4194560 120 0 0 0\n"
      else if pid = 4300 then .ok "4300 (xray) Z 1 4300 4300 0 -1 4194560 0 0 0 0\n"
      else if pid = 77 then .ok "77 (sshd) S 1 77 77 0 -1 4194560 9 0 0 0\n"
      else .error (.errorString "open: no such file or directory")
    ps := .error (.errorString "exec: ps: executable file not found")
    psCommand := fun _ => .error (.errorString "exec: ps: executable file not found") }

/-! # Theorems -/

/-! ## Base64 and SHA-256 -/

theorem b64Val_b64Char : ∀ n, n < 64 → b64Val (b64Char n) = some n := by decide

theorem b64Char_ne_pad : ∀ n, n < 64 → b64Char n ≠ '=' := by decide

theorem b64Char_kept : ∀ n, n < 64 → (b64Char n != '\n' && b64Char n != '\r') = true := by
  decide

theorem b64Char_mod_kept (x : Nat) :
    (b64Char (x % 64) != '\n' && b64Char (x % 64) != '\r') = true :=
  b64Char_kept _ (Nat.mod_lt _ (by decide))

theorem b64EncodeChars_filter (bs : List Nat) :
    (b64EncodeChars bs).filter (fun c => c != '\n' && c != '\r') = b64EncodeChars bs := by
  induction bs using b64EncodeChars.induct with
  | case1 => rfl
  | case2 b0 =>
    simp only [b64EncodeChars, List.filter_cons, b64Char_mod_kept, if_true]
    rfl
  | case3 b0 b1 =>
    simp only [b64EncodeChars, List.filter_cons, b64Char_mod_kept, if_true]
    rfl
  | case4 b0 b1 b2 rest ih =>
    simp only [b64EncodeChars, List.filter_cons, b64Char_mod_kept, if_true, ih]

theorem b64DecodeQuanta_encode (bs : List Nat) (h : ∀ b ∈ bs, b < 256) :
    b64DecodeQuanta (b64EncodeChars bs) = some bs := by
  induction bs using b64EncodeChars.induct with
  | case1 => rfl
  | case2 b0 =>
    have h0 : b0 < 256 := h b0 (by simp)
    simp only [b64EncodeChars, b64DecodeQuanta, b64Val_b64Char _ (Nat.mod_lt _ (by decide))]
    simp
    omega
  | case3 b0 b1 =>
    have h0 : b0 < 256 := h b0 (by simp)
    have h1 : b1 < 256 := h b1 (by simp)
    simp only [b64EncodeChars, b64DecodeQuanta, b64Val_b64Char _ (Nat.mod_lt _ (by decide))]
    simp [b64Char_ne_pad _ (Nat.mod_lt _ (by decide : 0 < 64))]
    omega
  | case4 b0 b1 b2 rest ih =>
    have h0 : b0 < 256 := h b0 (by simp)
    have h1 : b1 < 256 := h b1 (by simp)
    have h2 : b2 < 256 := h b2 (by simp)
    have hr : ∀ b ∈ rest, b < 256 := fun b hb => h b (by simp [hb])
    simp only [b64EncodeChars, b64DecodeQuanta, b64Val_b64Char _ (Nat.mod_lt _ (by decide))]
    simp [b64Char_ne_pad _ (Nat.mod_lt _ (by decide : 0 < 64)), ih hr]
    omega

theorem b64Decode_encode (bs : List Nat) (h : ∀ b ∈ bs, b < 256) :
    b64Decode (b64Encode bs) = some bs := by
  unfold b64Decode b64Encode
  simp only [b64EncodeChars_filter]
  exact b64DecodeQuanta_encode bs h

theorem sha256_length (msg : List Nat) : (sha256 msg).length = 32 := by
  simp [sha256, beBytes32]

theorem sha256_byte (msg : List Nat) : ∀ b ∈ sha256 msg, b < 256 := by
  intro b hb
  simp only [sha256, beBytes32, List.mem_append, List.mem_cons, List.mem_singleton, List.cons_append, List.nil_append, List.not_mem_nil, or_false] at hb
  omega

set_option maxRecDepth 100000 in
/-- The model of SHA-256 on the test vector `abc` of FIPS 180: the digest
`ba7816bf 8f01cfea 414140de 5dae2223 b00361a3 96177a9c b410ff61 f20015ad`,
written in base64. -/
theorem sha256_abc :
    b64Encode (sha256 (utf8Bytes "abc")) = "ungWv48Bz+pBQUDeXa4iI7ADYaOWF3qctBD/YfIAFa0=" := by
  decide

/-! ## `EnsureBase64Password` -/

theorem EnsureBase64Password_cases (p m : String) :
    (∃ d, b64Decode p = some d ∧ keyLengthOk m d = true ∧ EnsureBase64Password p m = p) ∨
    ((∀ d, b64Decode p = some d → keyLengthOk m d = false) ∧
      EnsureBase64Password p m = hashedKey p m) := by
  unfold EnsureBase64Password hashedKey
  cases hd : b64Decode p with
  | none => right; simp
  | some d =>
    cases hk : keyLengthOk m d with
    | true => left; exact ⟨d, rfl, hk, by simp [hk]⟩
    | false =>
      right
      refine ⟨?_, by simp [hk]⟩
      intro d2 h2
      cases h2
      exact hk

theorem b64Decode_hashedKey (p m : String) :
    b64Decode (hashedKey p m) =
      some (if strContains m "aes-128-gcm" then (sha256 (utf8Bytes p)).take 16
        else (sha256 (utf8Bytes p)).take 32) := by
  unfold hashedKey
  apply b64Decode_encode
  intro b hb
  split at hb <;> exact sha256_byte _ b (List.mem_of_mem_take hb)

theorem keyLengthOk_hashedKey (p m : String) (h : namesCipher m = true) :
    keyLengthOk m (if strContains m "aes-128-gcm" then (sha256 (utf8Bytes p)).take 16
        else (sha256 (utf8Bytes p)).take 32) = true := by
  unfold namesCipher at h
  unfold keyLengthOk
  cases h1 : strContains m "aes-128-gcm" <;>
    simp [h1, sha256_length] at h ⊢
  exact h

theorem EnsureBase64Password_valid (p m : String) (h : namesCipher m = true) :
    ∃ d, b64Decode (EnsureBase64Password p m) = some d ∧ keyLengthOk m d = true := by
  rcases EnsureBase64Password_cases p m with ⟨d, hd, hk, he⟩ | ⟨_, he⟩
  · exact ⟨d, by rw [he]; exact hd, hk⟩
  · rw [he]
    exact ⟨_, b64Decode_hashedKey p m, keyLengthOk_hashedKey p m h⟩

theorem EnsureBase64Password_fixed (key m : String) (d : List Nat)
    (hd : b64Decode key = some d) (hk : keyLengthOk m d = true) :
    EnsureBase64Password key m = key := by
  unfold EnsureBase64Password
  simp [hd, hk]

/-- C3, as amended: when the method names one of the three ciphers
(`aes-128-gcm`, `aes-256-gcm`, `chacha20-poly1305`), normalising a password
twice gives the same key as normalising it once; and for every method, a
password that decodes as base64 to the length the method's cipher requires is
returned unchanged. -/
theorem EnsureBase64Password_idempotent (p m : String) (h : namesCipher m = true) :
    EnsureBase64Password (EnsureBase64Password p m) m = EnsureBase64Password p m ∧
    ∀ key d, b64Decode key = some d → keyLengthOk m d = true →
      EnsureBase64Password key m = key := by
  refine ⟨?_, fun key d hd hk => EnsureBase64Password_fixed key m d hd hk⟩
  obtain ⟨d, hd, hk⟩ := EnsureBase64Password_valid p m h
  exact EnsureBase64Password_fixed _ m d hd hk

/-- The idempotence of C3 at the password `try a random string` and the method
`2022-blake3-aes-128-gcm`. -/
theorem EnsureBase64Password_idempotent_witness :
    EnsureBase64Password (EnsureBase64Password "try a random string" "2022-blake3-aes-128-gcm")
        "2022-blake3-aes-128-gcm"
      = EnsureBase64Password "try a random string" "2022-blake3-aes-128-gcm" :=
  (EnsureBase64Password_idempotent "try a random string" "2022-blake3-aes-128-gcm"
    (by decide)).1

set_option maxRecDepth 100000 in
/-- C3, counterexample: the method `2022-blake3-chacha8-poly1305` has the prefix
`2022-blake3`, so the Shadowsocks-2022 path hands it to `EnsureBase64Password`,
yet it names none of the three ciphers: the key derived from `password` is
hashed again by a second normalisation. -/
theorem EnsureBase64Password_not_idempotent :
    hasPrefix "2022-blake3-chacha8-poly1305" "2022-blake3" = true ∧
    EnsureBase64Password (EnsureBase64Password "password" "2022-blake3-chacha8-poly1305")
        "2022-blake3-chacha8-poly1305"
      ≠ EnsureBase64Password "password" "2022-blake3-chacha8-poly1305" := by
  decide

theorem EnsureBase64Password_length (p m : String) (k : Nat)
    (h128 : strContains m "aes-128-gcm" = (k == 16))
    (h256 : (strContains m "aes-256-gcm" || strContains m "chacha20-poly1305") = (k == 32))
    (hk : k = 16 ∨ k = 32) :
    ∃ d, b64Decode (EnsureBase64Password p m) = some d ∧ d.length = k ∧
      ((∀ d0, b64Decode p = some d0 → d0.length ≠ k) →
        EnsureBase64Password p m = b64Encode ((sha256 (utf8Bytes p)).take k) ∧
        d = (sha256 (utf8Bytes p)).take k) := by
  have hlen : ∀ d0 : List Nat, keyLengthOk m d0 = true ↔ d0.length = k := by
    intro d0
    unfold keyLengthOk
    rw [h128, h256]
    rcases hk with rfl | rfl <;> simp
  have hkey : (if strContains m "aes-128-gcm" then (sha256 (utf8Bytes p)).take 16
        else (sha256 (utf8Bytes p)).take 32) = (sha256 (utf8Bytes p)).take k := by
    rcases hk with rfl | rfl <;> simp [h128]
  rcases EnsureBase64Password_cases p m with ⟨d, hd, hok, he⟩ | ⟨_, he⟩
  · refine ⟨d, by rw [he]; exact hd, (hlen d).1 hok, ?_⟩
    intro hno
    exact absurd ((hlen d).1 hok) (hno d hd)
  · rw [he]
    refine ⟨_, b64Decode_hashedKey p m, ?_, fun _ => ⟨?_, hkey⟩⟩
    · rw [hkey]
      rcases hk with rfl | rfl <;> simp [sha256_length]
    · unfold hashedKey
      rw [hkey]

/-- C4: for every password, `EnsureBase64Password` returns a string that
`StdEncoding` decodes to exactly 16 bytes for `2022-blake3-aes-128-gcm` and to
exactly 32 bytes for `2022-blake3-aes-256-gcm` and
`2022-blake3-chacha20-poly1305`; when the password is not already a base64 key
of that length, the result is the base64 of the first 16 (32) bytes of the
SHA-256 digest of the password's UTF-8 bytes, and decodes to those bytes. The
result is a function of the two arguments: equal inputs give equal outputs. -/
theorem EnsureBase64Password_key (p : String) :
    (∃ d, b64Decode (EnsureBase64Password p "2022-blake3-aes-128-gcm") = some d ∧
      d.length = 16 ∧
      ((∀ d0, b64Decode p = some d0 → d0.length ≠ 16) →
        EnsureBase64Password p "2022-blake3-aes-128-gcm"
            = b64Encode ((sha256 (utf8Bytes p)).take 16) ∧
        d = (sha256 (utf8Bytes p)).take 16)) ∧
    (∃ d, b64Decode (EnsureBase64Password p "2022-blake3-aes-256-gcm") = some d ∧
      d.length = 32 ∧
      ((∀ d0, b64Decode p = some d0 → d0.length ≠ 32) →
        EnsureBase64Password p "2022-blake3-aes-256-gcm"
            = b64Encode ((sha256 (utf8Bytes p)).take 32) ∧
        d = (sha256 (utf8Bytes p)).take 32)) ∧
    (∃ d, b64Decode (EnsureBase64Password p "2022-blake3-chacha20-poly1305") = some d ∧
      d.length = 32 ∧
      ((∀ d0, b64Decode p = some d0 → d0.length ≠ 32) →
        EnsureBase64Password p "2022-blake3-chacha20-poly1305"
            = b64Encode ((sha256 (utf8Bytes p)).take 32) ∧
        d = (sha256 (utf8Bytes p)).take 32)) ∧
    (∀ q m1 m2, q = p → m1 = m2 → EnsureBase64Password q m1 = EnsureBase64Password p m2) :=
  ⟨EnsureBase64Password_length p _ 16 (by decide) (by decide) (Or.inl rfl),
   EnsureBase64Password_length p _ 32 (by decide) (by decide) (Or.inr rfl),
   EnsureBase64Password_length p _ 32 (by decide) (by decide) (Or.inr rfl),
   fun _ _ _ hq hm => by rw [hq, hm]⟩

/-! ## `checkVless` -/

/-- What `checkVless` computes: the flow survives exactly when the network and
security tests pass and the header map holds no string `http` under the key
`Type`, the key the source reads. -/
theorem checkVless_flow (i : Inbound) (a : VlessAccount) :
    checkVless i a =
      if i.flowNetwork && i.flowSecurity && (i.headerField "Type" != some "http") then a
      else { a with Flow := "" } := by
  unfold checkVless Inbound.flowNetwork Inbound.flowSecurity Inbound.headerField
  have hfin : ∀ x : Option String,
      (match x with
        | none => a
        | some headerType => if (headerType == "http") = true then { a with Flow := "" } else a)
        = if x = some "http" then { a with Flow := "" } else a := by
    intro x
    cases x with
    | none => simp
    | some t => by_cases ht : t = "http" <;> simp [ht]
  have hhead : ∀ rawMap : Option JMap,
      (match rawMap with
        | none => a
        | some rawMap =>
          match rawMap.getMap "header" with
          | none => a
          | some headerMap =>
            match headerMap.getStr "Type" with
            | none => a
            | some headerType =>
              if (headerType == "http") = true then { a with Flow := "" } else a)
        = if (rawMap.bind (fun m => JMap.getMap m "header")).bind
              (fun h => JMap.getStr h "Type") = some "http"
          then { a with Flow := "" } else a := by
    intro rawMap
    cases rawMap with
    | none => simp
    | some m =>
      cases hh : JMap.getMap m "header" with
      | none => simp [hh]
      | some hm => simpa [hh] using hfin (JMap.getStr hm "Type")
  by_cases hf : a.Flow = ""
  · have : ({ a with Flow := "" } : VlessAccount) = a := by cases a; simp_all
    simp [hf, this]
  · cases hn : i.StreamSettings.get "network" with
    | none => simp [hf]
    | some n =>
      cases hs : i.StreamSettings.get "security" with
      | none => simp [hf]
      | some s =>
        by_cases hn2 : (n.eqStr "tcp" || n.eqStr "raw" || n.eqStr "kcp") = true
        · by_cases hs2 : (s.eqStr "tls" || s.eqStr "reality") = true
          · simp only [bne_iff_ne, ne_eq, hf, not_false_eq_true, decide_True, hn2, hs2,
              Bool.not_true, Bool.false_eq_true, if_false, if_true, Bool.true_and,
              Bool.and_self, decide_not, Bool.not_eq_true', decide_eq_false_iff_not]
            rw [hhead]
            split <;> simp_all
          · simp [hf, hn2, hs2]
        · simp [hf, hn2]

/-- C2, the input on which the code departs from the claim: a `tcp` inbound with
security `tls` whose `tcpSettings` header has `"type": "http"`, as the engine's
documents spell it. `checkVless` looks the header type up under the key `Type`,
finds nothing and keeps the flow `xtls-rprx-vision`, where the claim has it
cleared. -/
theorem checkVless_http_header_keeps_flow :
    Inbound.headerField
        { Tag := "VLESS TCP Header TLS", Protocol := "vless",
          StreamSettings := [("network", .str "tcp"), ("security", .str "tls"),
            ("tcpSettings", .obj [("header", .obj [("type", .str "http")])])] }
        "type" = some "http" ∧
    (checkVless
        { Tag := "VLESS TCP Header TLS", Protocol := "vless",
          StreamSettings := [("network", .str "tcp"), ("security", .str "tls"),
            ("tcpSettings", .obj [("header", .obj [("type", .str "http")])])] }
        { Email := "u@example.com", Level := 0, ID := [], Flow := "xtls-rprx-vision" }).Flow
      = "xtls-rprx-vision" := by
  decide

/-! ## `Config.syncUsers` -/

/-- C1, the input on which the code departs from the claim: a user who lists the
inbound `in` and supplies an identifier that `uuid.Parse` rejects. On a VMess
inbound the nil account returned with the error is appended, so the client list
is one nil entry and no entry carries the user's email; on a VLess inbound the
nil account is dereferenced and `syncUsers` panics. -/
theorem syncUsers_unparsed_id (parse : UUIDParser) (h : parse "not-a-uuid" = none) :
    (Config.syncUsers parse
        { InboundConfigs := [{ Tag := "in", Protocol := "vmess" }] }
        [{ Email := "u@example.com", Inbounds := ["in"],
           Proxies := some { Vmess := some { Id := "not-a-uuid" } } }]).map
      (fun c => c.InboundConfigs.map (fun i =>
        match i.clients with
        | .vmess l => some l
        | _ => none))
      = some [some [none]] ∧
    (Config.syncUsers parse
        { InboundConfigs := [{ Tag := "in", Protocol := "vless" }] }
        [{ Email := "u@example.com", Inbounds := ["in"],
           Proxies := some { Vless := some { Id := "not-a-uuid", Flow := "" } } }]).isNone
      = true := by
  simp [Config.syncUsers, syncUsersInbounds, Inbound.syncUsers, Inbound.storeClients, vmessClients,
    vlessClients,
    NewVmessAccount, NewVlessAccount, User.getVmess, User.getVless, h]

/-- The panic of C1 with the parser of the canonical form, which rejects
`not-a-uuid`. -/
theorem syncUsers_unparsed_id_witness :
    (Config.syncUsers canonicalUUID
        { InboundConfigs := [{ Tag := "in", Protocol := "vless" }] }
        [{ Email := "u@example.com", Inbounds := ["in"],
           Proxies := some { Vless := some { Id := "not-a-uuid", Flow := "" } } }]).isNone
      = true :=
  (syncUsers_unparsed_id canonicalUUID (by decide)).2

/-! ## `Config.ApplyAPI` -/

theorem removeApiLoop_skip (steps : Nat) :
    ∀ (i : Nat) (arr : List Inbound) (len : Nat),
      steps ≤ (arr.drop i).length → (∀ x ∈ (arr.drop i).take steps, x.isApi = false) →
      removeApiLoop steps i arr len = some (arr, len) := by
  induction steps with
  | zero => intro i arr len _ _; rfl
  | succ n ih =>
    intro i arr len hlen hno
    have hi : i < arr.length := by
      simp only [List.length_drop] at hlen
      omega
    have hd : arr.drop i = arr[i] :: arr.drop (i + 1) := List.drop_eq_getElem_cons hi
    rw [hd, List.take_succ_cons] at hno
    have hxn : ¬ arr[i].Tag = "API_INBOUND" := by
      have := hno _ (List.mem_cons_self _ _)
      simpa [Inbound.isApi] using this
    have hlen2 : n ≤ (arr.drop (i + 1)).length := by
      simp only [List.length_drop] at hlen ⊢
      omega
    simp only [removeApiLoop, List.getElem?_eq_getElem hi, hxn, if_false]
    exact ih (i + 1) arr len hlen2 (fun y hy => hno y (List.mem_cons_of_mem _ hy))

theorem removeApiLoop_add (a : Nat) :
    ∀ (b i : Nat) (arr : List Inbound) (len : Nat),
      removeApiLoop (a + b) i arr len =
        (removeApiLoop a i arr len).bind (fun r => removeApiLoop b (i + a) r.1 r.2) := by
  induction a with
  | zero => intro b i arr len; simp [removeApiLoop]
  | succ n ih =>
    intro b i arr len
    have e : n + 1 + b = (n + b) + 1 := by omega
    rw [e]
    simp only [removeApiLoop]
    cases arr[i]? with
    | none => simp
    | some x =>
      simp only []
      split
      · split
        · rw [ih]
          have e2 : i + 1 + n = i + (n + 1) := by omega
          rw [e2]
        · simp
      · rw [ih]
        have e2 : i + 1 + n = i + (n + 1) := by omega
        rw [e2]

theorem removeApiInbounds_none (l : List Inbound) (h : ∀ y ∈ l, y.isApi = false) :
    removeApiInbounds l = some l := by
  unfold removeApiInbounds
  rw [removeApiLoop_skip l.length 0 l l.length (by simp)
    (fun y hy => h y (by simpa using List.mem_of_mem_take hy))]
  simp

theorem removeApiInbounds_one (pre post : List Inbound) (x : Inbound) (hx : x.isApi = true)
    (hpre : ∀ y ∈ pre, y.isApi = false) (hpost : ∀ y ∈ post, y.isApi = false) :
    removeApiInbounds (pre ++ x :: post) = some (pre ++ post) := by
  unfold removeApiInbounds
  have hlen : (pre ++ x :: post).length = pre.length + (1 + post.length) := by
    simp only [List.length_append, List.length_cons]
    omega
  have hxt : x.Tag = "API_INBOUND" := by simpa [Inbound.isApi] using hx
  rw [hlen, removeApiLoop_add]
  have h1 : removeApiLoop pre.length 0 (pre ++ x :: post) (pre.length + (1 + post.length))
      = some (pre ++ x :: post, pre.length + (1 + post.length)) := by
    apply removeApiLoop_skip
    · simp
    · intro y hy
      apply hpre
      simpa using hy
  rw [h1]
  simp only [Option.some_bind, Nat.zero_add]
  rw [removeApiLoop_add]
  have h2 : removeApiLoop 1 pre.length (pre ++ x :: post) (pre.length + (1 + post.length))
      = some (pre ++ post ++ (pre ++ x :: post).drop (pre.length + post.length),
          pre.length + post.length) := by
    have hget : (pre ++ x :: post)[pre.length]? = some x := by
      rw [List.getElem?_append_right (le_refl _)]
      simp
    have hle : pre.length + 1 ≤ pre.length + (1 + post.length) := by omega
    have ht : List.take (pre.length + (1 + post.length)) (pre ++ x :: post) = pre ++ x :: post := by
      apply List.take_of_length_le
      rw [hlen]
    have hdr : List.drop (pre.length + 1) (pre ++ x :: post) = post := by
      have : pre ++ x :: post = (pre ++ [x]) ++ post := by simp
      rw [this]
      apply List.drop_left'
      simp
    have e3 : pre.length + (1 + post.length) - 1 = pre.length + post.length := by omega
    simp only [removeApiLoop, hget, hxt, if_true, hle, ht, hdr, e3, List.take_left']
  rw [h2]
  simp only [Option.some_bind]
  have h3 : removeApiLoop post.length (pre.length + 1)
      (pre ++ post ++ (pre ++ x :: post).drop (pre.length + post.length))
      (pre.length + post.length)
      = some (pre ++ post ++ (pre ++ x :: post).drop (pre.length + post.length),
          pre.length + post.length) := by
    rcases List.eq_nil_or_concat post with hp | ⟨q, z, hp⟩
    · subst hp
      rfl
    · rw [List.concat_eq_append] at hp
      apply removeApiLoop_skip
      · simp only [List.length_drop, List.length_append, List.length_cons]
        omega
      · intro y hy
        have hy2 := List.mem_of_mem_drop (List.mem_of_mem_take hy)
        have hL : (pre ++ x :: post).drop (pre.length + post.length) = [z] := by
          subst hp
          have : pre ++ x :: (q ++ [z]) = (pre ++ x :: q) ++ [z] := by simp
          rw [this]
          apply List.drop_left'
          simp only [List.length_append, List.length_cons, List.length_singleton,
            List.length_nil]
        rw [hL] at hy
        have hz : z ∈ post := by subst hp; simp
        have hy3 := List.mem_of_mem_take hy
        have hmem : y ∈ post ++ [z] := by
          have hd : (pre ++ post ++ [z]).drop (pre.length + 1) = (post ++ [z]).drop 1 := by
            rw [List.append_assoc, List.drop_append]
          rw [hd] at hy3
          exact List.mem_of_mem_drop hy3
        rcases List.mem_append.1 hmem with hm | hm
        · exact hpost y hm
        · rw [List.mem_singleton.1 hm]
          exact hpost z hz
  rw [h3]
  simp only [Option.map_some', List.append_assoc]
  congr 1
  rw [← List.append_assoc]
  apply List.take_left'
  simp

theorem removeApiInbounds_le_one (l : List Inbound) (h : l.countP Inbound.isApi ≤ 1) :
    removeApiInbounds l = some (l.filter (fun i => !i.isApi)) := by
  by_cases hex : ∃ x ∈ l, x.isApi = true
  · obtain ⟨x, hxl, hx⟩ := hex
    obtain ⟨pre, post, rfl⟩ := List.append_of_mem hxl
    rw [List.countP_append, List.countP_cons_of_pos _ _ hx] at h
    have hpre : ∀ y ∈ pre, y.isApi = false := by
      have h0 : pre.countP Inbound.isApi = 0 := by omega
      intro y hy
      have := List.countP_eq_zero.1 h0 y hy
      simpa using this
    have hpost : ∀ y ∈ post, y.isApi = false := by
      have h0 : post.countP Inbound.isApi = 0 := by omega
      intro y hy
      have := List.countP_eq_zero.1 h0 y hy
      simpa using this
    rw [removeApiInbounds_one pre post x hx hpre hpost]
    have f1 : pre.filter (fun i => !i.isApi) = pre :=
      List.filter_eq_self.2 (fun y hy => by simp [hpre y hy])
    have f2 : post.filter (fun i => !i.isApi) = post :=
      List.filter_eq_self.2 (fun y hy => by simp [hpost y hy])
    simp [List.filter_append, List.filter_cons, hx, f1, f2]
  · have hno : ∀ y ∈ l, y.isApi = false := by
      intro y hy
      cases hy2 : y.isApi with
      | false => rfl
      | true => exact absurd ⟨y, hy, hy2⟩ hex
    rw [removeApiInbounds_none l hno]
    congr 1
    exact (List.filter_eq_self.2 (fun y hy => by simp [hno y hy])).symm

theorem countP_isApi_le_one_of_nodup (l : List Inbound)
    (h : (l.map (fun i => i.Tag)).Nodup) : l.countP Inbound.isApi ≤ 1 := by
  induction l with
  | nil => simp
  | cons x t ih =>
    simp only [List.map_cons, List.nodup_cons, List.mem_map, not_exists, not_and] at h
    by_cases hx : x.isApi = true
    · have h0 : t.countP Inbound.isApi = 0 := by
        apply List.countP_eq_zero.2
        intro y hy hya
        apply h.1 y hy
        simp only [Inbound.isApi, beq_iff_eq] at hx hya
        rw [hx, hya]
      rw [List.countP_cons_of_pos _ _ hx, h0]
    · rw [List.countP_cons_of_neg _ _ hx]
      exact ih h.2

theorem filterRules_sound (apiTag : String) (rules : List JVal) :
    ∀ fl, filterRules rules apiTag = some fl → ∀ r ∈ fl, ruleTargets apiTag r = some false := by
  induction rules with
  | nil =>
    intro fl h r hr
    simp [filterRules] at h
    subst h
    simp at hr
  | cons raw rest ih =>
    intro fl h r hr
    unfold filterRules at h
    cases ht : ruleTargets apiTag raw with
    | none => simp [ht] at h
    | some b =>
      cases b with
      | true =>
        simp only [ht] at h
        exact ih fl h r hr
      | false =>
        simp only [ht] at h
        cases hf : filterRules rest apiTag with
        | none => simp [hf] at h
        | some fl2 =>
          simp only [hf, Option.map_some', Option.some.injEq] at h
          subst h
          rcases List.mem_cons.1 hr with rfl | hr2
          · exact ht
          · exact ih fl2 hf r hr2

theorem filterRules_of_none_target (apiTag : String) (fl : List JVal)
    (h : ∀ r ∈ fl, ruleTargets apiTag r = some false) : filterRules fl apiTag = some fl := by
  induction fl with
  | nil => rfl
  | cons raw rest ih =>
    unfold filterRules
    simp [h raw (by simp), ih (fun r hr => h r (by simp [hr]))]

/-- The rule list `ApplyAPI` keeps behind the administrative rule: the rules
`filterRules` lets through, or none when `filterRules` fails. -/
theorem keptRules_fixed (rules : List JVal) :
    (∀ r ∈ (filterRules rules "API").getD [], ruleTargets "API" r = some false) ∧
    filterRules ((filterRules rules "API").getD []) "API"
      = some ((filterRules rules "API").getD []) := by
  have h : ∀ r ∈ (filterRules rules "API").getD [], ruleTargets "API" r = some false := by
    cases hf : filterRules rules "API" with
    | none => simp
    | some fl => simpa using filterRules_sound "API" rules fl hf
  exact ⟨h, filterRules_of_none_target "API" _ h⟩

/-- What `ApplyAPI` returns on a configuration with at most one inbound tagged
`API_INBOUND`. -/
theorem ApplyAPI_eq (c : Config) (apiPort : Int)
    (h : c.InboundConfigs.countP Inbound.isApi ≤ 1) :
    c.ApplyAPI apiPort = some
      { c.checkPolicy with
        InboundConfigs := apiInbound apiPort :: c.InboundConfigs.filter (fun i => !i.isApi),
        API := some { Services := ["HandlerService", "LoggerService", "StatsService"],
                      Tag := "API" },
        RouterConfig := some { (c.RouterConfig.getD {}) with
          RuleList := apiRule :: (filterRules (c.RouterConfig.getD {}).RuleList "API").getD [] } } := by
  unfold Config.ApplyAPI
  rw [removeApiInbounds_le_one _ h]
  simp [Config.checkPolicy]

/-- C5: on a configuration whose inbound tags are pairwise distinct, `ApplyAPI`
returns, and run again on its own result (same port) it returns a configuration
with the same inbound list and the same rule list, in which exactly one inbound
is tagged `API_INBOUND` and exactly one rule has the outbound tag `API`. -/
theorem ApplyAPI_twice (c : Config) (apiPort : Int)
    (h : (c.InboundConfigs.map (fun i => i.Tag)).Nodup) :
    ∃ c1 c2, c.ApplyAPI apiPort = some c1 ∧ c1.ApplyAPI apiPort = some c2 ∧
      c2.InboundConfigs = c1.InboundConfigs ∧ c2.rules = c1.rules ∧
      c1.InboundConfigs.countP Inbound.isApi = 1 ∧ c1.rules.countP targetsApi = 1 ∧
      c2.InboundConfigs.countP Inbound.isApi = 1 ∧ c2.rules.countP targetsApi = 1 := by
  have h1 := countP_isApi_le_one_of_nodup _ h
  have hfilt : (c.InboundConfigs.filter (fun i => !i.isApi)).countP Inbound.isApi = 0 := by
    apply List.countP_eq_zero.2
    intro y hy
    have := (List.mem_filter.1 hy).2
    simpa using this
  have hapi : (apiInbound apiPort).isApi = true := by simp [apiInbound, Inbound.isApi]
  have hcount : (apiInbound apiPort :: c.InboundConfigs.filter (fun i => !i.isApi)).countP
      Inbound.isApi = 1 := by
    rw [List.countP_cons_of_pos _ _ hapi, hfilt]
  obtain ⟨hk1, hk2⟩ := keptRules_fixed (c.RouterConfig.getD {}).RuleList
  have hrule : targetsApi apiRule = true := by decide
  have hrcount : (apiRule :: (filterRules (c.RouterConfig.getD {}).RuleList "API").getD []).countP
      targetsApi = 1 := by
    rw [List.countP_cons_of_pos _ _ hrule]
    have : ((filterRules (c.RouterConfig.getD {}).RuleList "API").getD []).countP targetsApi = 0 := by
      apply List.countP_eq_zero.2
      intro r hr
      simp [targetsApi, hk1 r hr]
    rw [this]
  refine ⟨_, _, ApplyAPI_eq c apiPort h1, ApplyAPI_eq _ apiPort (by simpa using le_of_eq hcount),
    ?_, ?_, hcount, ?_, ?_, ?_⟩
  · simp only [List.filter_cons, hapi, Bool.not_true, Bool.false_eq_true, if_false,
      List.filter_filter, Bool.and_self]
  · have ht : ruleTargets "API" apiRule = some true := by decide
    simp [Config.rules, filterRules, ht, hk2]
  · simpa [Config.rules] using hrcount
  · simp only [List.filter_cons, hapi, Bool.not_true, Bool.false_eq_true, if_false,
      List.filter_filter, Bool.and_self]
    exact hcount
  · have ht : ruleTargets "API" apiRule = some true := by decide
    simpa [Config.rules, filterRules, ht, hk2] using hrcount

/-- The statement of C5 on a configuration that already holds an administrative
inbound and an administrative rule. -/
theorem ApplyAPI_twice_witness :
    ∃ c1 c2,
      Config.ApplyAPI
        { InboundConfigs := [{ Tag := "API_INBOUND", Protocol := "dokodemo-door" },
            { Tag := "VMESS TCP NOTLS", Protocol := "vmess" }],
          RouterConfig := some { RuleList := [.obj [("outboundTag", .str "API")],
            .obj [("outboundTag", .str "direct")]] } } 8080 = some c1 ∧
      c1.ApplyAPI 8080 = some c2 ∧
      c2.InboundConfigs = c1.InboundConfigs ∧ c2.rules = c1.rules ∧
      c1.InboundConfigs.countP Inbound.isApi = 1 ∧ c1.rules.countP targetsApi = 1 ∧
      c2.InboundConfigs.countP Inbound.isApi = 1 ∧ c2.rules.countP targetsApi = 1 :=
  ApplyAPI_twice _ 8080 (by decide)

/-- C6, inputs on which the code departs from the claim. With the inbounds
`API_INBOUND, x, API_INBOUND` the first loop of `ApplyAPI` removes two elements
and then reads the stale copy of the last one, still tagged `API_INBOUND`, at
index 2 of the backing array while the slice has length 1: `s[3:]` panics. With
`API_INBOUND, API_INBOUND, x` the element that slides into the index just
visited is skipped, so one old administrative inbound survives and the result
has two inbounds tagged `API_INBOUND`. -/
theorem ApplyAPI_duplicate_api_inbounds :
    (Config.ApplyAPI
        { InboundConfigs := [{ Tag := "API_INBOUND", Protocol := "dokodemo-door" },
            { Tag := "x", Protocol := "vmess" },
            { Tag := "API_INBOUND", Protocol := "dokodemo-door" }] } 8080).isNone = true ∧
    (Config.ApplyAPI
        { InboundConfigs := [{ Tag := "API_INBOUND", Protocol := "dokodemo-door" },
            { Tag := "API_INBOUND", Protocol := "dokodemo-door" },
            { Tag := "x", Protocol := "vmess" }] } 8080).map
      (fun c => c.InboundConfigs.countP Inbound.isApi) = some 2 := by
  decide

/-! ## `Config.checkPolicy` -/

/-- C7: after `checkPolicy`, and so after `ApplyAPI`, which stores the policy
`checkPolicy` computes, level 0 exists with per-user uplink and downlink
accounting on and the system policy exists with outbound uplink and downlink
accounting on. A level 0 that was there before differs from the new one in
those two flags only, so `StatsUserOnline` and every other field are kept;
every other level is as it was; and the inbound flags of a system policy that
was there before are kept. -/
theorem checkPolicy_frame (c : Config) :
    (∃ zero, c.checkPolicy.level 0 = some zero ∧
      zero.StatsUserUplink = true ∧ zero.StatsUserDownlink = true ∧
      ∀ old, c.level 0 = some old →
        zero = { old with StatsUserUplink := true, StatsUserDownlink := true } ∧
        zero.StatsUserOnline = old.StatsUserOnline) ∧
    (∀ k, k ≠ 0 → c.checkPolicy.level k = c.level k) ∧
    (∃ sys, c.checkPolicy.system = some sys ∧
      sys.StatsOutboundUplink = true ∧ sys.StatsOutboundDownlink = true ∧
      ∀ old, c.system = some old →
        sys = { old with StatsOutboundUplink := true, StatsOutboundDownlink := true } ∧
        sys.StatsInboundUplink = old.StatsInboundUplink ∧
        sys.StatsInboundDownlink = old.StatsInboundDownlink) ∧
    (∀ apiPort c2, c.ApplyAPI apiPort = some c2 → c2.Policy = c.checkPolicy.Policy) := by
  refine ⟨?_, ?_, ?_, ?_⟩
  · unfold Config.checkPolicy Config.level
    cases hp : c.Policy with
    | none => simp
    | some p =>
      cases hl : p.Levels with
      | none => simp [hl]
      | some lv =>
        cases h0 : lv 0 with
        | none => simp [hl, h0]
        | some z => simp [hl, h0]
  · intro k hk
    unfold Config.checkPolicy Config.level
    cases hp : c.Policy with
    | none => simp [hk]
    | some p =>
      cases hl : p.Levels with
      | none => simp [hl, hk]
      | some lv =>
        cases h0 : lv 0 with
        | none => simp [hl, h0, hk]
        | some z => simp [hl, h0, hk]
  · unfold Config.checkPolicy Config.system
    cases hp : c.Policy with
    | none => simp
    | some p =>
      cases hs : p.System <;> cases hl : p.Levels with
      | none => simp [hl, hs]
      | some lv => cases h0 : lv 0 <;> simp [hl, h0, hs]
  · intro apiPort c2 h
    unfold Config.ApplyAPI at h
    cases hr : removeApiInbounds c.InboundConfigs with
    | none => simp [hr] at h
    | some l =>
      simp only [hr, Option.some.injEq] at h
      subst h
      simp [Config.checkPolicy]

/-! ## `Inbound.updateUser`, `Inbound.removeUser` and `Xray.SyncUser` -/

/-- A store into a map that is not nil succeeds and changes the entry
`clients` only. -/
theorem Inbound.storeClients_some (i : Inbound) (c : Clients) (h : i.clients ≠ .noMap) :
    i.storeClients c = some { i with clients := c } := by
  unfold Inbound.storeClients
  cases hc : i.clients <;> simp_all

/-- A store into a nil map is a panic. -/
theorem Inbound.storeClients_noMap (i : Inbound) (c : Clients) (h : i.clients = .noMap) :
    i.storeClients c = none := by
  simp [Inbound.storeClients, h]

/-- A store that returns was made into a map that is not nil. -/
theorem Inbound.storeClients_eq_some (i j : Inbound) (c : Clients)
    (h : i.storeClients c = some j) : i.clients ≠ .noMap ∧ j = { i with clients := c } := by
  unfold Inbound.storeClients at h
  cases hc : i.clients <;> simp_all

theorem managedProtocol_iff (protocol : String) :
    managedProtocol protocol = true ↔
      protocol = "vmess" ∨ protocol = "vless" ∨ protocol = "trojan"
        ∨ protocol = "shadowsocks" := by
  simp [managedProtocol, or_assoc]

theorem storable_of_managed (i : Inbound) (hs : i.storable = true)
    (hp : managedProtocol i.Protocol = true) : i.clients ≠ .noMap := by
  intro hc
  simp [Inbound.storable, hc, hp] at hs

theorem isActiveInbound_managed (inbound : Inbound) (inbounds : List String)
    (settings : ProxySettings) (a : Account)
    (h : isActiveInbound inbound inbounds settings = some a) :
    managedProtocol inbound.Protocol = true := by
  rw [managedProtocol_iff]
  unfold isActiveInbound at h
  by_cases h1 : inbound.Protocol = "vless"
  · exact Or.inr (Or.inl h1)
  by_cases h2 : inbound.Protocol = "vmess"
  · exact Or.inl h2
  by_cases h3 : inbound.Protocol = "trojan"
  · exact Or.inr (Or.inr (Or.inl h3))
  by_cases h4 : inbound.Protocol = "shadowsocks"
  · exact Or.inr (Or.inr (Or.inr h4))
  simp [h1, h2, h3, h4] at h

theorem removeClient_spec {α : Type} (emailOf : α → String) (email : String)
    (l : List (Option α)) (h : l.all Option.isSome = true) :
    ∃ l2, removeClient emailOf email l = some l2 ∧ l2.all Option.isSome = true ∧
      l2.reduceOption.filter (fun a => decide (emailOf a ≠ email))
        = l.reduceOption.filter (fun a => decide (emailOf a ≠ email)) ∧
      (l.reduceOption.countP (fun a => decide (emailOf a = email)) ≤ 1 →
        l2.reduceOption.filter (fun a => decide (emailOf a = email)) = []) := by
  induction l with
  | nil => exact ⟨[], rfl, rfl, rfl, fun _ => rfl⟩
  | cons x t ih =>
    cases x with
    | none => simp at h
    | some a =>
      have ht : t.all Option.isSome = true := by
        simp only [List.all_cons, Bool.and_eq_true] at h
        exact h.2
      obtain ⟨t2, h1, h2, h3, h4⟩ := ih ht
      by_cases he : emailOf a = email
      · refine ⟨t, by simp [removeClient, he], ht, ?_, ?_⟩
        · simp [List.reduceOption_cons_of_some, List.filter_cons, he]
        · intro hc
          rw [List.reduceOption_cons_of_some, List.countP_cons_of_pos _ _ (by simpa using he)] at hc
          have h0 : t.reduceOption.countP (fun a => decide (emailOf a = email)) = 0 := by omega
          rw [List.filter_eq_nil_iff]
          intro b hb
          exact List.countP_eq_zero.1 h0 b hb
      · refine ⟨some a :: t2, by simp [removeClient, he, h1], ?_, ?_, ?_⟩
        · simp only [List.all_cons, Bool.and_eq_true]
          exact ⟨rfl, h2⟩
        · simp only [List.reduceOption_cons_of_some, List.filter_cons, he, ne_eq,
            not_false_eq_true, decide_True, if_true, h3]
        · intro hc
          rw [List.reduceOption_cons_of_some,
            List.countP_cons_of_neg _ _ (by simpa using he)] at hc
          simp [List.reduceOption_cons_of_some, List.filter_cons, he, h4 hc]

theorem typed_of_shadowsocksTcp (j : Inbound) (l : List (Option ShadowsocksTcpAccount))
    (hp : j.Protocol = "shadowsocks") (hm : j.method2022 = none)
    (hc : j.clients = .shadowsocksTcp l) (hl : l.all Option.isSome = true) :
    j.typed = true := by
  simp [Inbound.typed, hp, hm, hc, hl]

theorem typed_of_shadowsocks (j : Inbound) (l : List (Option ShadowsocksAccount))
    (method : String) (hp : j.Protocol = "shadowsocks") (hm : j.method2022 = some method)
    (hc : j.clients = .shadowsocks l) (hl : l.all Option.isSome = true) :
    j.typed = true := by
  simp [Inbound.typed, hp, hm, hc, hl]

theorem method2022_getStr (i : Inbound) (method : String) (h : i.method2022 = some method) :
    i.Settings.getStr "method" = some method := by
  unfold Inbound.method2022 at h
  cases hg : i.Settings.getStr "method" with
  | none => simp [hg] at h
  | some m =>
    simp only [hg] at h
    split at h
    · simpa using h
    · simp at h

theorem removeClient_total {α : Type} (emailOf : α → String) (email : String)
    (l : List (Option α)) (h : l.all Option.isSome = true) :
    ∃ l2, removeClient emailOf email l = some l2 := by
  obtain ⟨l2, h1, _⟩ := removeClient_spec emailOf email l h
  exact ⟨l2, h1⟩

theorem updateUser_total (i : Inbound) (a : Account) (hn : i.clients.noNil = true)
    (hs : i.clients ≠ .noMap)
    (hm : ∀ s, a = .shadowsocks s → ∃ m, i.Settings.getStr "method" = some m) :
    ∃ j, i.updateUser a = some j := by
  cases a with
  | vmess a =>
    have hall : (match i.clients with
        | .vmess l => l
        | _ => []).all Option.isSome = true := by
      cases hc : i.clients <;> simp_all [Clients.noNil]
    obtain ⟨l2, h⟩ := removeClient_total VmessAccount.Email a.Email _ hall
    simp [Inbound.updateUser, Inbound.storeClients_some i _ hs, h]
  | vless a =>
    have hall : (match i.clients with
        | .vless l => l
        | _ => []).all Option.isSome = true := by
      cases hc : i.clients <;> simp_all [Clients.noNil]
    obtain ⟨l2, h⟩ := removeClient_total VlessAccount.Email a.Email _ hall
    simp [Inbound.updateUser, Inbound.storeClients_some i _ hs, h]
  | trojan a =>
    have hall : (match i.clients with
        | .trojan l => l
        | _ => []).all Option.isSome = true := by
      cases hc : i.clients <;> simp_all [Clients.noNil]
    obtain ⟨l2, h⟩ := removeClient_total TrojanAccount.Email a.Email _ hall
    simp [Inbound.updateUser, Inbound.storeClients_some i _ hs, h]
  | shadowsocksTcp a =>
    have hall : (match i.clients with
        | .shadowsocksTcp l => l
        | _ => []).all Option.isSome = true := by
      cases hc : i.clients <;> simp_all [Clients.noNil]
    obtain ⟨l2, h⟩ := removeClient_total ShadowsocksTcpAccount.Email a.Email _ hall
    simp [Inbound.updateUser, Inbound.storeClients_some i _ hs, h]
  | shadowsocks a =>
    have hall : (match i.clients with
        | .shadowsocks l => l
        | _ => []).all Option.isSome = true := by
      cases hc : i.clients <;> simp_all [Clients.noNil]
    obtain ⟨l2, h⟩ := removeClient_total ShadowsocksAccount.Email a.Email _ hall
    obtain ⟨m, hg⟩ := hm a rfl
    simp [Inbound.updateUser, Inbound.storeClients_some i _ hs, h, hg]

theorem removeUser_total (i : Inbound) (email : String) (hn : i.clients.noNil = true)
    (hst : i.storable = true) :
    ∃ j, i.removeUser email = some j := by
  have hs : managedProtocol i.Protocol = true → ∀ c, i.storeClients c = some { i with clients := c } :=
    fun hp c => Inbound.storeClients_some i c (storable_of_managed i hst hp)
  unfold Inbound.removeUser
  by_cases h1 : i.Protocol = "vmess"
  · have hall : (match i.clients with
        | .vmess l => l
        | _ => []).all Option.isSome = true := by
      cases hc : i.clients <;> simp_all [Clients.noNil]
    obtain ⟨l2, h⟩ := removeClient_total VmessAccount.Email email _ hall
    simp [h1, h, hs (by simp [managedProtocol, h1])]
  · by_cases h2 : i.Protocol = "vless"
    · have hall : (match i.clients with
          | .vless l => l
          | _ => []).all Option.isSome = true := by
        cases hc : i.clients <;> simp_all [Clients.noNil]
      obtain ⟨l2, h⟩ := removeClient_total VlessAccount.Email email _ hall
      simp [h2, h, hs (by simp [managedProtocol, h2])]
    · by_cases h3 : i.Protocol = "trojan"
      · have hall : (match i.clients with
            | .trojan l => l
            | _ => []).all Option.isSome = true := by
          cases hc : i.clients <;> simp_all [Clients.noNil]
        obtain ⟨l2, h⟩ := removeClient_total TrojanAccount.Email email _ hall
        simp [h3, h, hs (by simp [managedProtocol, h3])]
      · by_cases h4 : i.Protocol = "shadowsocks"
        · cases hm : i.method2022 with
          | some m =>
            have hall : (match i.clients with
                | .shadowsocks l => l
                | _ => []).all Option.isSome = true := by
              cases hc : i.clients <;> simp_all [Clients.noNil]
            obtain ⟨l2, h⟩ := removeClient_total ShadowsocksAccount.Email email _ hall
            simp [h4, h, hs (by simp [managedProtocol, h4])]
          | none =>
            have hall : (match i.clients with
                | .shadowsocksTcp l => l
                | _ => []).all Option.isSome = true := by
              cases hc : i.clients <;> simp_all [Clients.noNil]
            obtain ⟨l2, h⟩ := removeClient_total ShadowsocksTcpAccount.Email email _ hall
            simp [h4, h, hs (by simp [managedProtocol, h4])]
        · exact ⟨i, by simp [h1, h2, h3, h4]⟩

theorem isActiveInbound_shadowsocks (inbound : Inbound) (inbounds : List String)
    (settings : ProxySettings) (s : ShadowsocksAccount)
    (h : isActiveInbound inbound inbounds settings = some (.shadowsocks s)) :
    ∃ m, inbound.method2022 = some m ∧
      ∃ s0, settings.Shadowsocks2022 = some s0 ∧ s = checkShadowsocks2022 m s0 := by
  unfold isActiveInbound at h
  split at h
  · split at h
    · cases hv : settings.Vless <;> simp [hv] at h
    · split at h
      · cases hv : settings.Vmess <;> simp [hv] at h
      · split at h
        · cases hv : settings.Trojan <;> simp [hv] at h
        · split at h
          · cases hm : inbound.method2022 with
            | none =>
              simp only [hm] at h
              cases hv : settings.Shadowsocks <;> simp [hv] at h
            | some m =>
              simp only [hm] at h
              cases hv : settings.Shadowsocks2022 with
              | none => simp [hv] at h
              | some s0 =>
                simp only [hv, Option.some.injEq, Account.shadowsocks.injEq] at h
                exact ⟨m, rfl, s0, rfl, h.symm⟩
          · simp at h
  · simp at h

theorem syncInbound_total (user : User) (settings : ProxySettings) (i : Inbound)
    (hn : i.exclude = false → i.clients.noNil = true ∧ i.storable = true) :
    ∃ j, syncInbound user settings i = some j := by
  unfold syncInbound
  cases hex : i.exclude with
  | true => exact ⟨i, by simp⟩
  | false =>
    simp only [Bool.false_eq_true, if_false]
    cases hact : isActiveInbound i user.Inbounds settings with
    | none => exact removeUser_total i user.Email (hn hex).1 (hn hex).2
    | some a =>
      apply updateUser_total i a (hn hex).1
        (storable_of_managed i (hn hex).2
          (isActiveInbound_managed i user.Inbounds settings a hact))
      intro s hs
      subst hs
      obtain ⟨m, hm, _⟩ := isActiveInbound_shadowsocks i user.Inbounds settings s hact
      exact ⟨m, method2022_getStr i m hm⟩

theorem syncUserLoop_spec (addResult : Nat → Option String) (user : User)
    (settings : ProxySettings) :
    ∀ (l : List Inbound) (k : Nat) (msg : String),
      (∀ i ∈ l, ∃ j, syncInbound user settings i = some j) →
      ∃ st, syncUserLoop addResult user settings k l msg = some st ∧
        List.Forall₂ (fun i j => syncInbound user settings i = some j) l st.inbounds ∧
        st.calls = l.flatMap (inboundCalls user settings) ∧
        st.errMessage = msg ++ errorLines (failedAdds addResult user settings k l) := by
  intro l
  induction l with
  | nil =>
    intro k msg _
    exact ⟨_, rfl, List.Forall₂.nil, rfl, by simp [failedAdds, errorLines]⟩
  | cons i rest ih =>
    intro k msg h
    obtain ⟨j, hj⟩ := h i (List.mem_cons_self _ _)
    have hrest : ∀ x ∈ rest, ∃ y, syncInbound user settings x = some y :=
      fun x hx => h x (List.mem_cons_of_mem _ hx)
    unfold syncInbound at hj
    cases hex : i.exclude with
    | true =>
      simp only [hex, if_true, Option.some.injEq] at hj
      obtain ⟨st, h1, h2, h3, h4⟩ := ih (k + 1) msg hrest
      refine ⟨{ st with inbounds := i :: st.inbounds }, ?_, ?_, ?_, ?_⟩
      · simp [syncUserLoop, hex, h1]
      · exact List.Forall₂.cons (by simp [syncInbound, hex]) h2
      · simp [List.flatMap_cons, inboundCalls, hex, h3]
      · simp [failedAdds, hex, h4]
    | false =>
      simp only [hex, Bool.false_eq_true, if_false] at hj
      cases hact : isActiveInbound i user.Inbounds settings with
      | none =>
        simp only [hact] at hj
        obtain ⟨st, h1, h2, h3, h4⟩ := ih (k + 1) msg hrest
        refine ⟨{ st with inbounds := j :: st.inbounds,
                          calls := .removeInboundUser i.Tag user.Email :: st.calls },
          ?_, ?_, ?_, ?_⟩
        · simp [syncUserLoop, hex, hact, hj, h1]
        · exact List.Forall₂.cons (by simp [syncInbound, hex, hact, hj]) h2
        · simp [List.flatMap_cons, inboundCalls, hex, hact, h3]
        · simp [failedAdds, hex, hact, h4]
      | some a =>
        simp only [hact] at hj
        cases hadd : addResult k with
        | none =>
          obtain ⟨st, h1, h2, h3, h4⟩ := ih (k + 1) msg hrest
          refine ⟨{ st with inbounds := j :: st.inbounds,
                            calls := .removeInboundUser i.Tag user.Email
                              :: .addInboundUser i.Tag a :: st.calls },
            ?_, ?_, ?_, ?_⟩
          · simp [syncUserLoop, hex, hact, hj, hadd, h1]
          · exact List.Forall₂.cons (by simp [syncInbound, hex, hact, hj]) h2
          · simp [List.flatMap_cons, inboundCalls, hex, hact, h3]
          · simp [failedAdds, hex, hact, hadd, h4]
        | some t =>
          obtain ⟨st, h1, h2, h3, h4⟩ := ih (k + 1) (msg ++ "\n" ++ t) hrest
          refine ⟨{ st with inbounds := j :: st.inbounds,
                            calls := .removeInboundUser i.Tag user.Email
                              :: .addInboundUser i.Tag a :: st.calls },
            ?_, ?_, ?_, ?_⟩
          · simp [syncUserLoop, hex, hact, hj, hadd, h1]
          · exact List.Forall₂.cons (by simp [syncInbound, hex, hact, hj]) h2
          · simp [List.flatMap_cons, inboundCalls, hex, hact, h3]
          · simp [failedAdds, hex, hact, hadd, h4, errorLines, String.append_assoc]

theorem containsChars_nil (l : List Char) : containsChars l [] = true := by
  cases l <;> simp [containsChars]

theorem containsChars_append (xs t ys : List Char) : containsChars (xs ++ t ++ ys) t = true := by
  induction xs with
  | nil =>
    cases h : t ++ ys with
    | nil =>
      have ht : t = [] := (List.append_eq_nil.1 h).1
      rw [ht]
      exact containsChars_nil _
    | cons c cs =>
      simp only [List.nil_append, h, containsChars, Bool.or_eq_true]
      left
      rw [← h]
      exact List.isPrefixOf_iff_prefix.2 (List.prefix_append t ys)
  | cons x xs ih =>
    simp only [List.cons_append, containsChars, Bool.or_eq_true]
    right
    exact ih

theorem strContains_append (a t b : String) : strContains (a ++ t ++ b) t = true := by
  unfold strContains
  simp only [String.data_append]
  exact containsChars_append a.data t.data b.data

theorem errorLines_contains (ts : List String) (t : String) (h : t ∈ ts) :
    ∃ a b, errorLines ts = a ++ t ++ b := by
  induction ts with
  | nil => simp at h
  | cons x rest ih =>
    rcases List.mem_cons.1 h with rfl | h2
    · exact ⟨"\n", errorLines rest, rfl⟩
    · obtain ⟨a, b, hab⟩ := ih h2
      exact ⟨"\n" ++ x ++ a, b, by simp [errorLines, hab, String.append_assoc]⟩

theorem errorLines_eq_empty (ts : List String) : errorLines ts = "" ↔ ts = [] := by
  cases ts with
  | nil => simp [errorLines]
  | cons x rest =>
    simp only [errorLines, reduceCtorEq, iff_false]
    intro h
    have := congrArg String.data h
    simp [String.data_append] at this

theorem mem_failedAdds (addResult : Nat → Option String) (user : User)
    (settings : ProxySettings) (t : String) :
    ∀ (l : List Inbound) (k : Nat),
      t ∈ failedAdds addResult user settings k l ↔
        ∃ n i, l[n]? = some i ∧ i.exclude = false ∧
          (isActiveInbound i user.Inbounds settings).isSome = true ∧
          addResult (k + n) = some t := by
  intro l
  induction l with
  | nil => intro k; simp [failedAdds]
  | cons x rest ih =>
    intro k
    have hshift : (∃ n i, rest[n]? = some i ∧ i.exclude = false ∧
          (isActiveInbound i user.Inbounds settings).isSome = true ∧
          addResult (k + 1 + n) = some t) ↔
        ∃ n i, (x :: rest)[n + 1]? = some i ∧ i.exclude = false ∧
          (isActiveInbound i user.Inbounds settings).isSome = true ∧
          addResult (k + (n + 1)) = some t := by
      constructor
      · rintro ⟨n, i, h1, h2, h3, h4⟩
        exact ⟨n, i, by simpa using h1, h2, h3, by rw [← h4]; congr 1; omega⟩
      · rintro ⟨n, i, h1, h2, h3, h4⟩
        exact ⟨n, i, by simpa using h1, h2, h3, by rw [← h4]; congr 1; omega⟩
    have hsplit : (∃ n i, (x :: rest)[n]? = some i ∧ i.exclude = false ∧
          (isActiveInbound i user.Inbounds settings).isSome = true ∧
          addResult (k + n) = some t) ↔
        ((x.exclude = false ∧ (isActiveInbound x user.Inbounds settings).isSome = true ∧
          addResult k = some t) ∨
         ∃ n i, (x :: rest)[n + 1]? = some i ∧ i.exclude = false ∧
          (isActiveInbound i user.Inbounds settings).isSome = true ∧
          addResult (k + (n + 1)) = some t) := by
      constructor
      · rintro ⟨n, i, h1, h2, h3, h4⟩
        cases n with
        | zero =>
          left
          simp only [List.getElem?_cons_zero, Option.some.injEq] at h1
          subst h1
          exact ⟨h2, h3, by simpa using h4⟩
        | succ m => exact Or.inr ⟨m, i, h1, h2, h3, h4⟩
      · rintro (⟨h2, h3, h4⟩ | ⟨n, i, h1, h2, h3, h4⟩)
        · exact ⟨0, x, by simp, h2, h3, by simpa using h4⟩
        · exact ⟨n + 1, i, h1, h2, h3, h4⟩
    rw [hsplit, ← hshift, ← ih (k + 1)]
    have hunf : failedAdds addResult user settings k (x :: rest) =
        if x.exclude = false ∧ (isActiveInbound x user.Inbounds settings).isSome = true then
          match addResult k with
          | some text => text :: failedAdds addResult user settings (k + 1) rest
          | none => failedAdds addResult user settings (k + 1) rest
        else failedAdds addResult user settings (k + 1) rest := by
      rw [failedAdds]
    rw [hunf]
    by_cases hc : x.exclude = false ∧ (isActiveInbound x user.Inbounds settings).isSome = true
    · simp only [hc, and_self, if_true, true_and]
      cases hadd : addResult k with
      | none => simp
      | some u =>
        simp only [List.mem_cons, Option.some.injEq]
        constructor
        · rintro (h | h)
          · exact Or.inl h.symm
          · exact Or.inr h
        · rintro (h | h)
          · exact Or.inl h.symm
          · exact Or.inr h
    · simp only [hc, if_false]
      constructor
      · intro h; exact Or.inr h
      · rintro (⟨h2, h3, _⟩ | h)
        · exact absurd ⟨h2, h3⟩ hc
        · exact h

/-- When every non-excluded inbound has its `Settings` map, if it is of a
managed protocol, and no nil element in its client list, `SyncUser` returns for
every user and every outcome of the live additions; it processes every inbound
in order, sending for each non-excluded inbound a removal and, when the user is
active on it, an addition, and updating the inbound in memory (`updateUser` or
`removeUser`); the returned error is non-nil exactly when some attempted
addition failed, and its message contains the error text of every failed
addition. -/
theorem SyncUser_attempts_all (parse : UUIDParser) (addResult : Nat → Option String)
    (inbounds : List Inbound) (user : User)
    (h : ∀ i ∈ inbounds, i.exclude = false → i.clients.noNil = true ∧ i.storable = true) :
    ∃ r, SyncUser parse addResult inbounds user = some r ∧
      List.Forall₂ (fun i j => syncInbound user (setupUserAccount parse user) i = some j)
        inbounds r.inbounds ∧
      r.calls = inbounds.flatMap (inboundCalls user (setupUserAccount parse user)) ∧
      (r.err.isSome = true ↔
        ∃ k text, addFails addResult user (setupUserAccount parse user) inbounds k text) ∧
      (∀ k text, addFails addResult user (setupUserAccount parse user) inbounds k text →
        ∃ msg, r.err = some msg ∧ strContains msg text = true) := by
  obtain ⟨st, h1, h2, h3, h4⟩ := syncUserLoop_spec addResult user (setupUserAccount parse user)
    inbounds 0 "" (fun i hi => syncInbound_total user _ i (h i hi))
  have hmem : ∀ text, text ∈ failedAdds addResult user (setupUserAccount parse user) 0 inbounds ↔
      ∃ k, addFails addResult user (setupUserAccount parse user) inbounds k text := by
    intro text
    rw [mem_failedAdds]
    simp only [addFails, Nat.zero_add]
  simp only [String.empty_append] at h4
  refine ⟨{ inbounds := st.inbounds, calls := st.calls,
            err := if st.errMessage != "" then some ("failed to add user:" ++ st.errMessage)
              else none },
    by simp [SyncUser, h1], h2, h3, ?_, ?_⟩
  · simp only [h4, bne_iff_ne, ne_eq, errorLines_eq_empty]
    constructor
    · intro hs
      have hne : failedAdds addResult user (setupUserAccount parse user) 0 inbounds ≠ [] := by
        intro he
        simp [he] at hs
      obtain ⟨text, ht⟩ := List.exists_mem_of_ne_nil _ hne
      obtain ⟨k, hk⟩ := (hmem text).1 ht
      exact ⟨k, text, hk⟩
    · rintro ⟨k, text, hk⟩
      have ht := (hmem text).2 ⟨k, hk⟩
      have hne : failedAdds addResult user (setupUserAccount parse user) 0 inbounds ≠ [] :=
        List.ne_nil_of_mem ht
      simp [hne]
  · intro k text hk
    have ht := (hmem text).2 ⟨k, hk⟩
    have hne : failedAdds addResult user (setupUserAccount parse user) 0 inbounds ≠ [] :=
      List.ne_nil_of_mem ht
    obtain ⟨a, b, hab⟩ := errorLines_contains _ text ht
    refine ⟨"failed to add user:" ++ st.errMessage, ?_, ?_⟩
    · simp [h4, errorLines_eq_empty, hne]
    · rw [h4, hab]
      have e : "failed to add user:" ++ (a ++ text ++ b) = ("failed to add user:" ++ a) ++ text ++ b := by
        simp [String.append_assoc]
      rw [e]
      exact strContains_append _ _ _

/-- A run of `SyncUser` on two inbounds, with a live addition that fails on the
first. -/
theorem SyncUser_attempts_all_witness :
    ∃ r, SyncUser canonicalUUID (fun k => if k = 0 then some "already exists" else none)
        [{ Tag := "TROJAN TCP NOTLS", Protocol := "trojan", clients := .trojan [] },
         { Tag := "VMESS TCP NOTLS", Protocol := "vmess", clients := .vmess [] }]
        { Email := "test_user@example.com", Inbounds := ["TROJAN TCP NOTLS"],
          Proxies := some { Trojan := some { Password := "try a random string" } } } = some r ∧
      List.Forall₂ (fun i j => syncInbound
          { Email := "test_user@example.com", Inbounds := ["TROJAN TCP NOTLS"],
            Proxies := some { Trojan := some { Password := "try a random string" } } }
          (setupUserAccount canonicalUUID
            { Email := "test_user@example.com", Inbounds := ["TROJAN TCP NOTLS"],
              Proxies := some { Trojan := some { Password := "try a random string" } } })
          i = some j)
        [{ Tag := "TROJAN TCP NOTLS", Protocol := "trojan", clients := .trojan [] },
         { Tag := "VMESS TCP NOTLS", Protocol := "vmess", clients := .vmess [] }] r.inbounds :=
  (SyncUser_attempts_all canonicalUUID (fun k => if k = 0 then some "already exists" else none)
    [{ Tag := "TROJAN TCP NOTLS", Protocol := "trojan", clients := .trojan [] },
     { Tag := "VMESS TCP NOTLS", Protocol := "vmess", clients := .vmess [] }]
    { Email := "test_user@example.com", Inbounds := ["TROJAN TCP NOTLS"],
      Proxies := some { Trojan := some { Password := "try a random string" } } }
    (by decide)).imp (fun _ hr => ⟨hr.1, hr.2.1⟩)

/-- A store by the bulk synchronisation or by `SyncUser` into an inbound of a
managed protocol that has no `Settings` map is a panic. -/
theorem Inbound.syncUsers_noMap (parse : UUIDParser) (i : Inbound) (users : List User)
    (hc : i.clients = .noMap) (hp : managedProtocol i.Protocol = true) :
    i.syncUsers parse users = none := by
  have hs : ∀ c, i.storeClients c = none := fun c => Inbound.storeClients_noMap i c hc
  rcases (managedProtocol_iff _).1 hp with h | h | h | h
  · simp [Inbound.syncUsers, h, hs]
  · simp [Inbound.syncUsers, h, hs]
  · simp [Inbound.syncUsers, h, hs]
  · cases hm : i.method2022 <;> simp [Inbound.syncUsers, h, hs, hm]

/-- C9, the run on which the code departs from the claim. A bulk
synchronisation with a user whose VMess identifier is not a UUID returns and
leaves a nil entry in the client list of the first inbound, `a`. `SyncUser`
for a user of the second inbound, `b`, then panics on `a`, whatever the live
additions answer: the removal loop of `removeUser` reads the email of the nil
entry. The inbound `b` is not attempted, its list is not updated and no error
is returned. Had the identifier been a UUID, the same call would have sent a
removal for `a`, a removal and an addition for `b`, and returned the error of
the failed addition. -/
theorem SyncUser_stops_at_nil_client :
    (Config.syncUsers canonicalUUID
        { InboundConfigs := [{ Tag := "a", Protocol := "vmess" },
                             { Tag := "b", Protocol := "trojan" }] }
        [{ Email := "u@example.com", Inbounds := ["a"],
           Proxies := some { Vmess := some { Id := "not-a-uuid" } } }]).map
        (fun c => c.InboundConfigs.map (fun i => (i.Tag, i.clients.noNil, i.accounts)))
      = some [("a", false, []), ("b", true, [])] ∧
    (∀ addResult : Nat → Option String,
      (Config.syncUsers canonicalUUID
          { InboundConfigs := [{ Tag := "a", Protocol := "vmess" },
                               { Tag := "b", Protocol := "trojan" }] }
          [{ Email := "u@example.com", Inbounds := ["a"],
             Proxies := some { Vmess := some { Id := "not-a-uuid" } } }]).bind
          (fun c =>
            (SyncUser canonicalUUID addResult c.InboundConfigs
              { Email := "v@example.com", Inbounds := ["b"],
                Proxies := some { Trojan := some { Password := "try a random string" } } }).map
              (fun r => (r.calls, r.err)))
        = none) ∧
    (Config.syncUsers canonicalUUID
        { InboundConfigs := [{ Tag := "a", Protocol := "vmess" },
                             { Tag := "b", Protocol := "trojan" }] }
        [{ Email := "u@example.com", Inbounds := ["a"],
           Proxies :=
             some { Vmess := some { Id := "123e4567-e89b-12d3-a456-426614174000" } } }]).bind
        (fun c =>
          (SyncUser canonicalUUID (fun _ => some "boom") c.InboundConfigs
            { Email := "v@example.com", Inbounds := ["b"],
              Proxies := some { Trojan := some { Password := "try a random string" } } }).map
            (fun r => (r.calls.map RpcCall.tag, r.err)))
      = some (["a", "b", "b"], some "failed to add user:\nboom") := by
  refine ⟨by decide, ?_, by decide⟩
  intro addResult
  rfl

theorem storedAccount_eq (i : Inbound) (inbounds : List String) (settings : ProxySettings)
    (a : Account) (h : isActiveInbound i inbounds settings = some a)
    (hm : ∀ m, i.method2022 = some m → namesCipher m = true) : storedAccount i a = a := by
  cases a with
  | shadowsocks s =>
    obtain ⟨m, h1, s0, _, hs⟩ := isActiveInbound_shadowsocks i inbounds settings s h
    have hg := method2022_getStr i m h1
    obtain ⟨d, hd, hk⟩ := EnsureBase64Password_valid s0.Password m (hm m h1)
    simp only [storedAccount, hg, hs, checkShadowsocks2022,
      EnsureBase64Password_fixed _ m d hd hk]
  | vmess _ => rfl
  | vless _ => rfl
  | trojan _ => rfl
  | shadowsocksTcp _ => rfl

theorem vmessClients_spec (parse : UUIDParser) (tag : String) (users : List User)
    (h : idsParse parse users) :
    (vmessClients parse tag users).all Option.isSome = true ∧
    ((vmessClients parse tag users).reduceOption.map Account.vmess).map Account.GetEmail
      = (users.filter (fun u => u.Inbounds.contains tag && u.getVmess.isSome)).map
          (fun u => u.Email) := by
  induction users with
  | nil => exact ⟨rfl, rfl⟩
  | cons u rest ih =>
    obtain ⟨ih1, ih2⟩ := ih (fun x hx => h x (List.mem_cons_of_mem _ hx))
    cases hv : u.getVmess with
    | none => simp [vmessClients, hv, ih1, ih2, List.filter_cons]
    | some v =>
      have hp := (h u (List.mem_cons_self _ _)).1 v hv
      obtain ⟨id, hid⟩ := Option.isSome_iff_exists.1 hp
      have hacc : NewVmessAccount parse u = some { Email := u.Email, Level := 0, ID := id } := by
        simp [NewVmessAccount, hv, hid]
      by_cases ht : tag ∈ u.Inbounds
      · simp only [List.all_eq_true] at ih1
        simp [vmessClients, hv, ht, hacc, ih1, ih2, List.filter_cons, Account.GetEmail]
        exact ih1
      · simp [vmessClients, hv, ht, ih1, ih2, List.filter_cons]

theorem vlessClients_spec (parse : UUIDParser) (i : Inbound) (users : List User)
    (h : idsParse parse users) :
    ∃ l, vlessClients parse i users = some l ∧ l.all Option.isSome = true ∧
      (l.reduceOption.map Account.vless).map Account.GetEmail
        = (users.filter (fun u => u.Inbounds.contains i.Tag && u.getVless.isSome)).map
            (fun u => u.Email) := by
  induction users with
  | nil => exact ⟨[], rfl, rfl, rfl⟩
  | cons u rest ih =>
    obtain ⟨l, ih0, ih1, ih2⟩ := ih (fun x hx => h x (List.mem_cons_of_mem _ hx))
    cases hv : u.getVless with
    | none => exact ⟨l, by simp [vlessClients, hv, ih0], ih1, by simp [hv, ih2, List.filter_cons]⟩
    | some v =>
      have hp := (h u (List.mem_cons_self _ _)).2 v hv
      obtain ⟨id, hid⟩ := Option.isSome_iff_exists.1 hp
      by_cases ht : i.Tag ∈ u.Inbounds
      · have hacc : NewVlessAccount parse u
            = some { Email := u.Email, Level := 0, ID := id, Flow := v.Flow } := by
          simp [NewVlessAccount, hv, hid]
        have he : (checkVless i { Email := u.Email, Level := 0, ID := id, Flow := v.Flow }).Email
            = u.Email := by
          rw [checkVless_flow]
          split <;> rfl
        refine ⟨some (checkVless i { Email := u.Email, Level := 0, ID := id, Flow := v.Flow })
          :: l, ?_, ?_, ?_⟩
        · simp [vlessClients, hv, ht, hacc, ih0]
        · simpa using ih1
        · simp [ht, hv, ih2, List.filter_cons, Account.GetEmail, he]
      · exact ⟨l, by simp [vlessClients, hv, ht, ih0], ih1,
          by simp [hv, ht, ih2, List.filter_cons]⟩

theorem trojanClients_spec (tag : String) (users : List User) :
    (trojanClients tag users).all Option.isSome = true ∧
    ((trojanClients tag users).reduceOption.map Account.trojan).map Account.GetEmail
      = (users.filter (fun u => u.Inbounds.contains tag && u.getTrojan.isSome)).map
          (fun u => u.Email) := by
  induction users with
  | nil => exact ⟨rfl, rfl⟩
  | cons u rest ih =>
    obtain ⟨ih1, ih2⟩ := ih
    simp only [List.all_eq_true] at ih1
    cases hv : u.getTrojan with
    | none => simpa [trojanClients, hv, ih2, List.filter_cons] using ih1
    | some v =>
      by_cases ht : tag ∈ u.Inbounds
      · simpa [trojanClients, hv, ht, ih2, List.filter_cons, Account.GetEmail,
          NewTrojanAccount] using ih1
      · simpa [trojanClients, hv, ht, ih2, List.filter_cons] using ih1

theorem shadowsocks2022Clients_spec (method tag : String) (users : List User) :
    (shadowsocks2022Clients method tag users).all Option.isSome = true ∧
    ((shadowsocks2022Clients method tag users).reduceOption.map Account.shadowsocks).map
        Account.GetEmail
      = (users.filter (fun u => u.Inbounds.contains tag && u.getShadowsocks.isSome)).map
          (fun u => u.Email) := by
  induction users with
  | nil => exact ⟨rfl, rfl⟩
  | cons u rest ih =>
    obtain ⟨ih1, ih2⟩ := ih
    simp only [List.all_eq_true] at ih1
    cases hv : u.getShadowsocks with
    | none => simpa [shadowsocks2022Clients, hv, ih2, List.filter_cons] using ih1
    | some v =>
      by_cases ht : tag ∈ u.Inbounds
      · simpa [shadowsocks2022Clients, hv, ht, ih2, List.filter_cons, Account.GetEmail,
          NewShadowsocksAccount, checkShadowsocks2022] using ih1
      · simpa [shadowsocks2022Clients, hv, ht, ih2, List.filter_cons] using ih1

theorem shadowsocksTcpClients_spec (tag : String) (users : List User) :
    (shadowsocksTcpClients tag users).all Option.isSome = true ∧
    ((shadowsocksTcpClients tag users).reduceOption.map Account.shadowsocksTcp).map
        Account.GetEmail
      = (users.filter (fun u => u.Inbounds.contains tag && u.getShadowsocks.isSome)).map
          (fun u => u.Email) := by
  induction users with
  | nil => exact ⟨rfl, rfl⟩
  | cons u rest ih =>
    obtain ⟨ih1, ih2⟩ := ih
    simp only [List.all_eq_true] at ih1
    cases hv : u.getShadowsocks with
    | none => simpa [shadowsocksTcpClients, hv, ih2, List.filter_cons] using ih1
    | some v =>
      by_cases ht : tag ∈ u.Inbounds
      · simpa [shadowsocksTcpClients, hv, ht, ih2, List.filter_cons, Account.GetEmail,
          NewShadowsocksTcpAccount] using ih1
      · simpa [shadowsocksTcpClients, hv, ht, ih2, List.filter_cons] using ih1

/-- What `Inbound.syncUsers` does when every identifier parses: on an inbound of
one of the four protocols it returns, the client list is typed, and it holds one
account for each user who lists the inbound's tag and supplied settings for the
inbound's protocol, in the order of the users, and no other. -/
theorem Inbound.syncUsers_accounts (parse : UUIDParser) (i : Inbound) (users : List User)
    (h : idsParse parse users)
    (hp : i.Protocol = "vmess" ∨ i.Protocol = "vless" ∨ i.Protocol = "trojan"
      ∨ i.Protocol = "shadowsocks") (hs : i.clients ≠ .noMap) :
    ∃ j, i.syncUsers parse users = some j ∧ j.typed = true ∧
      j.Tag = i.Tag ∧ j.Protocol = i.Protocol ∧ j.Settings = i.Settings ∧
      j.accounts.map Account.GetEmail
        = (users.filter (fun u => u.Inbounds.contains i.Tag && u.suppliedFor i.Protocol)).map
            (fun u => u.Email) := by
  unfold Inbound.syncUsers
  rcases hp with hp | hp | hp | hp
  · obtain ⟨h1, h2⟩ := vmessClients_spec parse i.Tag users h
    refine ⟨{ i with clients := .vmess (vmessClients parse i.Tag users) },
      by simp [hp, Inbound.storeClients_some i _ hs], ?_,
      rfl, rfl, rfl, ?_⟩
    · simp [Inbound.typed, hp]
      exact List.all_eq_true.1 h1
    · simpa [Inbound.accounts, Clients.accounts, User.suppliedFor, hp] using h2
  · obtain ⟨l, h0, h1, h2⟩ := vlessClients_spec parse i users h
    refine ⟨{ i with clients := .vless l }, by simp [hp, h0, Inbound.storeClients_some i _ hs],
      ?_, rfl, rfl, rfl, ?_⟩
    · simp [Inbound.typed, hp]
      exact List.all_eq_true.1 h1
    · simpa [Inbound.accounts, Clients.accounts, User.suppliedFor, hp] using h2
  · obtain ⟨h1, h2⟩ := trojanClients_spec i.Tag users
    refine ⟨{ i with clients := .trojan (trojanClients i.Tag users) },
      by simp [hp, Inbound.storeClients_some i _ hs], ?_,
      rfl, rfl, rfl, ?_⟩
    · simp [Inbound.typed, hp]
      exact List.all_eq_true.1 h1
    · simpa [Inbound.accounts, Clients.accounts, User.suppliedFor, hp] using h2
  · cases hm : i.method2022 with
    | some method =>
      obtain ⟨h1, h2⟩ := shadowsocks2022Clients_spec method i.Tag users
      refine ⟨{ i with clients := .shadowsocks (shadowsocks2022Clients method i.Tag users) },
        by simp [hp, Inbound.storeClients_some i _ hs], ?_, rfl, rfl, rfl, ?_⟩
      · exact typed_of_shadowsocks _ _ method hp hm rfl h1
      · simpa [Inbound.accounts, Clients.accounts, User.suppliedFor, hp] using h2
    | none =>
      obtain ⟨h1, h2⟩ := shadowsocksTcpClients_spec i.Tag users
      refine ⟨{ i with clients := .shadowsocksTcp (shadowsocksTcpClients i.Tag users) },
        by simp [hp, Inbound.storeClients_some i _ hs], ?_, rfl, rfl, rfl, ?_⟩
      · exact typed_of_shadowsocksTcp _ _ hp hm rfl h1
      · simpa [Inbound.accounts, Clients.accounts, User.suppliedFor, hp] using h2

/-! ## Account derivation -/

theorem setupUserAccount_slots (parse : UUIDParser) (user : User) :
    (∀ a, (setupUserAccount parse user).Vmess = some a → a.Email = user.Email ∧ a.Level = 0) ∧
    (∀ a, (setupUserAccount parse user).Vless = some a → a.Email = user.Email ∧ a.Level = 0) ∧
    (∀ a, (setupUserAccount parse user).Trojan = some a → a.Email = user.Email ∧ a.Level = 0) ∧
    (∀ a, (setupUserAccount parse user).Shadowsocks = some a →
      a.Email = user.Email ∧ a.Level = 0) ∧
    (∀ a, (setupUserAccount parse user).Shadowsocks2022 = some a →
      a.Email = user.Email ∧ a.Level = 0) := by
  refine ⟨?_, ?_, ?_, ?_, ?_⟩
  · intro a h
    simp only [setupUserAccount] at h
    split at h
    · unfold NewVmessAccount at h
      split at h
      · simp at h
      · simp only [Option.some.injEq] at h
        subst h
        exact ⟨rfl, rfl⟩
    · simp at h
  · intro a h
    simp only [setupUserAccount] at h
    split at h
    · unfold NewVlessAccount at h
      split at h
      · simp at h
      · simp only [Option.some.injEq] at h
        subst h
        exact ⟨rfl, rfl⟩
    · simp at h
  · intro a h
    simp only [setupUserAccount] at h
    split at h
    · simp only [Option.some.injEq] at h
      subst h
      exact ⟨rfl, rfl⟩
    · simp at h
  · intro a h
    simp only [setupUserAccount] at h
    split at h
    · simp only [Option.some.injEq] at h
      subst h
      exact ⟨rfl, rfl⟩
    · simp at h
  · intro a h
    simp only [setupUserAccount] at h
    split at h
    · simp only [Option.some.injEq] at h
      subst h
      exact ⟨rfl, rfl⟩
    · simp at h

theorem checkVless_base (i : Inbound) (a : VlessAccount) :
    (checkVless i a).Email = a.Email ∧ (checkVless i a).Level = a.Level ∧
    (checkVless i a).ID = a.ID := by
  rw [checkVless_flow]
  split <;> exact ⟨rfl, rfl, rfl⟩

theorem isActiveInbound_base (inbound : Inbound) (inbounds : List String)
    (settings : ProxySettings) (email : String)
    (h1 : ∀ a, settings.Vmess = some a → a.Email = email ∧ a.Level = 0)
    (h2 : ∀ a, settings.Vless = some a → a.Email = email ∧ a.Level = 0)
    (h3 : ∀ a, settings.Trojan = some a → a.Email = email ∧ a.Level = 0)
    (h4 : ∀ a, settings.Shadowsocks = some a → a.Email = email ∧ a.Level = 0)
    (h5 : ∀ a, settings.Shadowsocks2022 = some a → a.Email = email ∧ a.Level = 0)
    (account : Account) (h : isActiveInbound inbound inbounds settings = some account) :
    account.GetEmail = email ∧ account.GetLevel = 0 := by
  unfold isActiveInbound at h
  split at h
  · split at h
    · cases hv : settings.Vless with
      | none => simp [hv] at h
      | some v =>
        simp only [hv, Option.some.injEq] at h
        subst h
        obtain ⟨e1, e2, _⟩ := checkVless_base inbound v
        exact ⟨e1.trans (h2 v hv).1, e2.trans (h2 v hv).2⟩
    · split at h
      · cases hv : settings.Vmess with
        | none => simp [hv] at h
        | some v =>
          simp only [hv, Option.some.injEq] at h
          subst h
          exact h1 v hv
      · split at h
        · cases hv : settings.Trojan with
          | none => simp [hv] at h
          | some v =>
            simp only [hv, Option.some.injEq] at h
            subst h
            exact h3 v hv
        · split at h
          · cases hm : inbound.method2022 with
            | none =>
              simp only [hm] at h
              cases hv : settings.Shadowsocks with
              | none => simp [hv] at h
              | some v =>
                simp only [hv, Option.some.injEq] at h
                subst h
                exact h4 v hv
            | some m =>
              simp only [hm] at h
              cases hv : settings.Shadowsocks2022 with
              | none => simp [hv] at h
              | some v =>
                simp only [hv, Option.some.injEq] at h
                subst h
                exact h5 v hv
          · simp at h
  · simp at h

/-- C18: every account built from a user carries the user's email and level 0:
the results of `NewVmessAccount` and `NewVlessAccount` when they return an
account, the results of `NewTrojanAccount`, `NewShadowsocksTcpAccount` and
`NewShadowsocksAccount`, every slot `setupUserAccount` fills, and every account
`isActiveInbound` returns from those slots; `checkVless` and
`checkShadowsocks2022` change neither email nor level. `setupUserAccount`
leaves the slot of a protocol empty when the user supplied no settings for
it. -/
theorem account_derivation (parse : UUIDParser) (user : User) :
    (∀ a, NewVmessAccount parse user = some a → a.Email = user.Email ∧ a.Level = 0) ∧
    (∀ a, NewVlessAccount parse user = some a → a.Email = user.Email ∧ a.Level = 0) ∧
    ((NewTrojanAccount user).Email = user.Email ∧ (NewTrojanAccount user).Level = 0) ∧
    ((NewShadowsocksTcpAccount user).Email = user.Email ∧
      (NewShadowsocksTcpAccount user).Level = 0) ∧
    ((NewShadowsocksAccount user).Email = user.Email ∧
      (NewShadowsocksAccount user).Level = 0) ∧
    (∀ i a, (checkVless i a).Email = a.Email ∧ (checkVless i a).Level = a.Level) ∧
    (∀ m a, (checkShadowsocks2022 m a).Email = a.Email ∧
      (checkShadowsocks2022 m a).Level = a.Level) ∧
    ((∀ a, (setupUserAccount parse user).Vmess = some a →
        a.Email = user.Email ∧ a.Level = 0) ∧
      (∀ a, (setupUserAccount parse user).Vless = some a →
        a.Email = user.Email ∧ a.Level = 0) ∧
      (∀ a, (setupUserAccount parse user).Trojan = some a →
        a.Email = user.Email ∧ a.Level = 0) ∧
      (∀ a, (setupUserAccount parse user).Shadowsocks = some a →
        a.Email = user.Email ∧ a.Level = 0) ∧
      (∀ a, (setupUserAccount parse user).Shadowsocks2022 = some a →
        a.Email = user.Email ∧ a.Level = 0)) ∧
    (∀ inbound a,
      isActiveInbound inbound user.Inbounds (setupUserAccount parse user) = some a →
        a.GetEmail = user.Email ∧ a.GetLevel = 0) ∧
    (user.getVmess = none → (setupUserAccount parse user).Vmess = none) ∧
    (user.getVless = none → (setupUserAccount parse user).Vless = none) ∧
    (user.getTrojan = none → (setupUserAccount parse user).Trojan = none) ∧
    (user.getShadowsocks = none →
      (setupUserAccount parse user).Shadowsocks = none ∧
      (setupUserAccount parse user).Shadowsocks2022 = none) := by
  obtain ⟨s1, s2, s3, s4, s5⟩ := setupUserAccount_slots parse user
  refine ⟨?_, ?_, ⟨rfl, rfl⟩, ⟨rfl, rfl⟩, ⟨rfl, rfl⟩, ?_, ?_, ⟨s1, s2, s3, s4, s5⟩, ?_, ?_, ?_,
    ?_, ?_⟩
  · intro a h
    unfold NewVmessAccount at h
    split at h
    · simp at h
    · simp only [Option.some.injEq] at h
      subst h
      exact ⟨rfl, rfl⟩
  · intro a h
    unfold NewVlessAccount at h
    split at h
    · simp at h
    · simp only [Option.some.injEq] at h
      subst h
      exact ⟨rfl, rfl⟩
  · intro i a
    exact ⟨(checkVless_base i a).1, (checkVless_base i a).2.1⟩
  · intro m a
    exact ⟨rfl, rfl⟩
  · intro inbound a h
    exact isActiveInbound_base inbound user.Inbounds _ user.Email s1 s2 s3 s4 s5 a h
  · intro h
    simp [setupUserAccount, h]
  · intro h
    simp [setupUserAccount, h]
  · intro h
    simp [setupUserAccount, h]
  · intro h
    simp [setupUserAccount, h]

/-- C18 on a user with a VMess identifier in canonical form: the VMess slot is
filled, with the user's email and level 0. -/
theorem account_derivation_witness :
    (setupUserAccount canonicalUUID
        { Email := "u@example.com",
          Proxies := some { Vmess := some { Id := "123e4567-e89b-12d3-a456-426614174000" } } }).Vmess
      = some { Email := "u@example.com", Level := 0,
               ID := [18, 62, 69, 103, 232, 155, 18, 211, 164, 86, 66, 102, 20, 23, 64, 0] } ∧
    (({ Email := "u@example.com", Level := 0,
        ID := [18, 62, 69, 103, 232, 155, 18, 211, 164, 86, 66, 102, 20, 23, 64, 0] } :
          VmessAccount).Email = "u@example.com" ∧
      ({ Email := "u@example.com", Level := 0,
         ID := [18, 62, 69, 103, 232, 155, 18, 211, 164, 86, 66, 102, 20, 23, 64, 0] } :
          VmessAccount).Level = 0) :=
  ⟨by decide,
   (account_derivation canonicalUUID
      { Email := "u@example.com",
        Proxies := some { Vmess := some { Id := "123e4567-e89b-12d3-a456-426614174000" } } }
    ).2.2.2.2.2.2.2.1.1 _ (by decide)⟩

/-! ## Classic Shadowsocks accounts -/

theorem CipherType_value_keys_eq : CipherType_value_keys = CipherType_value.map Prod.fst := by
  decide

theorem CipherType_name_none : CipherType_name.lookup 9 = some "none" := by decide

theorem CipherType_value_range (method : String) (h : method ∈ CipherType_value_keys) :
    ∃ v, CipherType_value.lookup method = some v ∧ 5 ≤ v ∧ v ≤ 9 ∧
      (CipherType_name.lookup v).isSome = true := by
  simp only [CipherType_value_keys, List.mem_cons, List.mem_singleton, List.not_mem_nil,
    or_false] at h
  rcases h with rfl | rfl | rfl | rfl | rfl | rfl | rfl
  · exact ⟨5, by decide, by decide, by decide, by decide⟩
  · exact ⟨6, by decide, by decide, by decide, by decide⟩
  · exact ⟨7, by decide, by decide, by decide, by decide⟩
  · exact ⟨7, by decide, by decide, by decide, by decide⟩
  · exact ⟨8, by decide, by decide, by decide, by decide⟩
  · exact ⟨8, by decide, by decide, by decide, by decide⟩
  · exact ⟨9, by decide, by decide, by decide, by decide⟩

/-- C19: `NewShadowsocksTcpAccount` records the user's method when it is one of
`aes-128-gcm`, `aes-256-gcm`, `chacha20-poly1305`, `chacha20-ietf-poly1305`,
`xchacha20-poly1305`, `xchacha20-ietf-poly1305`, `none`, and records `none`
otherwise; the password is the user's, in the account and in the engine
message; and the cipher type of the engine message is one of the values 5 to 9,
each of which `CipherType_name` defines. -/
theorem NewShadowsocksTcpAccount_cipher (user : User) :
    ((user.getShadowsocks.map (fun s => s.Method)).getD "" ∈
        ["aes-128-gcm", "aes-256-gcm", "chacha20-poly1305", "chacha20-ietf-poly1305",
         "xchacha20-poly1305", "xchacha20-ietf-poly1305", "none"] →
      (NewShadowsocksTcpAccount user).Method
        = (user.getShadowsocks.map (fun s => s.Method)).getD "") ∧
    ((user.getShadowsocks.map (fun s => s.Method)).getD "" ∉
        ["aes-128-gcm", "aes-256-gcm", "chacha20-poly1305", "chacha20-ietf-poly1305",
         "xchacha20-poly1305", "xchacha20-ietf-poly1305", "none"] →
      (NewShadowsocksTcpAccount user).Method = "none") ∧
    (NewShadowsocksTcpAccount user).Password
      = (user.getShadowsocks.map (fun s => s.Password)).getD "" ∧
    (NewShadowsocksTcpAccount user).Message.Password
      = (user.getShadowsocks.map (fun s => s.Password)).getD "" ∧
    5 ≤ (NewShadowsocksTcpAccount user).Message.CipherType ∧
    (NewShadowsocksTcpAccount user).Message.CipherType ≤ 9 ∧
    (CipherType_name.lookup (NewShadowsocksTcpAccount user).Message.CipherType).isSome
      = true := by
  have hkeys : CipherType_value_keys =
      ["aes-128-gcm", "aes-256-gcm", "chacha20-poly1305", "chacha20-ietf-poly1305",
       "xchacha20-poly1305", "xchacha20-ietf-poly1305", "none"] := rfl
  have hm : (NewShadowsocksTcpAccount user).Method ∈ CipherType_value_keys := by
    unfold NewShadowsocksTcpAccount
    simp only
    split
    · rename_i h
      simpa using h
    · decide
  obtain ⟨v, hv, h5, h9, hn⟩ := CipherType_value_range _ hm
  refine ⟨?_, ?_, rfl, rfl, ?_, ?_, ?_⟩
  · intro h
    rw [← hkeys] at h
    unfold NewShadowsocksTcpAccount
    simp [h]
  · intro h
    rw [← hkeys] at h
    unfold NewShadowsocksTcpAccount
    simp [h]
  · simp only [ShadowsocksTcpAccount.Message, hv, Option.getD_some]
    exact h5
  · simp only [ShadowsocksTcpAccount.Message, hv, Option.getD_some]
    exact h9
  · simp only [ShadowsocksTcpAccount.Message, hv, Option.getD_some]
    exact hn

/-- C19 on a user with the method `chacha20-ietf-poly1305`, which is kept, and
on a user with the method `rc4-md5`, which becomes `none`. -/
theorem NewShadowsocksTcpAccount_cipher_witness :
    (NewShadowsocksTcpAccount
        { Email := "u@example.com",
          Proxies := some { Shadowsocks := some { Password := "pw",
                                                  Method := "chacha20-ietf-poly1305" } } }).Method
      = "chacha20-ietf-poly1305" ∧
    (NewShadowsocksTcpAccount
        { Email := "u@example.com",
          Proxies := some { Shadowsocks := some { Password := "pw",
                                                  Method := "rc4-md5" } } }).Method
      = "none" :=
  ⟨(NewShadowsocksTcpAccount_cipher _).1 (by decide),
   (NewShadowsocksTcpAccount_cipher _).2.1 (by decide)⟩

/-! ## Counter names -/

/-- The two loop bodies read the same segments and differ in where they put
the third and the fourth. -/
theorem statOfAll_swapped (stat : Counter) :
    statOfAll stat =
      (statOfOne stat).map (fun s => { s with Type_ := s.Link, Link := s.Type_ }) := by
  unfold statOfAll statOfOne
  simp only
  cases (strSplit stat.Name ">>>")[1]? <;> cases (strSplit stat.Name ">>>")[2]? <;>
    cases (strSplit stat.Name ">>>")[3]? <;> rfl

/-- C20, the input on which the code departs from the claim: the counter
`user>>>a@b>>>traffic>>>uplink` with the value 42. The request for all users
reports it with type `uplink` and link `traffic`, the request for the user
`a@b` with type `traffic` and link `uplink`: the two records of the one counter
differ. -/
theorem stats_all_and_one_differ :
    GetUsersStats (engineQuery [{ Name := "user>>>a@b>>>traffic>>>uplink", Value := 42 }]) false
      = some (.ok [{ Name := "a@b", Type_ := "uplink", Link := "traffic", Value := 42 }]) ∧
    GetUserStats (engineQuery [{ Name := "user>>>a@b>>>traffic>>>uplink", Value := 42 }])
        "a@b" false
      = some (.ok [{ Name := "a@b", Type_ := "traffic", Link := "uplink", Value := 42 }]) := by
  constructor <;> rfl

/-! ## Excluded inbounds -/

theorem Inbound.syncUsers_frame (parse : UUIDParser) (users : List User) (i j : Inbound)
    (h : i.syncUsers parse users = some j) : j.exclude = i.exclude ∧ j.Tag = i.Tag := by
  unfold Inbound.syncUsers at h
  have key : ∀ c, i.storeClients c = some j → j.exclude = i.exclude ∧ j.Tag = i.Tag := by
    intro c hc
    rw [(Inbound.storeClients_eq_some i j c hc).2]
    exact ⟨rfl, rfl⟩
  repeat' split at h
  all_goals
    first
    | exact key _ h
    | (simp only [Option.some.injEq] at h; subst h; exact ⟨rfl, rfl⟩)
    | (cases hv : vlessClients parse i users with
       | none => simp [hv] at h
       | some l => simp only [hv, Option.some_bind] at h; exact key _ h)

theorem syncUsersInbounds_frame (parse : UUIDParser) (users : List User) :
    ∀ (l l2 : List Inbound), syncUsersInbounds parse users l = some l2 →
      List.Forall₂ (fun i j => (i.exclude = true → j = i) ∧ j.exclude = i.exclude ∧ j.Tag = i.Tag)
        l l2 := by
  intro l
  induction l with
  | nil =>
    intro l2 h
    simp only [syncUsersInbounds, Option.some.injEq] at h
    subst h
    exact List.Forall₂.nil
  | cons i rest ih =>
    intro l2 h
    unfold syncUsersInbounds at h
    cases hex : i.exclude with
    | true =>
      simp only [hex, if_true] at h
      cases hr : syncUsersInbounds parse users rest with
      | none => simp [hr] at h
      | some r =>
        simp only [hr, Option.map_some', Option.some.injEq] at h
        subst h
        exact List.Forall₂.cons ⟨fun _ => rfl, rfl, rfl⟩ (ih r hr)
    | false =>
      simp only [hex, Bool.false_eq_true, if_false] at h
      cases hs : i.syncUsers parse users with
      | none => simp [hs] at h
      | some i2 =>
        simp only [hs] at h
        cases hr : syncUsersInbounds parse users rest with
        | none => simp [hr] at h
        | some r =>
          simp only [hr, Option.map_some', Option.some.injEq] at h
          subst h
          refine List.Forall₂.cons ⟨fun hc => ?_, ?_, ?_⟩ (ih r hr)
          · rw [hex] at hc
            cases hc
          · exact (Inbound.syncUsers_frame parse users i i2 hs).1
          · exact (Inbound.syncUsers_frame parse users i i2 hs).2

theorem syncUserLoop_frame (addResult : Nat → Option String) (user : User)
    (settings : ProxySettings) :
    ∀ (l : List Inbound) (k : Nat) (msg : String) (st : SyncState),
      syncUserLoop addResult user settings k l msg = some st →
      List.Forall₂ (fun i j => i.exclude = true → j = i) l st.inbounds ∧
      ∀ call ∈ st.calls, ∃ i ∈ l, i.exclude = false ∧ call.tag = i.Tag := by
  intro l
  induction l with
  | nil =>
    intro k msg st h
    simp only [syncUserLoop, Option.some.injEq] at h
    subst h
    exact ⟨List.Forall₂.nil, by simp⟩
  | cons i rest ih =>
    intro k msg st h
    unfold syncUserLoop at h
    cases hex : i.exclude with
    | true =>
      simp only [hex, if_true] at h
      cases hr : syncUserLoop addResult user settings (k + 1) rest msg with
      | none => simp [hr] at h
      | some st2 =>
        simp only [hr, Option.map_some', Option.some.injEq] at h
        subst h
        obtain ⟨f, c⟩ := ih (k + 1) msg st2 hr
        refine ⟨List.Forall₂.cons (fun _ => rfl) f, ?_⟩
        intro call hcall
        obtain ⟨j, hj, hj2⟩ := c call hcall
        exact ⟨j, List.mem_cons_of_mem _ hj, hj2⟩
    | false =>
      simp only [hex, Bool.false_eq_true, if_false] at h
      have hfalse : i.exclude = true → ∀ j : Inbound, j = i := by
        intro hc
        rw [hex] at hc
        cases hc
      cases hact : isActiveInbound i user.Inbounds settings with
      | none =>
        simp only [hact] at h
        cases hu : i.removeUser user.Email with
        | none => simp [hu] at h
        | some u =>
          simp only [hu] at h
          cases hr : syncUserLoop addResult user settings (k + 1) rest msg with
          | none => simp [hr] at h
          | some st2 =>
            simp only [hr, Option.map_some', Option.some.injEq] at h
            subst h
            obtain ⟨f, c⟩ := ih (k + 1) msg st2 hr
            refine ⟨List.Forall₂.cons (fun hc => hfalse hc u) f, ?_⟩
            intro call hcall
            rcases List.mem_cons.1 hcall with rfl | hcall
            · exact ⟨i, List.mem_cons_self _ _, hex, rfl⟩
            · obtain ⟨j, hj, hj2⟩ := c call hcall
              exact ⟨j, List.mem_cons_of_mem _ hj, hj2⟩
      | some a =>
        simp only [hact] at h
        cases hu : i.updateUser a with
        | none => simp [hu] at h
        | some u =>
          simp only [hu] at h
          generalize (match addResult k with
            | some text => msg ++ "\n" ++ text
            | none => msg) = msg2 at h
          cases hr : syncUserLoop addResult user settings (k + 1) rest msg2 with
          | none => simp [hr] at h
          | some st2 =>
            simp only [hr, Option.map_some', Option.some.injEq] at h
            subst h
            obtain ⟨f, c⟩ := ih (k + 1) msg2 st2 hr
            refine ⟨List.Forall₂.cons (fun hc => hfalse hc u) f, ?_⟩
            intro call hcall
            rcases List.mem_cons.1 hcall with rfl | hcall
            · exact ⟨i, List.mem_cons_self _ _, hex, rfl⟩
            · rcases List.mem_cons.1 hcall with rfl | hcall
              · exact ⟨i, List.mem_cons_self _ _, hex, rfl⟩
              · obtain ⟨j, hj, hj2⟩ := c call hcall
                exact ⟨j, List.mem_cons_of_mem _ hj, hj2⟩

theorem NewXRayConfig_exclude (decode : ConfigDecoder) (hdec : DecodesDocuments decode)
    (config : String) (exclude : List String) (c : Config)
    (h : NewXRayConfig decode config exclude = some c) :
    ∀ i ∈ c.InboundConfigs, (i.exclude = true ↔ i.Tag ∈ exclude) := by
  unfold NewXRayConfig at h
  cases hd : decode config with
  | none => simp [hd] at h
  | some d =>
    simp only [hd, Option.some.injEq] at h
    subst h
    intro i hi
    simp only [List.mem_map] at hi
    obtain ⟨i0, hi0, rfl⟩ := hi
    have h0 := hdec config d hd i0 hi0
    by_cases ht : i0.Tag ∈ exclude
    · simp [ht]
    · simp [ht, h0]

theorem Inbound.syncUsers_total (parse : UUIDParser) (i : Inbound) (users : List User)
    (h : idsParse parse users) (hs : i.storable = true) :
    ∃ j, i.syncUsers parse users = some j := by
  by_cases hp : i.Protocol = "vmess" ∨ i.Protocol = "vless" ∨ i.Protocol = "trojan"
      ∨ i.Protocol = "shadowsocks"
  · obtain ⟨j, hj, _⟩ := Inbound.syncUsers_accounts parse i users h hp
      (storable_of_managed i hs ((managedProtocol_iff _).2 hp))
    exact ⟨j, hj⟩
  · simp only [not_or] at hp
    exact ⟨i, by simp [Inbound.syncUsers, hp.1, hp.2.1, hp.2.2.1, hp.2.2.2]⟩

theorem syncUsersInbounds_total (parse : UUIDParser) (users : List User)
    (h : idsParse parse users) :
    ∀ l : List Inbound, (∀ i ∈ l, i.exclude = false → i.storable = true) →
      ∃ l2, syncUsersInbounds parse users l = some l2 := by
  intro l
  induction l with
  | nil => intro _; exact ⟨[], rfl⟩
  | cons i rest ih =>
    intro hst
    obtain ⟨r, hr⟩ := ih (fun x hx => hst x (List.mem_cons_of_mem _ hx))
    unfold syncUsersInbounds
    cases hex : i.exclude with
    | true => simp [hr]
    | false =>
      obtain ⟨j, hj⟩ := Inbound.syncUsers_total parse i users h
        (hst i (List.mem_cons_self _ _) hex)
      simp [hr, hj]

theorem forall₂_mem_right {α β : Type} {R : α → β → Prop} :
    ∀ {l : List α} {l2 : List β}, List.Forall₂ R l l2 → ∀ b ∈ l2, ∃ a ∈ l, R a b := by
  intro l l2 h
  induction h with
  | nil => intro b hb; simp at hb
  | cons hab _ ih =>
    intro b hb
    rcases List.mem_cons.1 hb with rfl | hb2
    · exact ⟨_, List.mem_cons_self _ _, hab⟩
    · obtain ⟨a, ha, hr⟩ := ih b hb2
      exact ⟨a, List.mem_cons_of_mem _ ha, hr⟩

theorem sampleDecoder_decodes : DecodesDocuments sampleDecoder := by
  intro s c h i hi
  unfold sampleDecoder at h
  split at h
  · simp only [Option.some.injEq] at h
    subst h
    simp only [List.mem_cons, List.mem_singleton, List.not_mem_nil, or_false] at hi
    rcases hi with rfl | rfl <;> rfl
  · simp at h

/-- C17: `NewXRayConfig` leaves an inbound excluded exactly when its tag is in
the exclude list. `Config.syncUsers` and `SyncUser`, whenever they return,
return every excluded inbound as it was, settings and client list included, and
each request `SyncUser` sends carries the tag of an inbound that is not
excluded; on the loaded configuration, before or after a bulk synchronisation,
no request carries a tag of the exclude list, so none carries the tag of an
excluded inbound. Both operations do return when every non-excluded inbound of
a managed protocol has its `Settings` map: the bulk one if every identifier
parses, the single-user one if no client list of a non-excluded inbound holds
a nil element. -/
theorem excluded_untouched (decode : ConfigDecoder) (hdec : DecodesDocuments decode)
    (parse : UUIDParser) (config : String) (exclude : List String) (c : Config)
    (h : NewXRayConfig decode config exclude = some c) :
    (∀ i ∈ c.InboundConfigs, (i.exclude = true ↔ i.Tag ∈ exclude)) ∧
    (∀ (c0 : Config) users c1, c0.syncUsers parse users = some c1 →
      List.Forall₂ (fun i j => i.exclude = true → j = i)
        c0.InboundConfigs c1.InboundConfigs) ∧
    (∀ (c0 : Config) users, idsParse parse users →
      (∀ i ∈ c0.InboundConfigs, i.exclude = false → i.storable = true) →
      ∃ c1, c0.syncUsers parse users = some c1) ∧
    (∀ l addResult user r, SyncUser parse addResult l user = some r →
      List.Forall₂ (fun i j => i.exclude = true → j = i) l r.inbounds ∧
      ∀ call ∈ r.calls, ∃ i ∈ l, i.exclude = false ∧ call.tag = i.Tag) ∧
    (∀ l addResult user,
      (∀ i ∈ l, i.exclude = false → i.clients.noNil = true ∧ i.storable = true) →
      ∃ r, SyncUser parse addResult l user = some r) ∧
    (∀ addResult user r, SyncUser parse addResult c.InboundConfigs user = some r →
      ∀ call ∈ r.calls, call.tag ∉ exclude ∧
        ∀ i ∈ c.InboundConfigs, i.exclude = true → call.tag ≠ i.Tag) ∧
    (∀ users c1, c.syncUsers parse users = some c1 →
      ∀ addResult user r, SyncUser parse addResult c1.InboundConfigs user = some r →
        ∀ call ∈ r.calls, call.tag ∉ exclude ∧
          ∀ i ∈ c1.InboundConfigs, i.exclude = true → call.tag ≠ i.Tag) := by
  have hflag := NewXRayConfig_exclude decode hdec config exclude c h
  have hsync : ∀ l addResult user r, SyncUser parse addResult l user = some r →
      List.Forall₂ (fun i j => i.exclude = true → j = i) l r.inbounds ∧
      ∀ call ∈ r.calls, ∃ i ∈ l, i.exclude = false ∧ call.tag = i.Tag := by
    intro l addResult user r hr
    unfold SyncUser at hr
    cases hl : syncUserLoop addResult user (setupUserAccount parse user) 0 l "" with
    | none => simp [hl] at hr
    | some st =>
      simp only [hl, Option.map_some', Option.some.injEq] at hr
      subst hr
      exact syncUserLoop_frame addResult user _ l 0 "" st hl
  have hcalls : ∀ (l : List Inbound), (∀ i ∈ l, (i.exclude = true ↔ i.Tag ∈ exclude)) →
      ∀ addResult user r, SyncUser parse addResult l user = some r →
        ∀ call ∈ r.calls, call.tag ∉ exclude ∧
          ∀ i ∈ l, i.exclude = true → call.tag ≠ i.Tag := by
    intro l hl addResult user r hr call hcall
    obtain ⟨j, hj, hje, hjt⟩ := (hsync l addResult user r hr).2 call hcall
    have hnot : call.tag ∉ exclude := by
      intro hin
      rw [hjt] at hin
      have := (hl j hj).2 hin
      rw [hje] at this
      cases this
    exact ⟨hnot, fun i hi hie heq => hnot (heq ▸ (hl i hi).1 hie)⟩
  refine ⟨hflag, ?_, ?_, hsync, ?_, hcalls c.InboundConfigs hflag, ?_⟩
  · intro c0 users c1 h1
    unfold Config.syncUsers at h1
    cases hl : syncUsersInbounds parse users c0.InboundConfigs with
    | none => simp [hl] at h1
    | some l2 =>
      simp only [hl, Option.map_some', Option.some.injEq] at h1
      subst h1
      exact List.Forall₂.imp (fun _ _ hij => hij.1) (syncUsersInbounds_frame parse users _ l2 hl)
  · intro c0 users hid hst
    obtain ⟨l2, hl2⟩ := syncUsersInbounds_total parse users hid c0.InboundConfigs hst
    simp [Config.syncUsers, hl2]
  · intro l addResult user hn
    obtain ⟨st, h1, _⟩ := syncUserLoop_spec addResult user (setupUserAccount parse user) l 0 ""
      (fun i hi => syncInbound_total user _ i (hn i hi))
    simp [SyncUser, h1]
  · intro users c1 h1
    unfold Config.syncUsers at h1
    cases hl : syncUsersInbounds parse users c.InboundConfigs with
    | none => simp [hl] at h1
    | some l2 =>
      simp only [hl, Option.map_some', Option.some.injEq] at h1
      subst h1
      apply hcalls
      have hf := syncUsersInbounds_frame parse users _ l2 hl
      intro j hj
      obtain ⟨i, hi, hij⟩ := forall₂_mem_right hf j hj
      rw [hij.2.1, hij.2.2]
      exact hflag i hi

/-- The statement of C17 on the sample document with the exclude list
`manual`: the configuration is loaded with `manual` marked, and `SyncUser`
returns on it. -/
theorem excluded_untouched_witness :
    NewXRayConfig sampleDecoder "doc" ["manual"]
      = some { InboundConfigs :=
          [{ Tag := "managed", Protocol := "vmess" },
           { Tag := "manual", Protocol := "trojan", exclude := true,
             clients := .raw (some (.arr [.obj [("email", .str "hand@example.com")]])) }] } ∧
    ∃ r, SyncUser canonicalUUID (fun _ => none)
        [{ Tag := "managed", Protocol := "vmess" },
         { Tag := "manual", Protocol := "trojan", exclude := true,
           clients := .raw (some (.arr [.obj [("email", .str "hand@example.com")]])) }]
        { Email := "test_user@example.com", Inbounds := ["managed", "manual"],
          Proxies := some { Trojan := some { Password := "try a random string" } } } = some r :=
  ⟨rfl,
   (excluded_untouched sampleDecoder sampleDecoder_decodes canonicalUUID "doc" ["manual"]
      { InboundConfigs :=
          [{ Tag := "managed", Protocol := "vmess" },
           { Tag := "manual", Protocol := "trojan", exclude := true,
             clients := .raw (some (.arr [.obj [("email", .str "hand@example.com")]])) }] }
      rfl).2.2.2.2.1 _ _ _ (by decide)⟩

/-! ## The health loop -/

/-- The error `GetSysStats` returns never passes the cancellation test of the
health loop, whatever error the call of the stats service returned. -/
theorem GetSysStats_not_canceled (err : GoErr) :
    ∃ e, GetSysStats (.error err) = .error e ∧ isCanceled e = false :=
  ⟨_, rfl, rfl⟩

/-- One round of the loop on a failing probe with the lifetime context not
done: from the third failure in a row on, `Restart` is called, and the counter
goes back to 0 only if that call returned no error. -/
theorem checkXrayHealthLoop_fail (n k : Nat) (err : GoErr) (r : Option GoErr)
    (rest : List HealthTick) :
    checkXrayHealthLoop n k ({ done := false, probe := .error err, restart := r } :: rest) =
      if n + 1 ≥ 3 then
        checkXrayHealthLoop (if r.isSome then n + 1 else 0) (k + 1) rest
      else checkXrayHealthLoop (n + 1) k rest := by
  cases r <;> simp [checkXrayHealthLoop, GetSysStats, isCanceled, maxFailures]

/-- C12, the run on which the code departs from the claim: two probes have
failed, and the lifetime context is cancelled while the third probe is in
flight, so that the call of the stats service fails with the cancellation
(`e` is any error of the call: the status error with the code `Canceled`, or
`context.Canceled` itself). `GetSysStats` hands the loop a status error with
the code `Unknown`, the test `errors.Is(err, context.Canceled)` fails, the
failure is counted and `Restart` is called; the loop has not returned. Only a
cancellation seen by the `select` at the top of a round makes it return with
the counter and the restarts as they were. -/
theorem health_cancelled_probe_restarts (e1 e2 e : GoErr) (r1 r2 r : Option GoErr) :
    checkXrayHealth
        [{ probe := .error e1, restart := r1 }, { probe := .error e2, restart := r2 },
         { done := false, probe := .error e, restart := r }]
      = { consecutiveFailures := if r.isSome then 3 else 0, restarts := 1,
          returned := false } ∧
    checkXrayHealth
        [{ probe := .error e1, restart := r1 }, { probe := .error e2, restart := r2 },
         { done := false, probe := .error (.statusError .Canceled "context canceled"),
           restart := none }]
      = { consecutiveFailures := 0, restarts := 1, returned := false } ∧
    checkXrayHealth
        [{ probe := .error e1, restart := r1 }, { probe := .error e2, restart := r2 },
         { done := false, probe := .error .contextCanceled, restart := none }]
      = { consecutiveFailures := 0, restarts := 1, returned := false } ∧
    ∀ (n k : Nat) (p : Except GoErr SysStatsResponse) (rest : List HealthTick),
      checkXrayHealthLoop n k ({ done := true, probe := p, restart := r } :: rest)
        = { consecutiveFailures := n, restarts := k, returned := true } := by
  simp only [checkXrayHealth, checkXrayHealthLoop_fail]
  refine ⟨?_, ?_, ?_, ?_⟩
  · cases r <;> simp [checkXrayHealthLoop]
  · simp [checkXrayHealthLoop]
  · simp [checkXrayHealthLoop]
  · intro n k p rest
    simp [checkXrayHealthLoop]

/-! ## The supervisor: `Stop` and `Restart` -/

/-- `Started` holds exactly when there is a command with a process and no
process state. -/
theorem Core.Started_iff (c : Core) :
    c.Started = true ↔
      ∃ proc, c.process = some { Process := some proc, ProcessState := none } := by
  unfold Core.Started
  cases hp : c.process with
  | none => simp
  | some p =>
    obtain ⟨pr, st⟩ := p
    cases pr <;> cases st <;> simp

/-- C14. A supervisor is not started exactly when it has no child handle (no
command, or a command without a process) or the child has reported its exit
(the process state is there). On such a supervisor `Stop` does nothing to the
operating system (no kill, no signal to a process tree, no cancellation, no
file closed) and returns with every field of the state as it was. `Stop` has
no error to return. -/
theorem Stop_not_started (env : StopEnv) (c : Core) :
    (c.Started = false ↔
      (c.process = none ∨
        ∃ p, c.process = some p ∧ (p.Process = none ∨ ∃ code, p.ProcessState = some code))) ∧
    (c.Started = false → c.Stop env = (c, [])) := by
  constructor
  · unfold Core.Started
    cases hp : c.process with
    | none => simp
    | some p =>
      obtain ⟨pr, st⟩ := p
      cases pr <;> cases st <;> simp
  · intro h
    simp [Core.Stop, h]

/-- C14 on a supervisor whose child, process 4242, has exited with code 1
while the handle, the logger and the cancel function are still in place. -/
theorem Stop_not_started_witness :
    Core.Stop { exited := false, alive := true }
        { executablePath := "/usr/local/bin/xray", assetsPath := "/usr/local/share/xray",
          configPath := "/var/lib/gate", version := "1.8.4",
          process := some { Process := some { Pid := 4242 }, ProcessState := some 1 },
          processPID := 4242, logsChan := { cap := 100, buf := ["line"] },
          logger := some { outputLogs := false, accessLogger := some "/var/log/access.log" },
          cancelFunc := some 4242 }
      = ({ executablePath := "/usr/local/bin/xray", assetsPath := "/usr/local/share/xray",
           configPath := "/var/lib/gate", version := "1.8.4",
           process := some { Process := some { Pid := 4242 }, ProcessState := some 1 },
           processPID := 4242, logsChan := { cap := 100, buf := ["line"] },
           logger := some { outputLogs := false, accessLogger := some "/var/log/access.log" },
           cancelFunc := some 4242 }, []) :=
  (Stop_not_started _ _).2 (by decide)

/-- C13, the state in which the code departs from the claim: a restart is in
progress, so the flag is set and the lock of the backend is held by the
goroutine that runs it. A second request entering through `Xray.Restart` is
not turned away with an error: it waits at the lock. -/
theorem Xray_Restart_waits :
    Xray.Restart {} { ToBytes := fun _ => "", GatePID := 100, cmdStart := .ok 4243 }
        { config := {}, Debug := false, mu := true,
          core := { executablePath := "/usr/local/bin/xray",
                    assetsPath := "/usr/local/share/xray", configPath := "/var/lib/gate",
                    version := "1.8.4", restarting := true, logsChan := { cap := 100 },
                    process := some { Process := some { Pid := 4242 } }, processPID := 4242 } }
      = .waits := rfl

/-- C13, as the code has it. `Core.Restart` entered with the flag set returns
the error `xray is already restarting`, stops and starts nothing and leaves the
supervisor and the configuration as they were. `Xray.Restart` holds the lock
of the backend around the whole of `Core.Restart`: a request that arrives
while the lock is held waits; a request that finds the lock free and the flag
clear stops the child, starts a new one, and returns with the flag clear and
the lock free, so the flag is never set while the lock is free. (Were it set
with the lock free, the request would be turned away like the one to
`Core.Restart`.) -/
theorem Restart_reentrancy (stopEnv : StopEnv) (startEnv : StartEnv) (c : Core)
    (config : Config) (debugMode : Bool) (x : Xray) :
    (let r := Core.Restart stopEnv startEnv { c with restarting := true } config debugMode
     r.core = { c with restarting := true } ∧ r.config = config ∧
       r.err = some (.errorString "xray is already restarting") ∧ r.effects = []) ∧
    Xray.Restart stopEnv startEnv { x with mu := true } = .waits ∧
    Xray.Restart stopEnv startEnv
        { x with mu := false, core := { x.core with restarting := false } }
      = (let stopped := Core.Stop stopEnv { x.core with restarting := true }
         let r := Core.Start startEnv stopped.1 x.config x.Debug
         .returns ({ x with mu := false, config := r.config,
                            core := { r.core with restarting := false } },
                   r.err, stopped.2 ++ r.effects)) ∧
    Xray.Restart stopEnv startEnv
        { x with mu := false, core := { x.core with restarting := true } }
      = .returns ({ x with mu := false, core := { x.core with restarting := true } },
                  some (.errorString "xray is already restarting"), []) := by
  refine ⟨?_, ?_, ?_, ?_⟩
  · simp [Core.Restart]
  · simp [Xray.Restart]
  · simp [Xray.Restart, Core.Restart]
  · simp [Xray.Restart, Core.Restart]

/-! ## Regular expressions -/

theorem Regex.matches_zero (x : List Char) : ¬ Regex.Matches .zero x := by
  intro h; cases h

theorem Regex.matches_epsilon (x : List Char) : Regex.Matches .epsilon x ↔ x = [] := by
  constructor
  · intro h; cases h; rfl
  · rintro rfl; exact .epsilon

theorem Regex.matches_cls (p : Char → Bool) (x : List Char) :
    Regex.Matches (.cls p) x ↔ ∃ c, x = [c] ∧ p c = true := by
  constructor
  · intro h; cases h with | cls hc => exact ⟨_, rfl, hc⟩
  · rintro ⟨c, rfl, hc⟩; exact .cls hc

theorem Regex.matches_plus (a b : Regex) (x : List Char) :
    Regex.Matches (.plus a b) x ↔ Regex.Matches a x ∨ Regex.Matches b x := by
  constructor
  · intro h
    cases h with
    | plusLeft h => exact .inl h
    | plusRight h => exact .inr h
  · rintro (h | h)
    · exact .plusLeft h
    · exact .plusRight h

theorem Regex.matches_comp (a b : Regex) (x : List Char) :
    Regex.Matches (.comp a b) x ↔
      ∃ y z, x = y ++ z ∧ Regex.Matches a y ∧ Regex.Matches b z := by
  constructor
  · intro h
    cases h with | comp h1 h2 => exact ⟨_, _, rfl, h1, h2⟩
  · rintro ⟨y, z, rfl, h1, h2⟩
    exact .comp h1 h2

theorem Regex.matches_mkPlus (a b : Regex) (x : List Char) :
    Regex.Matches (.mkPlus a b) x ↔ Regex.Matches a x ∨ Regex.Matches b x := by
  cases a <;> cases b <;>
    simp [Regex.mkPlus, Regex.matches_plus, Regex.matches_zero]

theorem Regex.matches_mkComp (a b : Regex) (x : List Char) :
    Regex.Matches (.mkComp a b) x ↔
      ∃ y z, x = y ++ z ∧ Regex.Matches a y ∧ Regex.Matches b z := by
  cases a with
  | zero => simp [Regex.mkComp, Regex.matches_zero]
  | epsilon =>
    simp only [Regex.mkComp, Regex.matches_epsilon]
    constructor
    · intro h; exact ⟨[], x, rfl, rfl, h⟩
    · rintro ⟨y, z, rfl, rfl, h⟩; exact h
  | cls p => simp [Regex.mkComp, Regex.matches_comp]
  | plus a1 a2 => simp [Regex.mkComp, Regex.matches_comp]
  | comp a1 a2 => simp [Regex.mkComp, Regex.matches_comp]
  | star a1 => simp [Regex.mkComp, Regex.matches_comp]

theorem Regex.nullable_iff (r : Regex) : r.nullable = true ↔ Regex.Matches r [] := by
  induction r with
  | zero => simp [Regex.nullable, Regex.matches_zero]
  | epsilon => simp [Regex.nullable, Regex.matches_epsilon]
  | cls p => simp [Regex.nullable, Regex.matches_cls]
  | plus a b iha ihb => simp [Regex.nullable, Regex.matches_plus, iha, ihb]
  | comp a b iha ihb =>
    simp only [Regex.nullable, Bool.and_eq_true, iha, ihb, Regex.matches_comp]
    constructor
    · rintro ⟨h1, h2⟩; exact ⟨[], [], rfl, h1, h2⟩
    · rintro ⟨y, z, h, h1, h2⟩
      have hyz := List.append_eq_nil.mp h.symm
      rw [hyz.1] at h1
      rw [hyz.2] at h2
      exact ⟨h1, h2⟩
  | star a _ => simp only [Regex.nullable, true_iff]; exact .starNil

/-- A non-empty match of a repetition starts with a non-empty match of the
repeated expression. -/
theorem Regex.matches_star_cons (a : Regex) (c : Char) (x : List Char) :
    Regex.Matches (.star a) (c :: x) ↔
      ∃ y z, x = y ++ z ∧ Regex.Matches a (c :: y) ∧ Regex.Matches (.star a) z := by
  constructor
  · intro h
    generalize hr : Regex.star a = r at h
    generalize hs : c :: x = s at h
    induction h generalizing x with
    | epsilon => cases hr
    | cls _ => cases hr
    | plusLeft _ _ => cases hr
    | plusRight _ _ => cases hr
    | comp _ _ _ _ => cases hr
    | starNil => cases hs
    | @starCons a1 u v h1 h2 _ ih2 =>
      cases hr
      cases u with
      | nil => exact ih2 x rfl (by simpa using hs)
      | cons d u =>
        simp only [List.cons_append, List.cons.injEq] at hs
        obtain ⟨rfl, rfl⟩ := hs
        exact ⟨u, v, rfl, h1, h2⟩
  · rintro ⟨y, z, rfl, h1, h2⟩
    exact .starCons h1 h2

theorem Regex.deriv_iff (r : Regex) (c : Char) (x : List Char) :
    Regex.Matches (r.deriv c) x ↔ Regex.Matches r (c :: x) := by
  induction r generalizing x with
  | zero => simp [Regex.deriv, Regex.matches_zero]
  | epsilon => simp [Regex.deriv, Regex.matches_zero, Regex.matches_epsilon]
  | cls p =>
    simp only [Regex.deriv, Regex.matches_cls]
    by_cases hp : p c = true
    · simp only [hp, if_true, Regex.matches_epsilon]
      constructor
      · rintro rfl; exact ⟨c, rfl, hp⟩
      · rintro ⟨d, hd, _⟩
        simp only [List.cons.injEq] at hd
        exact hd.2
    · simp only [hp, Bool.false_eq_true, if_false, Regex.matches_zero, false_iff]
      rintro ⟨d, hd, hpd⟩
      simp only [List.cons.injEq] at hd
      exact hp (hd.1 ▸ hpd)
  | plus a b iha ihb => simp [Regex.deriv, Regex.matches_mkPlus, Regex.matches_plus, iha, ihb]
  | comp a b iha ihb =>
    have key : Regex.Matches (.comp a b) (c :: x) ↔
        (∃ y z, x = y ++ z ∧ Regex.Matches a (c :: y) ∧ Regex.Matches b z) ∨
        (Regex.Matches a [] ∧ Regex.Matches b (c :: x)) := by
      rw [Regex.matches_comp]
      constructor
      · rintro ⟨y, z, h, h1, h2⟩
        cases y with
        | nil => exact .inr ⟨h1, by simpa using h ▸ h2⟩
        | cons d y =>
          simp only [List.cons_append, List.cons.injEq] at h
          obtain ⟨rfl, rfl⟩ := h
          exact .inl ⟨y, z, rfl, h1, h2⟩
      · rintro (⟨y, z, rfl, h1, h2⟩ | ⟨h1, h2⟩)
        · exact ⟨c :: y, z, rfl, h1, h2⟩
        · exact ⟨[], c :: x, rfl, h1, h2⟩
    rw [key]
    simp only [Regex.deriv]
    by_cases hn : a.nullable = true
    · simp only [hn, if_true, Regex.matches_mkPlus, Regex.matches_mkComp, iha, ihb,
        (Regex.nullable_iff a).mp hn, true_and]
    · have hn2 : ¬ Regex.Matches a [] := fun h => hn ((Regex.nullable_iff a).mpr h)
      simp only [hn, Bool.false_eq_true, if_false, Regex.matches_mkComp, iha, hn2, false_and,
        or_false]
  | star a iha =>
    simp only [Regex.deriv, Regex.matches_mkComp, iha, Regex.matches_star_cons]

/-- The matcher decides the meaning of the expression. -/
theorem Regex.rmatch_iff (r : Regex) (x : List Char) :
    r.rmatch x = true ↔ Regex.Matches r x := by
  induction x generalizing r with
  | nil => simp [Regex.rmatch, Regex.nullable_iff]
  | cons c x ih => simp [Regex.rmatch, ih, Regex.deriv_iff]

theorem Regex.matches_lit (s x : List Char) : Regex.Matches (.lit s) x ↔ x = s := by
  induction s generalizing x with
  | nil => simp [Regex.lit, Regex.matches_epsilon]
  | cons c s ih =>
    simp only [Regex.lit, Regex.matches_comp, Regex.matches_cls, ih, beq_iff_eq]
    constructor
    · rintro ⟨y, z, rfl, ⟨d, rfl, rfl⟩, rfl⟩; rfl
    · rintro rfl; exact ⟨[c], s, rfl, ⟨c, rfl, rfl⟩, rfl⟩

theorem Regex.matches_star_cls (p : Char → Bool) (x : List Char) :
    Regex.Matches (.star (.cls p)) x ↔ ∀ c ∈ x, p c = true := by
  induction x with
  | nil => simp only [List.not_mem_nil, false_imp_iff, implies_true, iff_true]; exact .starNil
  | cons d x ih =>
    rw [Regex.matches_star_cons]
    simp only [Regex.matches_cls, List.cons.injEq, List.mem_cons, forall_eq_or_imp]
    constructor
    · rintro ⟨y, z, rfl, ⟨e, ⟨rfl, rfl⟩, he⟩, hz⟩
      exact ⟨he, by simpa using ih.mp hz⟩
    · rintro ⟨hd, hx⟩
      exact ⟨[], x, rfl, ⟨d, ⟨rfl, rfl⟩, hd⟩, ih.mpr hx⟩

theorem Regex.matches_many1_cls (p : Char → Bool) (x : List Char) :
    Regex.Matches (.many1 (.cls p)) x ↔ x ≠ [] ∧ ∀ c ∈ x, p c = true := by
  simp only [Regex.many1, Regex.matches_comp, Regex.matches_cls, Regex.matches_star_cls]
  constructor
  · rintro ⟨y, z, rfl, ⟨c, rfl, hc⟩, hz⟩
    refine ⟨by simp, ?_⟩
    intro d hd
    simp only [List.singleton_append, List.mem_cons] at hd
    rcases hd with rfl | hd
    · exact hc
    · exact hz d hd
  · rintro ⟨hne, h⟩
    cases x with
    | nil => exact absurd rfl hne
    | cons c x =>
      exact ⟨[c], x, rfl, ⟨c, rfl, h c (by simp)⟩, fun d hd => h d (by simp [hd])⟩

theorem Regex.matches_times_cls (p : Char → Bool) (n : Nat) (x : List Char) :
    Regex.Matches (Regex.times (.cls p) n) x ↔ x.length = n ∧ ∀ c ∈ x, p c = true := by
  induction n generalizing x with
  | zero =>
    simp only [Regex.times, Regex.matches_epsilon, List.length_eq_zero]
    constructor
    · rintro rfl; simp
    · exact fun h => h.1
  | succ n ih =>
    simp only [Regex.times, Regex.matches_comp, Regex.matches_cls, ih]
    constructor
    · rintro ⟨y, z, rfl, ⟨c, rfl, hc⟩, hz, hp⟩
      refine ⟨by simp [hz], ?_⟩
      intro d hd
      simp only [List.singleton_append, List.mem_cons] at hd
      rcases hd with rfl | hd
      · exact hc
      · exact hp d hd
    · rintro ⟨hl, h⟩
      cases x with
      | nil => simp at hl
      | cons c x =>
        exact ⟨[c], x, rfl, ⟨c, rfl, h c (by simp)⟩, by simpa using hl,
          fun d hd => h d (by simp [hd])⟩

/-- `MatchString` holds when some substring of the text matches. -/
theorem Regex.MatchString_iff (r : Regex) (s : String) :
    r.MatchString s = true ↔
      ∃ pre mid post, s.data = pre ++ (mid ++ post) ∧ Regex.Matches r mid := by
  simp only [Regex.MatchString, Regex.rmatch_iff, Regex.matches_comp, Regex.any,
    Regex.matches_star_cls, implies_true]
  constructor
  · rintro ⟨pre, z, h, -, mid, post, rfl, hm, -⟩
    exact ⟨pre, mid, post, h, hm⟩
  · rintro ⟨pre, mid, post, h, hm⟩
    exact ⟨pre, mid ++ post, h, trivial, mid, post, rfl, hm, trivial⟩

theorem string_mk_ne_empty (l : List Char) : String.mk l ≠ "" ↔ l ≠ [] := by
  constructor
  · intro h hl; exact h (by rw [hl])
  · intro h hs; exact h (by simpa using congrArg String.data hs)

theorem oneLine_iff (s : String) :
    oneLine s ↔ s.data ≠ [] ∧ ∀ c ∈ s.data, (c != '\n') = true := by
  obtain ⟨l⟩ := s
  simp [oneLine, string_mk_ne_empty]

theorem allDigits_iff (s : String) :
    allDigits s ↔ s.data ≠ [] ∧ ∀ c ∈ s.data, ('0' ≤ c && c ≤ '9') = true := by
  obtain ⟨l⟩ := s
  simp [allDigits, string_mk_ne_empty]

/-- The lines `accessLogPattern` matches are the lines that hold the phrase
of an accepted connection. -/
theorem accessLogPattern_iff (line : String) :
    accessLogPattern.MatchString line = true ↔ AcceptedPhrase line := by
  rw [Regex.MatchString_iff]
  simp only [accessLogPattern, Regex.matches_comp, Regex.matches_lit, Regex.matches_plus,
    Regex.dot, Regex.digit, Regex.matches_many1_cls, AcceptedPhrase, oneLine_iff,
    allDigits_iff]
  constructor
  · rintro ⟨pre, mid, post, h, _, z1, rfl, rfl, src, z2, rfl, hsrc, _, z3, rfl, rfl,
      sport, z4, rfl, hsport, _, z5, rfl, rfl, proto, z6, rfl, hproto, _, z7, rfl, rfl,
      dst, z8, rfl, hdst, _, z9, rfl, rfl, dport, z10, rfl, hdport, _, z11, rfl, rfl,
      route, z12, rfl, hroute, _, email, rfl, rfl, hemail⟩
    refine ⟨⟨pre⟩, ⟨src⟩, ⟨sport⟩, ⟨proto⟩, ⟨dst⟩, ⟨dport⟩, ⟨route⟩, ⟨email⟩, ⟨post⟩, ?_,
      hsrc, hsport, ?_, hdst, hdport, hroute, hemail⟩
    · apply String.ext
      simp only [String.data_append, h, List.append_assoc]
    · rcases hproto with rfl | rfl
      · exact .inl rfl
      · exact .inr rfl
  · rintro ⟨pre, src, sport, proto, dst, dport, route, email, post, rfl, hsrc, hsport,
      hproto, hdst, hdport, hroute, hemail⟩
    refine ⟨pre.data, _, post.data, ?_, _, _, rfl, rfl, src.data, _, rfl, hsrc, _, _, rfl, rfl,
      sport.data, _, rfl, hsport, _, _, rfl, rfl, proto.data, _, rfl, ?_, _, _, rfl, rfl,
      dst.data, _, rfl, hdst, _, _, rfl, rfl, dport.data, _, rfl, hdport, _, _, rfl, rfl,
      route.data, _, rfl, hroute, _, email.data, rfl, rfl, hemail⟩
    · simp only [String.data_append, List.append_assoc]
    · rcases hproto with rfl | rfl
      · exact .inl rfl
      · exact .inr rfl

/-! ## Log lines -/

/-- The ten lines of `TestDetectLogType`: the two connection lines match
`accessLogPattern`, the other eight do not. -/
theorem accessLogPattern_test_lines :
    accessLogPattern.MatchString "2025/10/06 11:28:38.624743 from 2.187.120.79:48394 accepted tcp:www.gstatic.com:443 [REALITY_GRPC_1 -> DIRECT] email: 7.Family" = true ∧
    accessLogPattern.MatchString "2025/10/06 11:28:38.624743 from 5.117.22.146:16425 accepted udp:dns.google.com:53 [REALITY_GRPC_1 -> DIRECT] email: 1.Myself" = true ∧
    accessLogPattern.MatchString "2025/10/06 11:28:34.717774 [Debug] app/log: Logger started" = false ∧
    accessLogPattern.MatchString "2025/10/06 11:28:38.623664 [Info] [673738803] proxy/vless/inbound: firstLen = 983" = false ∧
    accessLogPattern.MatchString "2024/01/15 10:30:45.654321 [Warning] connection timeout" = false ∧
    accessLogPattern.MatchString "2024/01/15 10:30:45.123456 [Error] failed to connect to server" = false ∧
    accessLogPattern.MatchString "some random log without level" = false ∧
    accessLogPattern.MatchString "2024/01/15 10:30:45.901234 [Unknown] some message" = false ∧
    accessLogPattern.MatchString "2025/10/06 11:28:34.717852 [Debug] app/router: MphDomainMatcher is enabled for 24 domain rule(s)" = false ∧
    accessLogPattern.MatchString "2025/10/06 11:28:34.723790 [Debug] app/stats: create new counter outbound>>>DIRECT>>>traffic>>>uplink" = false := by
  decide

/-- C15, the line on which the code departs from the claim: the line that is
the phrase of the claim and nothing else, `accepted tcp:example.com:443
[X -> Y] email: a@b`, has no `from <source>:<port>` before `accepted`. With
both files open it is written to the error log, and so is the same line behind
a time stamp. -/
theorem detectLogType_phrase_without_source :
    (testCore "access.log" "error.log").detectLogType
        "accepted tcp:example.com:443 [X -> Y] email: a@b"
      = some [.file "error.log" "accepted tcp:example.com:443 [X -> Y] email: a@b\n"] ∧
    (testCore "access.log" "error.log").detectLogType
        "2025/10/06 11:28:38.624743 accepted tcp:example.com:443 [X -> Y] email: a@b"
      = some [.file "error.log"
          "2025/10/06 11:28:38.624743 accepted tcp:example.com:443 [X -> Y] email: a@b\n"] := by
  decide

/-- C15, as the code has it. A line matches `accessLogPattern` exactly when it
holds the whole phrase `from <source>:<port> accepted <tcp or udp>:
<destination>:<port> [<route>] email: <id>`. On a supervisor whose logger has
both files, `detectLogType` makes one write, of the complete line and a line
feed: to the access log if the line matches and to the error log otherwise.
For any logger the write goes through the access logger or the error logger
in the same way and is left out if that logger is missing (no path was
configured), and the line is echoed to the standard output if the logger was
made for debugging. Without a logger the call does not return. -/
theorem detectLogType_routes (c : Core) (l : Logger) (accessLog errorLog line : String) :
    (accessLogPattern.MatchString line = true ↔ AcceptedPhrase line) ∧
    Core.detectLogType
        { c with logger := some { l with accessLogger := some accessLog,
                                         errorLogger := some errorLog,
                                         outputLogs := false } } line
      = some [.file (if accessLogPattern.MatchString line then accessLog else errorLog)
                (line ++ "\n")] ∧
    Core.detectLogType { c with logger := some l } line
      = some ((match (if accessLogPattern.MatchString line then l.accessLogger
                      else l.errorLogger) with
               | some path => [.file path (line ++ "\n")]
               | none => [])
              ++ (if l.outputLogs then [.stdout (line ++ "\n")] else [])) ∧
    Core.detectLogType { c with logger := none } line = none := by
  refine ⟨accessLogPattern_iff line, ?_, ?_, rfl⟩
  · cases h : accessLogPattern.MatchString line <;> simp [Core.detectLogType, Logger.Log, h]
  · cases h : accessLogPattern.MatchString line <;> simp [Core.detectLogType, Logger.Log, h]

/-! ## Waiting for the engine to start -/

theorem logRegexTime_length (t : List Char) (h : Regex.Matches logRegexTime t) :
    t.length = 19 := by
  simp only [logRegexTime, Regex.matches_comp, Regex.matches_times_cls, Regex.matches_lit,
    Regex.digit] at h
  obtain ⟨_, _, rfl, ⟨h1, -⟩, _, _, rfl, rfl, _, _, rfl, ⟨h2, -⟩, _, _, rfl, rfl, _, _, rfl,
    ⟨h3, -⟩, _, _, rfl, rfl, _, _, rfl, ⟨h4, -⟩, _, _, rfl, rfl, _, _, rfl, ⟨h5, -⟩, _, _, rfl,
    rfl, h6, -⟩ := h
  simp [h1, h2, h3, h4, h5, h6]

/-- The texts `logRegex` matches: a time stamp, ` [`, a level without `]`,
`] `, and a text on one line. -/
theorem logRegex_matches (x : List Char) :
    Regex.Matches logRegex x ↔
      ∃ t lv tx, x = t ++ (' ' :: '[' :: (lv ++ (']' :: ' ' :: tx))) ∧
        Regex.Matches logRegexTime t ∧ (lv ≠ [] ∧ ∀ c ∈ lv, (c != ']') = true) ∧
        (tx ≠ [] ∧ ∀ c ∈ tx, (c != '\n') = true) := by
  simp only [logRegex, logRegexLevel, logRegexText, Regex.dot, Regex.matches_comp,
    Regex.matches_lit, Regex.matches_many1_cls]
  constructor
  · rintro ⟨t, _, rfl, ht, _, _, rfl, rfl, lv, _, rfl, hlv, _, tx, rfl, rfl, htx⟩
    exact ⟨t, lv, tx, by simp, ht, hlv, htx⟩
  · rintro ⟨t, lv, tx, rfl, ht, hlv, htx⟩
    exact ⟨t, _, rfl, ht, _, _, rfl, rfl, lv, _, rfl, hlv, _, tx, rfl, rfl, htx⟩

theorem takeWhile_append_stop {α : Type} (p : α → Bool) (l r : List α) (a : α)
    (hl : ∀ c ∈ l, p c = true) (ha : p a = false) :
    (l ++ a :: r).takeWhile p = l := by
  induction l with
  | nil => simp [List.takeWhile, ha]
  | cons c l ih =>
    rw [List.cons_append, List.takeWhile_cons, hl c (by simp), if_pos rfl,
      ih (fun d hd => hl d (by simp [hd]))]

/-- The groups `FindStringSubmatch` returns for a text of the form
`<time> [<level>] <text>`. -/
theorem logRegexFindStringSubmatch_eq (t lv tx : List Char)
    (ht : Regex.Matches logRegexTime t) (hlv : lv ≠ [] ∧ ∀ c ∈ lv, (c != ']') = true)
    (htx : tx ≠ [] ∧ ∀ c ∈ tx, (c != '\n') = true) :
    logRegexFindStringSubmatch ⟨t ++ (' ' :: '[' :: (lv ++ (']' :: ' ' :: tx)))⟩
      = [⟨t ++ (' ' :: '[' :: (lv ++ (']' :: ' ' :: tx)))⟩, ⟨t⟩, ⟨lv⟩, ⟨tx⟩] := by
  have hm : logRegex.rmatch (t ++ (' ' :: '[' :: (lv ++ (']' :: ' ' :: tx)))) = true :=
    (Regex.rmatch_iff _ _).mpr ((logRegex_matches _).mpr ⟨t, lv, tx, rfl, ht, hlv, htx⟩)
  have hlen := logRegexTime_length t ht
  have hd : (t ++ (' ' :: '[' :: (lv ++ (']' :: ' ' :: tx)))).drop 21
      = lv ++ (']' :: ' ' :: tx) := by
    rw [List.drop_append_eq_append_drop, List.drop_of_length_le (by omega), hlen]
    rfl
  have htw : (lv ++ (']' :: ' ' :: tx)).takeWhile (fun c => c != ']') = lv :=
    takeWhile_append_stop _ lv _ ']' hlv.2 (by decide)
  have hd2 : (t ++ (' ' :: '[' :: (lv ++ (']' :: ' ' :: tx)))).drop (21 + lv.length + 2)
      = tx := by
    rw [List.drop_append_eq_append_drop, List.drop_of_length_le (by omega), hlen]
    have : 21 + lv.length + 2 - 19 = (lv.length + 2) + 2 := by omega
    rw [this]
    simp only [List.nil_append, List.drop_succ_cons]
    rw [List.drop_append_eq_append_drop, List.drop_of_length_le (by omega)]
    simp
  have ht19 : (t ++ (' ' :: '[' :: (lv ++ (']' :: ' ' :: tx)))).take 19 = t := by
    rw [List.take_append_eq_append_take, List.take_of_length_le (by omega), hlen]
    simp
  simp only [logRegexFindStringSubmatch, hm, if_true, hd, htw, hd2, ht19]

/-- `FindStringSubmatch` returns the empty slice or the text and its three
groups. -/
theorem logRegexFindStringSubmatch_cases (s : String) :
    (logRegexFindStringSubmatch s = [] ∧ logRegex.rmatch s.data = false) ∨
    ∃ t lv tx : String, s = t ++ " [" ++ lv ++ "] " ++ tx ∧ TimeStamp t ∧
      (lv ≠ "" ∧ ∀ c ∈ lv.data, c ≠ ']') ∧ oneLine tx ∧
      logRegexFindStringSubmatch s = [s, t, lv, tx] := by
  cases hm : logRegex.rmatch s.data with
  | false => exact .inl ⟨by simp [logRegexFindStringSubmatch, hm], rfl⟩
  | true =>
    right
    obtain ⟨t, lv, tx, hx, ht, hlv, htx⟩ := (logRegex_matches _).mp ((Regex.rmatch_iff _ _).mp hm)
    have hs : s = ⟨t ++ (' ' :: '[' :: (lv ++ (']' :: ' ' :: tx)))⟩ := String.ext hx
    refine ⟨⟨t⟩, ⟨lv⟩, ⟨tx⟩, ?_, ht, ?_, ?_, ?_⟩
    · apply String.ext
      simp [String.data_append, hx]
    · simpa [string_mk_ne_empty] using hlv
    · exact (oneLine_iff _).mpr htx
    · rw [hs]
      exact logRegexFindStringSubmatch_eq t lv tx ht hlv htx

/-- A line whose 20th character is not a blank, such as a line whose time
stamp goes on with a fraction of the second, does not match `logRegex`. -/
theorem logRegexFindStringSubmatch_fraction (s : String) (h : s.data[19]? ≠ some ' ') :
    logRegexFindStringSubmatch s = [] := by
  rcases logRegexFindStringSubmatch_cases s with ⟨h0, -⟩ | ⟨t, lv, tx, hs, ht, -, -, -⟩
  · exact h0
  · exfalso
    apply h
    have hlen := logRegexTime_length t.data ht
    rw [hs]
    simp only [String.data_append, List.append_assoc]
    rw [List.getElem?_append_right (by omega), hlen]
    rfl

/-- On a line whose 20th character is not a blank the level plays no part:
short of the success marker, the line is a failure only if it contains
`Failed to start`. -/
theorem checkXrayStatusLine_fraction (version line : String) (h : line.data[19]? ≠ some ' ') :
    checkXrayStatusLine version line =
      if strContains line "core:" && strContains line ("Xray " ++ version)
          && strContains line "started" then some none
      else if strContains line "Failed to start" then
        some (some (.errorString ("failed to start xray: " ++ line)))
      else none := by
  simp [checkXrayStatusLine, logRegexFindStringSubmatch_fraction line h]

/-- C16, the line on which the code departs from the claim: the line of the
claim, `2024/01/15 10:30:45.123456 [Error] failed to connect to server`, is at
error severity and is not the success marker. Its time stamp has a fraction
of the second, which `logRegex` does not admit, so the level is never looked
at: the check keeps waiting, and with nothing else on the channel it ends in
the timeout. The same line without the fraction is reported as a startup
failure at once. -/
theorem checkXrayStatus_error_line_waits :
    checkXrayStatus "1.8.4"
        [.log "2024/01/15 10:30:45.123456 [Error] failed to connect to server"] = none ∧
    checkXrayStatus "1.8.4"
        [.log "2024/01/15 10:30:45.123456 [Error] failed to connect to server", .timeout]
      = some (some (.errorString "failed to start xray: context timeout")) ∧
    checkXrayStatus "1.8.4"
        [.log "2024/01/15 10:30:45 [Error] failed to connect to server", .timeout]
      = some (some (.errorString "failed to start xray: failed to connect to server")) := by
  decide

/-! ## Not-found errors -/

/-- C21. For every non-nil error, `InterceptNotFound` returns the status error
with the code `NotFound` and the message of the error as its description when
that message ends with `not found.`, and the error itself otherwise; nil
stays nil. `GrpcCodeToHTTP` maps `NotFound` to 404, so the REST handlers answer
404 to an error whose message ends with `not found.`; they answer 500 to any
other error that neither is nor wraps a status error. -/
theorem InterceptNotFound_translates (err : GoErr) :
    InterceptNotFound (some err)
      = some (if hasSuffix err.Error "not found." then .statusError .NotFound err.Error
              else err) ∧
    InterceptNotFound none = none ∧
    GrpcCodeToHTTP .NotFound = 404 ∧
    (hasSuffix err.Error "not found." = true →
      statusFromError (InterceptNotFound (some err)) = some (.NotFound, err.Error) ∧
      (restError err).2 = 404) ∧
    (hasSuffix err.Error "not found." = false → err.grpcStatus = none →
      InterceptNotFound (some err) = some err ∧ (restError err).2 = 500) := by
  refine ⟨?_, rfl, rfl, ?_, ?_⟩
  · cases h : hasSuffix err.Error "not found." <;> simp [InterceptNotFound, h]
  · intro h
    simp [InterceptNotFound, restError, h, statusFromError, statusCode, GrpcCodeToHTTP]
  · intro h hs
    simp only [InterceptNotFound, restError, h, Bool.false_eq_true, if_false, true_and]
    cases err <;> simp_all [statusFromError, statusCode, GrpcCodeToHTTP, GoErr.grpcStatus]

/-- C21 on the error the engine returns for an unknown user, a status error
with the code `Unknown`, and on an error of the transport. -/
theorem InterceptNotFound_translates_witness :
    (restError (.statusError .Unknown "does-not-exist@example.com: not found.")).2 = 404 ∧
    (restError (.errorString "connection refused")).2 = 500 :=
  ⟨((InterceptNotFound_translates _).2.2.2.1 (by decide)).2,
   ((InterceptNotFound_translates _).2.2.2.2 (by decide) (by decide)).2⟩

/-! ## Reaping orphaned processes -/

/-- The kills of the loop are those of the processes to be reaped, whatever the
kills return. -/
theorem cleanupLoop_kills (killProcessTree : Int → Option GoErr) (currentPID GatePID : Int)
    (processes : List ProcessInfo) :
    (cleanupLoop killProcessTree currentPID GatePID processes).1
      = (processes.filter (reaped currentPID GatePID)).map
          (fun p => Effect.killProcessTree p.PID) := by
  induction processes with
  | nil => rfl
  | cons p rest ih =>
    simp only [cleanupLoop]
    by_cases h1 : p.PID = currentPID
    · simp [h1, reaped, ih]
    · by_cases h2 : p.IsZombie = true ∧ (p.PPID = 0 ∨ p.PPID = 1)
      · have hr : reaped currentPID GatePID p = true := by
          simp only [reaped, ne_eq, h1, not_false_eq_true, decide_True, Bool.true_and,
            Bool.or_eq_true, Bool.and_eq_true, decide_eq_true_eq]
          exact .inl h2
        cases hk : killProcessTree p.PID <;> simp [h1, h2, hr, hk, ih]
      · by_cases h3 : p.PPID = GatePID
        · have hr : reaped currentPID GatePID p = true := by
            simp [reaped, h1, h3]
          cases hk : killProcessTree p.PID <;> simp [h1, h2, h3, hr, hk, ih]
        · have hr : reaped currentPID GatePID p = false := by
            simp only [reaped, ne_eq, h1, not_false_eq_true, decide_True, Bool.true_and,
              Bool.or_eq_false_iff, decide_eq_false_iff_not]
            refine ⟨?_, h3⟩
            simpa [Bool.and_eq_true, Bool.or_eq_true, decide_eq_true_eq] using h2
          simp [h1, h2, h3, hr, ih]

/-- C23. When the enumeration succeeded, `cleanupOrphanedProcesses` kills, in
the order of the list, exactly the enumerated processes that are to be reaped:
the process id is not that of the current child (0 stands for no child) and the
process is a zombie with parent 0 or 1 or has Gate as its parent. Every other
process of the list is left alone. The function then returns no error,
whatever the kills return. When the enumeration failed it kills nothing and
returns that error, wrapped. -/
theorem cleanupOrphanedProcesses_reaps (c : Core) (GatePID : Int)
    (killProcessTree : Int → Option GoErr) (processes : List ProcessInfo) (err : GoErr) :
    c.cleanupOrphanedProcesses (.ok processes) GatePID killProcessTree
      = (none, (processes.filter (reaped c.currentPID GatePID)).map
                 (fun p => Effect.killProcessTree p.PID)) ∧
    (∀ p : ProcessInfo,
      Effect.killProcessTree p.PID
          ∈ (c.cleanupOrphanedProcesses (.ok processes) GatePID killProcessTree).2 ↔
        ∃ q ∈ processes, q.PID = p.PID ∧ q.PID ≠ c.currentPID ∧
          ((q.IsZombie = true ∧ (q.PPID = 0 ∨ q.PPID = 1)) ∨ q.PPID = GatePID)) ∧
    c.cleanupOrphanedProcesses (.error err) GatePID killProcessTree
      = (some (.wrapError ("failed to find xray processes: " ++ err.Error) err), []) := by
  have h : c.cleanupOrphanedProcesses (.ok processes) GatePID killProcessTree
      = (none, (processes.filter (reaped c.currentPID GatePID)).map
                 (fun p => Effect.killProcessTree p.PID)) := by
    simp only [Core.cleanupOrphanedProcesses, cleanupLoop_kills, Core.currentPID]
  refine ⟨h, ?_, rfl⟩
  intro p
  rw [h]
  simp only [List.mem_map, List.mem_filter, Effect.killProcessTree.injEq, reaped, ne_eq,
    Bool.and_eq_true, Bool.or_eq_true, decide_eq_true_eq, Bool.not_eq_true',
    decide_eq_false_iff_not]
  constructor
  · rintro ⟨q, ⟨hq, h1, h2⟩, hpid⟩
    exact ⟨q, hq, hpid, h1, h2⟩
  · rintro ⟨q, hq, hpid, h1, h2⟩
    exact ⟨q, ⟨hq, h1, h2⟩, hpid⟩

/-! ## Capturing the output of the engine -/

theorem LogChan.offer_cap (ready : Bool) (ch : LogChan) (output : String) :
    (ch.offer ready output).1.cap = ch.cap := by
  unfold LogChan.offer
  split
  · rfl
  · split <;> rfl

theorem LogChan.offer_bounded (ready : Bool) (ch : LogChan) (output : String)
    (h : ch.buf.length ≤ ch.cap) :
    (ch.offer ready output).1.buf.length ≤ (ch.offer ready output).1.cap := by
  unfold LogChan.offer
  split
  · exact h
  · split
    · simp only [List.length_append, List.length_singleton]
      omega
    · exact h

theorem offeredAll_bounded (lines : List Scanned) :
    ∀ ch : LogChan, ch.buf.length ≤ ch.cap →
      (offeredAll ch lines).cap = ch.cap ∧
      (offeredAll ch lines).buf.length ≤ (offeredAll ch lines).cap := by
  induction lines with
  | nil => intro ch h; exact ⟨rfl, h⟩
  | cons line rest ih =>
    intro ch h
    have h2 := ih (ch.offer line.ready line.text).1 (LogChan.offer_bounded _ _ _ h)
    simp only [offeredAll]
    exact ⟨h2.1.trans (LogChan.offer_cap _ _ _), h2.2⟩

/-- A run of `captureProcessLogs` on a supervisor with a logger: it returns,
the channel has been offered every handled line, and every handled line has
been classified. -/
theorem captureProcessLogs_eq (l : Logger) (lines : List Scanned) :
    ∀ c : Core, c.logger = some l →
      ∃ r, c.captureProcessLogs lines = some r ∧
        r.core = { c with logsChan := offeredAll c.logsChan (handled lines) } ∧
        r.writes = (handled lines).flatMap (fun line => classified l line.text) := by
  induction lines with
  | nil => intro c _; exact ⟨_, rfl, rfl, rfl⟩
  | cons line rest ih =>
    intro c hc
    obtain ⟨ep, ap, cp, v, pr, pid, rs, ch, lg, cf⟩ := c
    simp only at hc
    subst hc
    cases hd : line.done with
    | true =>
      simp only [Core.captureProcessLogs, hd, if_true]
      exact ⟨_, rfl, by simp [handled, hd, offeredAll], by simp [handled, hd]⟩
    | false =>
      obtain ⟨r, hr, hcore, hw⟩ :=
        ih { executablePath := ep, assetsPath := ap, configPath := cp, version := v,
             process := pr, processPID := pid, restarting := rs,
             logsChan := (ch.offer line.ready line.text).1, logger := some l,
             cancelFunc := cf } rfl
      refine ⟨{ r with
          sent := (if (ch.offer line.ready line.text).2 then [line.text] else []) ++ r.sent,
          writes := classified l line.text ++ r.writes }, ?_, ?_, ?_⟩
      · cases hm : accessLogPattern.MatchString line.text <;>
          simp only [Core.captureProcessLogs, hd, Core.detectLogType, hm, hr, classified,
            Bool.false_eq_true, if_false, if_true, Option.map_some']
      · simp only [hcore, handled, List.takeWhile, hd, Bool.not_false, offeredAll]
      · simp only [hw, handled, List.takeWhile, hd, Bool.not_false, List.flatMap_cons]

/-- The queue of the live tail. For a line read while the context of the capture is not done, on a
supervisor with a logger: the line is offered to the channel without waiting.
A channel with a buffer takes it at the tail when it holds fewer lines than its
capacity and is left as it was when it is full, the line being dropped; a
channel of capacity 0 holds nothing, and the line goes to a receiver only if
one is ready. Whether or not the line was sent, it is handed to
`detectLogType`, so the writes of the logger are the same in all cases. Over
any run, a channel that holds no more lines than its capacity still does so
afterwards, and the lines classified are all the lines handled. -/
theorem captureProcessLogs_offer (c : Core) (l : Logger) (line : Scanned) (lines : List Scanned)
    (hl : c.logger = some l) (hd : line.done = false) :
    (0 < c.logsChan.cap → c.logsChan.buf.length < c.logsChan.cap →
      c.captureProcessLogs [line]
        = some { core := { c with logsChan :=
                             { c.logsChan with buf := c.logsChan.buf ++ [line.text] } },
                 sent := [line.text], writes := classified l line.text }) ∧
    (0 < c.logsChan.cap → c.logsChan.cap ≤ c.logsChan.buf.length →
      c.captureProcessLogs [line]
        = some { core := c, sent := [], writes := classified l line.text }) ∧
    (c.logsChan.cap = 0 →
      c.captureProcessLogs [line]
        = some { core := c, sent := if line.ready then [line.text] else [],
                 writes := classified l line.text }) ∧
    (c.logsChan.buf.length ≤ c.logsChan.cap →
      ∃ r, c.captureProcessLogs lines = some r ∧
        r.core.logsChan.cap = c.logsChan.cap ∧
        r.core.logsChan.buf.length ≤ r.core.logsChan.cap ∧
        r.writes = (handled lines).flatMap (fun s => classified l s.text)) := by
  refine ⟨?_, ?_, ?_, ?_⟩
  · intro h0 h1
    have h0' : c.logsChan.cap ≠ 0 := by omega
    obtain ⟨ep, ap, cp, v, pr, pid, rs, ch, lg, cf⟩ := c
    simp only at hl h0' h1
    subst hl
    cases hm : accessLogPattern.MatchString line.text <;>
      simp [Core.captureProcessLogs, hd, Core.detectLogType, LogChan.offer, h0', h1,
        classified, hm]
  · intro h0 h1
    have h0' : c.logsChan.cap ≠ 0 := by omega
    have h1' : ¬ c.logsChan.buf.length < c.logsChan.cap := by omega
    obtain ⟨ep, ap, cp, v, pr, pid, rs, ch, lg, cf⟩ := c
    simp only at hl h0' h1'
    subst hl
    cases hm : accessLogPattern.MatchString line.text <;>
      simp [Core.captureProcessLogs, hd, Core.detectLogType, LogChan.offer, h0', h1',
        classified, hm]
  · intro h0
    obtain ⟨ep, ap, cp, v, pr, pid, rs, ch, lg, cf⟩ := c
    simp only at hl h0
    subst hl
    cases hm : accessLogPattern.MatchString line.text <;>
      simp [Core.captureProcessLogs, hd, Core.detectLogType, LogChan.offer, h0,
        classified, hm]
  · intro hb
    obtain ⟨r, hr, hcore, hw⟩ := captureProcessLogs_eq l lines c hl
    refine ⟨r, hr, ?_, ?_, hw⟩
    · rw [hcore]
      exact (offeredAll_bounded _ _ hb).1
    · rw [hcore]
      exact (offeredAll_bounded _ _ hb).2

/-- On a supervisor whose channel of capacity 2 is full and whose logger has
the two files open, the third line is not sent and the channel is as it was,
and the line is written to the error log all the same. -/
theorem captureProcessLogs_offer_witness :
    Core.captureProcessLogs
        { testCore "access.log" "error.log" with
          logsChan := { cap := 2, buf := ["first", "second"] } }
        [{ text := "third" }]
      = some { core := { testCore "access.log" "error.log" with
                         logsChan := { cap := 2, buf := ["first", "second"] } },
               sent := [],
               writes := classified
                 ((Logger.New false).SetLogFile (fun _ => none) "access.log" "error.log").1
                 "third" } ∧
    classified ((Logger.New false).SetLogFile (fun _ => none) "access.log" "error.log").1
        "third"
      = [.file "error.log" "third\n"] :=
  ⟨(captureProcessLogs_offer
      { testCore "access.log" "error.log" with
        logsChan := { cap := 2, buf := ["first", "second"] } }
      ((Logger.New false).SetLogFile (fun _ => none) "access.log" "error.log").1
      { text := "third" } [] rfl rfl).2.1 (by decide) (by decide),
   by decide⟩

/-- With the two files open, the classifier writes the line, followed by a
line feed, to one of them. -/
theorem classified_file (l : Logger) (text accessPath errorPath : String)
    (ha : l.accessLogger = some accessPath) (he : l.errorLogger = some errorPath) :
    (accessLogPattern.MatchString text = true →
      LogWrite.file accessPath (text ++ "\n") ∈ classified l text) ∧
    (accessLogPattern.MatchString text = false →
      LogWrite.file errorPath (text ++ "\n") ∈ classified l text) := by
  constructor <;> intro hm <;> simp [classified, hm, Logger.Log, ha, he]

/-- Without files the classifier writes the line to no file. -/
theorem classified_no_file (l : Logger) (text : String)
    (ha : l.accessLogger = none) (he : l.errorLogger = none) :
    ∀ w ∈ classified l text, w = .stdout (text ++ "\n") := by
  intro w hw
  unfold classified at hw
  split at hw <;> simp only [Logger.Log, ha, he, List.nil_append] at hw <;>
    split at hw <;> simp_all

/-- C24, the run on which the code departs from the claim. The supervisor has
been started on a configuration whose logging block names an access log and an
error log, and the channel is full. After the first `Start` a line of the
engine is dropped from the channel and written to the error log. After the
`Restart` that follows, on the same configuration, the logger has no file: the
line is dropped from the channel and written nowhere. -/
theorem captureProcessLogs_drops_unwritten :
    (Core.captureProcessLogs { firstStart.core with logsChan := fullChan }
        [{ text := "2024/01/15 10:30:45 [Warning] failed to connect to server" }]).map
        (fun r => (r.sent, r.core.logsChan == fullChan, r.writes))
      = some ([], true,
          [.file "/var/log/xray/error.log"
            "2024/01/15 10:30:45 [Warning] failed to connect to server\n"]) ∧
    (Core.captureProcessLogs { thenRestart.core with logsChan := fullChan }
        [{ text := "2024/01/15 10:30:45 [Warning] failed to connect to server" }]).map
        (fun r => (r.sent, r.core.logsChan == fullChan, r.writes))
      = some ([], true, []) := by
  constructor <;> decide

/-! ## Bulk synchronisation with an identifier that does not parse -/

theorem NewVlessAccount_unparsed (parse : UUIDParser) (u : User) (v : Vless)
    (hv : u.getVless = some v) (hp : parse v.Id = none) : NewVlessAccount parse u = none := by
  simp [NewVlessAccount, hv, hp]

theorem NewVmessAccount_unparsed (parse : UUIDParser) (u : User) (v : Vmess)
    (hv : u.getVmess = some v) (hp : parse v.Id = none) : NewVmessAccount parse u = none := by
  simp [NewVmessAccount, hv, hp]

/-- The VLess loop panics when a user of the list is assigned to the inbound
and has an identifier that does not parse. -/
theorem vlessClients_unparsed (parse : UUIDParser) (i : Inbound) (u : User) (v : Vless)
    (hv : u.getVless = some v) (hp : parse v.Id = none)
    (hin : u.Inbounds.contains i.Tag = true) :
    ∀ users : List User, u ∈ users → vlessClients parse i users = none := by
  intro users
  induction users with
  | nil => intro h; cases h
  | cons user rest ih =>
    intro hmem
    have hin2 : i.Tag ∈ u.Inbounds := by simpa using hin
    rcases List.mem_cons.mp hmem with rfl | hrest
    · simp [vlessClients, hv, hin2, NewVlessAccount_unparsed parse u v hv hp]
    · unfold vlessClients
      split
      · exact ih hrest
      · split
        · simp only [ih hrest, Option.map_none']
          cases NewVlessAccount parse user <;> rfl
        · exact ih hrest

/-- The VMess loop stores a nil client when a user of the list is assigned to
the inbound and has an identifier that does not parse. -/
theorem vmessClients_unparsed (parse : UUIDParser) (tag : String) (u : User) (v : Vmess)
    (hv : u.getVmess = some v) (hp : parse v.Id = none)
    (hin : u.Inbounds.contains tag = true) :
    ∀ users : List User, u ∈ users → none ∈ vmessClients parse tag users := by
  intro users
  induction users with
  | nil => intro h; cases h
  | cons user rest ih =>
    intro hmem
    have hin2 : tag ∈ u.Inbounds := by simpa using hin
    rcases List.mem_cons.mp hmem with rfl | hrest
    · simp [vmessClients, hv, hin2, NewVmessAccount_unparsed parse u v hv hp]
    · unfold vmessClients
      split
      · exact ih hrest
      · split
        · exact List.mem_cons_of_mem _ (ih hrest)
        · exact ih hrest

/-- What the loop over the inbounds returns holds, for every inbound that is
not excluded, the result of its own synchronisation. -/
theorem syncUsersInbounds_mem (parse : UUIDParser) (users : List User) (i : Inbound)
    (hex : i.exclude = false) :
    ∀ l l2 : List Inbound, i ∈ l → syncUsersInbounds parse users l = some l2 →
      ∃ j ∈ l2, i.syncUsers parse users = some j := by
  intro l
  induction l with
  | nil => intro l2 h; cases h
  | cons x rest ih =>
    intro l2 hmem h
    unfold syncUsersInbounds at h
    cases hx : x.exclude with
    | true =>
      simp only [hx, if_true] at h
      cases hr : syncUsersInbounds parse users rest with
      | none => simp [hr] at h
      | some r =>
        simp only [hr, Option.map_some', Option.some.injEq] at h
        subst h
        rcases List.mem_cons.mp hmem with rfl | hrest
        · rw [hex] at hx; cases hx
        · obtain ⟨j, hj, hs⟩ := ih r hrest hr
          exact ⟨j, List.mem_cons_of_mem _ hj, hs⟩
    | false =>
      simp only [hx, Bool.false_eq_true, if_false] at h
      cases hs : x.syncUsers parse users with
      | none => simp [hs] at h
      | some x2 =>
        simp only [hs] at h
        cases hr : syncUsersInbounds parse users rest with
        | none => simp [hr] at h
        | some r =>
          simp only [hr, Option.map_some', Option.some.injEq] at h
          subst h
          rcases List.mem_cons.mp hmem with rfl | hrest
          · exact ⟨x2, List.mem_cons_self _ _, hs⟩
          · obtain ⟨j, hj, hs2⟩ := ih r hrest hr
            exact ⟨j, List.mem_cons_of_mem _ hj, hs2⟩

/-- C25, what the code does instead: let the user `u` of the list be assigned
to the inbound `i` of the configuration, which is not excluded. If `i` is a
VLess inbound and the VLess identifier of `u` does not parse, `Config.syncUsers`
panics. If `i` is a VMess inbound and the VMess identifier of `u` does not
parse, `Config.syncUsers`, when it returns, has stored a nil entry in the
client list of `i`. -/
theorem syncUsers_unparsed_panics_or_stores_nil (parse : UUIDParser) (c : Config)
    (users : List User) (i : Inbound) (u : User)
    (hi : i ∈ c.InboundConfigs) (hex : i.exclude = false) (hu : u ∈ users)
    (hin : u.Inbounds.contains i.Tag = true) :
    (i.Protocol = "vless" → ∀ v, u.getVless = some v → parse v.Id = none →
      c.syncUsers parse users = none) ∧
    (i.Protocol = "vmess" → ∀ v, u.getVmess = some v → parse v.Id = none →
      ∀ c1, c.syncUsers parse users = some c1 →
        ∃ j ∈ c1.InboundConfigs, j.Tag = i.Tag ∧ ∃ l, j.clients = .vmess l ∧ none ∈ l) := by
  constructor
  · intro hp v hv hparse
    cases h : c.syncUsers parse users with
    | none => rfl
    | some c1 =>
      exfalso
      unfold Config.syncUsers at h
      cases hl : syncUsersInbounds parse users c.InboundConfigs with
      | none => simp [hl] at h
      | some l2 =>
        obtain ⟨j, _, hj⟩ := syncUsersInbounds_mem parse users i hex _ _ hi hl
        have hvl := vlessClients_unparsed parse i u v hv hparse hin users hu
        have hne : ¬ i.Protocol = "vmess" := by rw [hp]; decide
        simp [Inbound.syncUsers, hp, hvl] at hj
  · intro hp v hv hparse c1 h
    unfold Config.syncUsers at h
    cases hl : syncUsersInbounds parse users c.InboundConfigs with
    | none => simp [hl] at h
    | some l2 =>
      simp only [hl, Option.map_some', Option.some.injEq] at h
      subst h
      obtain ⟨j, hjm, hj⟩ := syncUsersInbounds_mem parse users i hex _ _ hi hl
      simp only [Inbound.syncUsers, hp, if_true] at hj
      obtain ⟨_, hj2⟩ := Inbound.storeClients_eq_some i j _ hj
      subst hj2
      exact ⟨_, hjm, rfl, _, rfl, vmessClients_unparsed parse i.Tag u v hv hparse hin users hu⟩

/-- C25 on a configuration with a VLess inbound and a VMess inbound and one
user whose two identifiers are not UUIDs. -/
theorem syncUsers_unparsed_panics_or_stores_nil_witness :
    Config.syncUsers canonicalUUID
        { InboundConfigs := [{ Tag := "in", Protocol := "vless" }] }
        [{ Email := "u@example.com", Inbounds := ["in"],
           Proxies := some { Vless := some { Id := "not-a-uuid", Flow := "" } } }]
      = none ∧
    ∀ c1, Config.syncUsers canonicalUUID
        { InboundConfigs := [{ Tag := "in", Protocol := "vmess" }] }
        [{ Email := "u@example.com", Inbounds := ["in"],
           Proxies := some { Vmess := some { Id := "not-a-uuid" } } }] = some c1 →
      ∃ j ∈ c1.InboundConfigs, j.Tag = "in" ∧ ∃ l, j.clients = .vmess l ∧ none ∈ l :=
  ⟨(syncUsers_unparsed_panics_or_stores_nil canonicalUUID
      { InboundConfigs := [{ Tag := "in", Protocol := "vless" }] }
      [{ Email := "u@example.com", Inbounds := ["in"],
         Proxies := some { Vless := some { Id := "not-a-uuid", Flow := "" } } }]
      { Tag := "in", Protocol := "vless" }
      { Email := "u@example.com", Inbounds := ["in"],
        Proxies := some { Vless := some { Id := "not-a-uuid", Flow := "" } } }
      (by simp) rfl (by simp) (by decide)).1 rfl _ rfl (by decide),
   (syncUsers_unparsed_panics_or_stores_nil canonicalUUID
      { InboundConfigs := [{ Tag := "in", Protocol := "vmess" }] }
      [{ Email := "u@example.com", Inbounds := ["in"],
         Proxies := some { Vmess := some { Id := "not-a-uuid" } } }]
      { Tag := "in", Protocol := "vmess" }
      { Email := "u@example.com", Inbounds := ["in"],
        Proxies := some { Vmess := some { Id := "not-a-uuid" } } }
      (by simp) rfl (by simp) (by decide)).2 rfl _ rfl (by decide)⟩

/-! ## Log paths across restarts -/

/-- After a `Start` on a configuration with a logging block, whatever its
outcome, the two paths of the block are empty. -/
theorem Start_clears_log_paths (env : StartEnv) (c : Core) (xConfig : Config)
    (debugMode : Bool) (logConfig : LogConfig) (h : xConfig.LogConfig = some logConfig) :
    ∃ lc, (Core.Start env c xConfig debugMode).config.LogConfig = some lc ∧
      lc.AccessLog = "" ∧ lc.ErrorLog = "" := by
  by_cases hlev : logConfig.LogLevel = "none" ∨ logConfig.LogLevel = "error"
  · simp only [Core.Start, h, hlev, if_true, Config.RemoveLogFiles]
    repeat' split
    all_goals exact ⟨_, rfl, rfl, rfl⟩
  · simp only [Core.Start, h, hlev, if_false, Config.RemoveLogFiles]
    repeat' split
    all_goals exact ⟨_, rfl, rfl, rfl⟩

/-- A `Start` that succeeds on a configuration whose two log paths are empty
leaves a logger without files. -/
theorem Start_without_log_paths (env : StartEnv) (c : Core) (xConfig : Config)
    (debugMode : Bool) (logConfig : LogConfig) (h : xConfig.LogConfig = some logConfig)
    (ha : logConfig.AccessLog = "") (he : logConfig.ErrorLog = "")
    (hok : (Core.Start env c xConfig debugMode).err = none) :
    (Core.Start env c xConfig debugMode).core.logger = some (Logger.New debugMode) := by
  revert hok
  by_cases hlev : logConfig.LogLevel = "none" ∨ logConfig.LogLevel = "error"
  · simp only [Core.Start, h, hlev, if_true, Config.RemoveLogFiles, ha, he, Logger.SetLogFile,
      openLogFile, Logger.New]
    repeat' split
    all_goals first
      | (intro hok; cases hok; done)
      | (intro _; rfl)
  · simp only [Core.Start, h, hlev, if_false, Config.RemoveLogFiles, ha, he, Logger.SetLogFile,
      openLogFile, Logger.New]
    repeat' split
    all_goals first
      | (intro hok; cases hok; done)
      | (intro _; rfl)
      | simp_all

/-- C26, the run on which the code departs from the claim. The first `Start`
on a configuration whose logging block names `/var/log/xray/access.log` and
`/var/log/xray/error.log` opens these two files and feeds the engine a
document with both paths empty. `RemoveLogFiles` has emptied the paths in the
configuration itself, which `Restart` is given again: the `Start` inside
`Restart` closes the two files, opens none, and leaves a logger without files,
so a line of the engine is written to no log any more. -/
theorem Restart_loses_log_paths :
    firstStart.err = none ∧
    firstStart.effects
      = [.openLog "/var/log/xray/access.log", .openLog "/var/log/xray/error.log",
         .spawn 4242 "access=;error="] ∧
    firstStart.core.logger
      = some { outputLogs := false,
               accessLogFile := some "/var/log/xray/access.log",
               errorLogFile := some "/var/log/xray/error.log",
               accessLogger := some "/var/log/xray/access.log",
               errorLogger := some "/var/log/xray/error.log" } ∧
    thenRestart.err = none ∧
    thenRestart.effects
      = [.kill 4242, .cancel 4242,
         .closeLogs (some "/var/log/xray/access.log") (some "/var/log/xray/error.log"),
         .spawn 4243 "access=;error="] ∧
    thenRestart.core.logger = some { outputLogs := false } ∧
    thenRestart.core.detectLogType
        "2024/01/15 10:30:45.123456 [Error] failed to connect to server" = some [] := by
  refine ⟨rfl, ?_, ?_, rfl, ?_, ?_, ?_⟩ <;> decide

/-! ## The client list under `updateUser` and `removeUser` -/

/-- On a list without nil entry that holds the email at most once, the removal
loop leaves the entries of the other emails, in order. -/
theorem removeClient_filter {α : Type} (emailOf : α → String) (email : String)
    (l : List (Option α)) (h : l.all Option.isSome = true)
    (hc : l.reduceOption.countP (fun a => decide (emailOf a = email)) ≤ 1) :
    ∃ l2, removeClient emailOf email l = some l2 ∧ l2.all Option.isSome = true ∧
      l2.reduceOption = l.reduceOption.filter (fun a => decide (emailOf a ≠ email)) := by
  obtain ⟨l2, h1, h2, h3, h4⟩ := removeClient_spec emailOf email l h
  refine ⟨l2, h1, h2, ?_⟩
  rw [← h3]
  symm
  rw [List.filter_eq_self]
  intro a ha
  have h0 := List.filter_eq_nil_iff.mp (h4 hc) a ha
  simpa using h0

/-- The removal loop leaves a list alone that does not hold the email. -/
theorem removeClient_absent {α : Type} (emailOf : α → String) (email : String)
    (l : List (Option α)) (h : l.all Option.isSome = true)
    (habs : ∀ a ∈ l.reduceOption, emailOf a ≠ email) :
    removeClient emailOf email l = some l := by
  induction l with
  | nil => rfl
  | cons x t ih =>
    cases x with
    | none => simp at h
    | some a =>
      have ht : t.all Option.isSome = true := by
        simp only [List.all_cons, Bool.and_eq_true] at h
        exact h.2
      have ha : emailOf a ≠ email := habs a (by simp [List.reduceOption_cons_of_some])
      have hrest := ih ht (fun b hb => habs b (by simp [List.reduceOption_cons_of_some, hb]))
      simp [removeClient, ha, hrest]

/-- The accounts of a typed list after the removal loop and the append of
`updateUser`. -/
theorem appendClient_list {α : Type} (C : α → Account) (emailOf : α → String)
    (hC : ∀ a, (C a).GetEmail = emailOf a) (email : String)
    (l : List (Option α)) (h : l.all Option.isSome = true)
    (hc : (l.reduceOption.map C).countP (fun a => decide (a.GetEmail = email)) ≤ 1) :
    ∃ l2, removeClient emailOf email l = some l2 ∧ l2.all Option.isSome = true ∧
      l2.reduceOption.map C
        = (l.reduceOption.map C).filter (fun a => decide (a.GetEmail ≠ email)) := by
  have hc2 : l.reduceOption.countP (fun a => decide (emailOf a = email)) ≤ 1 := by
    rw [List.countP_map] at hc
    have : ((fun a => decide (a.GetEmail = email)) ∘ C) = fun a => decide (emailOf a = email) := by
      funext a; simp [hC]
    rwa [this] at hc
  obtain ⟨l2, h1, h2, h3⟩ := removeClient_filter emailOf email l h hc2
  refine ⟨l2, h1, h2, ?_⟩
  rw [h3, List.filter_map]
  congr 1
  apply List.filter_congr
  intro a _
  simp [hC]

theorem typed_vmess (i : Inbound) (l : List (Option VmessAccount)) (ht : i.typed = true)
    (hc : i.clients = .vmess l) : i.Protocol = "vmess" ∧ l.all Option.isSome = true := by
  unfold Inbound.typed at ht
  rw [hc] at ht
  split_ifs at ht with h1 h2 h3 h4
  · exact ⟨h1, by simpa using ht⟩
  · split at ht <;> simp_all

theorem typed_vless (i : Inbound) (l : List (Option VlessAccount)) (ht : i.typed = true)
    (hc : i.clients = .vless l) :
    i.Protocol ≠ "vmess" ∧ i.Protocol = "vless" ∧ l.all Option.isSome = true := by
  unfold Inbound.typed at ht
  rw [hc] at ht
  split_ifs at ht with h1 h2 h3 h4
  · exact ⟨h1, h2, by simpa using ht⟩
  · split at ht <;> simp_all

theorem typed_trojan (i : Inbound) (l : List (Option TrojanAccount)) (ht : i.typed = true)
    (hc : i.clients = .trojan l) :
    i.Protocol ≠ "vmess" ∧ i.Protocol ≠ "vless" ∧ i.Protocol = "trojan" ∧
      l.all Option.isSome = true := by
  unfold Inbound.typed at ht
  rw [hc] at ht
  split_ifs at ht with h1 h2 h3 h4
  · exact ⟨h1, h2, h3, by simpa using ht⟩
  · split at ht <;> simp_all

theorem typed_shadowsocksTcp (i : Inbound) (l : List (Option ShadowsocksTcpAccount))
    (ht : i.typed = true) (hc : i.clients = .shadowsocksTcp l) :
    i.Protocol ≠ "vmess" ∧ i.Protocol ≠ "vless" ∧ i.Protocol ≠ "trojan" ∧
      i.Protocol = "shadowsocks" ∧ i.method2022 = none ∧ l.all Option.isSome = true := by
  unfold Inbound.typed at ht
  rw [hc] at ht
  split_ifs at ht with h1 h2 h3 h4
  · cases hm : i.method2022 with
    | none => rw [hm] at ht; exact ⟨h1, h2, h3, h4, rfl, by simpa using ht⟩
    | some m => rw [hm] at ht; simp at ht

theorem typed_shadowsocks (i : Inbound) (l : List (Option ShadowsocksAccount))
    (ht : i.typed = true) (hc : i.clients = .shadowsocks l) :
    i.Protocol ≠ "vmess" ∧ i.Protocol ≠ "vless" ∧ i.Protocol ≠ "trojan" ∧
      i.Protocol = "shadowsocks" ∧ (∃ m, i.method2022 = some m) ∧
      l.all Option.isSome = true := by
  unfold Inbound.typed at ht
  rw [hc] at ht
  split_ifs at ht with h1 h2 h3 h4
  · cases hm : i.method2022 with
    | none => rw [hm] at ht; simp at ht
    | some m => rw [hm] at ht; exact ⟨h1, h2, h3, h4, ⟨m, rfl⟩, by simpa using ht⟩

theorem typed_raw (i : Inbound) (v : Option JVal) (ht : i.typed = true)
    (hc : i.clients = .raw v) :
    i.Protocol ≠ "vmess" ∧ i.Protocol ≠ "vless" ∧ i.Protocol ≠ "trojan" ∧
      i.Protocol ≠ "shadowsocks" := by
  unfold Inbound.typed at ht
  rw [hc] at ht
  split_ifs at ht with h1 h2 h3 h4
  · cases hm : i.method2022 <;> rw [hm] at ht <;> simp at ht
  · exact ⟨h1, h2, h3, h4⟩

theorem typed_noMap (i : Inbound) (ht : i.typed = true) (hc : i.clients = .noMap) :
    i.Protocol ≠ "vmess" ∧ i.Protocol ≠ "vless" ∧ i.Protocol ≠ "trojan" ∧
      i.Protocol ≠ "shadowsocks" := by
  unfold Inbound.typed at ht
  rw [hc] at ht
  split_ifs at ht with h1 h2 h3 h4
  · cases hm : i.method2022 <;> rw [hm] at ht <;> simp at ht
  · exact ⟨h1, h2, h3, h4⟩

theorem Inbound.with_clients (i : Inbound) (cl : Clients) (h : i.clients = cl) :
    { i with clients := cl } = i := by
  cases i
  simp only at h
  subst h
  rfl

/-- What `updateUser` leaves for an account of the variant of the list. -/
theorem updateUser_list (i : Inbound) (a : Account) (ht : i.typed = true)
    (hf : a.fits i = true)
    (hc : i.accounts.countP (fun b => decide (b.GetEmail = a.GetEmail)) ≤ 1) :
    ∃ j, i.updateUser a = some j ∧ j = { i with clients := j.clients } ∧
      j.accounts
        = i.accounts.filter (fun b => decide (b.GetEmail ≠ a.GetEmail)) ++ [storedAccount i a] := by
  cases a with
  | vmess a =>
    cases hcl : i.clients <;> simp only [Account.fits, hcl] at hf <;> try cases hf
    rename_i l
    obtain ⟨_, hall⟩ := typed_vmess i l ht hcl
    simp only [Inbound.accounts, hcl, Clients.accounts] at hc ⊢
    obtain ⟨l2, h1, h2, h3⟩ := appendClient_list Account.vmess VmessAccount.Email
      (fun _ => rfl) (Account.vmess a).GetEmail l hall hc
    have h1 : removeClient VmessAccount.Email a.Email l = some l2 := h1
    refine ⟨{ i with clients := .vmess (l2 ++ [some a]) }, ?_, rfl, ?_⟩
    · simp [Inbound.updateUser, Inbound.storeClients, hcl, h1]
    · simp [Clients.accounts, List.reduceOption_append, h3, storedAccount]
  | vless a =>
    cases hcl : i.clients <;> simp only [Account.fits, hcl] at hf <;> try cases hf
    rename_i l
    obtain ⟨_, _, hall⟩ := typed_vless i l ht hcl
    simp only [Inbound.accounts, hcl, Clients.accounts] at hc ⊢
    obtain ⟨l2, h1, h2, h3⟩ := appendClient_list Account.vless VlessAccount.Email
      (fun _ => rfl) (Account.vless a).GetEmail l hall hc
    have h1 : removeClient VlessAccount.Email a.Email l = some l2 := h1
    refine ⟨{ i with clients := .vless (l2 ++ [some a]) }, ?_, rfl, ?_⟩
    · simp [Inbound.updateUser, Inbound.storeClients, hcl, h1]
    · simp [Clients.accounts, List.reduceOption_append, h3, storedAccount]
  | trojan a =>
    cases hcl : i.clients <;> simp only [Account.fits, hcl] at hf <;> try cases hf
    rename_i l
    obtain ⟨_, _, _, hall⟩ := typed_trojan i l ht hcl
    simp only [Inbound.accounts, hcl, Clients.accounts] at hc ⊢
    obtain ⟨l2, h1, h2, h3⟩ := appendClient_list Account.trojan TrojanAccount.Email
      (fun _ => rfl) (Account.trojan a).GetEmail l hall hc
    have h1 : removeClient TrojanAccount.Email a.Email l = some l2 := h1
    refine ⟨{ i with clients := .trojan (l2 ++ [some a]) }, ?_, rfl, ?_⟩
    · simp [Inbound.updateUser, Inbound.storeClients, hcl, h1]
    · simp [Clients.accounts, List.reduceOption_append, h3, storedAccount]
  | shadowsocksTcp a =>
    cases hcl : i.clients <;> simp only [Account.fits, hcl] at hf <;> try cases hf
    rename_i l
    obtain ⟨_, _, _, _, _, hall⟩ := typed_shadowsocksTcp i l ht hcl
    simp only [Inbound.accounts, hcl, Clients.accounts] at hc ⊢
    obtain ⟨l2, h1, h2, h3⟩ := appendClient_list Account.shadowsocksTcp
      ShadowsocksTcpAccount.Email (fun _ => rfl) (Account.shadowsocksTcp a).GetEmail l hall hc
    have h1 : removeClient ShadowsocksTcpAccount.Email a.Email l = some l2 := h1
    refine ⟨{ i with clients := .shadowsocksTcp (l2 ++ [some a]) }, ?_, rfl, ?_⟩
    · simp [Inbound.updateUser, Inbound.storeClients, hcl, h1]
    · simp [Clients.accounts, List.reduceOption_append, h3, storedAccount]
  | shadowsocks a =>
    cases hcl : i.clients <;> simp only [Account.fits, hcl] at hf <;> try cases hf
    rename_i l
    obtain ⟨_, _, _, _, ⟨m, hm⟩, hall⟩ := typed_shadowsocks i l ht hcl
    have hms := method2022_getStr i m hm
    simp only [Inbound.accounts, hcl, Clients.accounts] at hc ⊢
    obtain ⟨l2, h1, h2, h3⟩ := appendClient_list Account.shadowsocks
      ShadowsocksAccount.Email (fun _ => rfl) (Account.shadowsocks a).GetEmail l hall hc
    have h1 : removeClient ShadowsocksAccount.Email a.Email l = some l2 := h1
    refine ⟨{ i with clients := .shadowsocks (l2 ++ [some (checkShadowsocks2022 m a)]) },
      ?_, rfl, ?_⟩
    · simp [Inbound.updateUser, Inbound.storeClients, hcl, h1, hms]
    · simp [Clients.accounts, List.reduceOption_append, h3, storedAccount, hms]

/-- What `removeUser` leaves. -/
theorem removeUser_list (i : Inbound) (e : String) (ht : i.typed = true)
    (hc : i.accounts.countP (fun b => decide (b.GetEmail = e)) ≤ 1) :
    ∃ j, i.removeUser e = some j ∧ j = { i with clients := j.clients } ∧
      j.accounts = i.accounts.filter (fun b => decide (b.GetEmail ≠ e)) := by
  cases hcl : i.clients with
  | noMap =>
    obtain ⟨h1, h2, h3, h4⟩ := typed_noMap i ht hcl
    refine ⟨i, by simp [Inbound.removeUser, h1, h2, h3, h4], ?_, ?_⟩
    · exact (Inbound.with_clients i _ rfl).symm
    · simp [Inbound.accounts, hcl, Clients.accounts]
  | raw v =>
    obtain ⟨h1, h2, h3, h4⟩ := typed_raw i v ht hcl
    refine ⟨i, by simp [Inbound.removeUser, h1, h2, h3, h4], ?_, ?_⟩
    · exact (Inbound.with_clients i _ rfl).symm
    · simp [Inbound.accounts, hcl, Clients.accounts]
  | vmess l =>
    obtain ⟨hp, hall⟩ := typed_vmess i l ht hcl
    simp only [Inbound.accounts, hcl, Clients.accounts] at hc ⊢
    obtain ⟨l2, h1, h2, h3⟩ := appendClient_list Account.vmess VmessAccount.Email
      (fun _ => rfl) e l hall hc
    exact ⟨{ i with clients := .vmess l2 }, by simp [Inbound.removeUser, Inbound.storeClients, hp, hcl, h1], rfl,
      by simp [Clients.accounts, h3]⟩
  | vless l =>
    obtain ⟨hn1, hp, hall⟩ := typed_vless i l ht hcl
    simp only [Inbound.accounts, hcl, Clients.accounts] at hc ⊢
    obtain ⟨l2, h1, h2, h3⟩ := appendClient_list Account.vless VlessAccount.Email
      (fun _ => rfl) e l hall hc
    exact ⟨{ i with clients := .vless l2 }, by simp [Inbound.removeUser, Inbound.storeClients, hp, hcl, h1], rfl,
      by simp [Clients.accounts, h3]⟩
  | trojan l =>
    obtain ⟨hn1, hn2, hp, hall⟩ := typed_trojan i l ht hcl
    simp only [Inbound.accounts, hcl, Clients.accounts] at hc ⊢
    obtain ⟨l2, h1, h2, h3⟩ := appendClient_list Account.trojan TrojanAccount.Email
      (fun _ => rfl) e l hall hc
    exact ⟨{ i with clients := .trojan l2 }, by simp [Inbound.removeUser, Inbound.storeClients, hp, hcl, h1], rfl,
      by simp [Clients.accounts, h3]⟩
  | shadowsocksTcp l =>
    obtain ⟨hn1, hn2, hn3, hp, hm, hall⟩ := typed_shadowsocksTcp i l ht hcl
    simp only [Inbound.accounts, hcl, Clients.accounts] at hc ⊢
    obtain ⟨l2, h1, h2, h3⟩ := appendClient_list Account.shadowsocksTcp
      ShadowsocksTcpAccount.Email (fun _ => rfl) e l hall hc
    exact ⟨{ i with clients := .shadowsocksTcp l2 },
      by simp [Inbound.removeUser, Inbound.storeClients, hp, hcl, h1, hm], rfl, by simp [Clients.accounts, h3]⟩
  | shadowsocks l =>
    obtain ⟨hn1, hn2, hn3, hp, ⟨m, hm⟩, hall⟩ := typed_shadowsocks i l ht hcl
    simp only [Inbound.accounts, hcl, Clients.accounts] at hc ⊢
    obtain ⟨l2, h1, h2, h3⟩ := appendClient_list Account.shadowsocks
      ShadowsocksAccount.Email (fun _ => rfl) e l hall hc
    exact ⟨{ i with clients := .shadowsocks l2 },
      by simp [Inbound.removeUser, Inbound.storeClients, hp, hcl, h1, hm], rfl, by simp [Clients.accounts, h3]⟩

/-- `removeUser` of an email the list does not hold leaves the inbound as it
was. -/
theorem removeUser_absent (i : Inbound) (e : String) (ht : i.typed = true)
    (habs : ∀ b ∈ i.accounts, b.GetEmail ≠ e) : i.removeUser e = some i := by
  cases hcl : i.clients with
  | noMap =>
    obtain ⟨h1, h2, h3, h4⟩ := typed_noMap i ht hcl
    simp [Inbound.removeUser, h1, h2, h3, h4]
  | raw v =>
    obtain ⟨h1, h2, h3, h4⟩ := typed_raw i v ht hcl
    simp [Inbound.removeUser, h1, h2, h3, h4]
  | vmess l =>
    obtain ⟨hp, hall⟩ := typed_vmess i l ht hcl
    have h1 := removeClient_absent VmessAccount.Email e l hall (fun a ha =>
      habs (.vmess a) (by simp [Inbound.accounts, hcl, Clients.accounts, ha]))
    unfold Inbound.removeUser
    rw [if_pos hp]
    simp only [hcl, h1, Option.some_bind, Inbound.storeClients]
    exact congrArg some (Inbound.with_clients i _ hcl)
  | vless l =>
    obtain ⟨hn1, hp, hall⟩ := typed_vless i l ht hcl
    have h1 := removeClient_absent VlessAccount.Email e l hall (fun a ha =>
      habs (.vless a) (by simp [Inbound.accounts, hcl, Clients.accounts, ha]))
    unfold Inbound.removeUser
    rw [if_neg hn1, if_pos hp]
    simp only [hcl, h1, Option.some_bind, Inbound.storeClients]
    exact congrArg some (Inbound.with_clients i _ hcl)
  | trojan l =>
    obtain ⟨hn1, hn2, hp, hall⟩ := typed_trojan i l ht hcl
    have h1 := removeClient_absent TrojanAccount.Email e l hall (fun a ha =>
      habs (.trojan a) (by simp [Inbound.accounts, hcl, Clients.accounts, ha]))
    unfold Inbound.removeUser
    rw [if_neg hn1, if_neg hn2, if_pos hp]
    simp only [hcl, h1, Option.some_bind, Inbound.storeClients]
    exact congrArg some (Inbound.with_clients i _ hcl)
  | shadowsocksTcp l =>
    obtain ⟨hn1, hn2, hn3, hp, hm, hall⟩ := typed_shadowsocksTcp i l ht hcl
    have h1 := removeClient_absent ShadowsocksTcpAccount.Email e l hall (fun a ha =>
      habs (.shadowsocksTcp a) (by simp [Inbound.accounts, hcl, Clients.accounts, ha]))
    unfold Inbound.removeUser
    rw [if_neg hn1, if_neg hn2, if_neg hn3, if_pos hp]
    simp only [hm, hcl, h1, Option.some_bind, Inbound.storeClients]
    exact congrArg some (Inbound.with_clients i _ hcl)
  | shadowsocks l =>
    obtain ⟨hn1, hn2, hn3, hp, ⟨m, hm⟩, hall⟩ := typed_shadowsocks i l ht hcl
    have h1 := removeClient_absent ShadowsocksAccount.Email e l hall (fun a ha =>
      habs (.shadowsocks a) (by simp [Inbound.accounts, hcl, Clients.accounts, ha]))
    unfold Inbound.removeUser
    rw [if_neg hn1, if_neg hn2, if_neg hn3, if_pos hp]
    simp only [hm, hcl, h1, Option.some_bind, Inbound.storeClients]
    exact congrArg some (Inbound.with_clients i _ hcl)

theorem storedAccount_email (i : Inbound) (a : Account) :
    (storedAccount i a).GetEmail = a.GetEmail := by
  cases a <;> simp only [storedAccount]
  split <;> rfl

/-- C28, as the code has it. Let the client list of the inbound be the typed
list of its protocol, without nil entry. If it holds the email of the account
at most once and the account is of the variant of the list, then after
`updateUser` only the client list has changed: it holds the entries of the
other emails, unmodified and in their order, followed by one entry with the
email of the account. That entry is the account itself for VMess, VLess,
Trojan and classic Shadowsocks; for Shadowsocks-2022 it is the account with its
key normalised for the method of the inbound. If the list holds the email at
most once, then after `removeUser` it holds the entries of the other emails,
unmodified and in their order, and none with that email; if it does not hold
the email at all, the inbound is as it was. -/
theorem updateUser_removeUser_unique (i : Inbound) (a : Account) (e : String)
    (ht : i.typed = true) :
    (a.fits i = true → i.accounts.countP (fun b => decide (b.GetEmail = a.GetEmail)) ≤ 1 →
      ∃ j, i.updateUser a = some j ∧ j = { i with clients := j.clients } ∧
        j.accounts
          = i.accounts.filter (fun b => decide (b.GetEmail ≠ a.GetEmail))
              ++ [storedAccount i a] ∧
        j.accounts.countP (fun b => decide (b.GetEmail = a.GetEmail)) = 1 ∧
        ((∀ s, a ≠ .shadowsocks s) → storedAccount i a = a) ∧
        (∀ s, a = .shadowsocks s → ∃ m, i.Settings.getStr "method" = some m ∧
          storedAccount i a
            = .shadowsocks { s with Password := EnsureBase64Password s.Password m })) ∧
    (i.accounts.countP (fun b => decide (b.GetEmail = e)) ≤ 1 →
      ∃ j, i.removeUser e = some j ∧ j = { i with clients := j.clients } ∧
        j.accounts = i.accounts.filter (fun b => decide (b.GetEmail ≠ e)) ∧
        ∀ b ∈ j.accounts, b.GetEmail ≠ e) ∧
    ((∀ b ∈ i.accounts, b.GetEmail ≠ e) → i.removeUser e = some i) := by
  refine ⟨?_, ?_, removeUser_absent i e ht⟩
  · intro hf hc
    obtain ⟨j, h1, h2, h3⟩ := updateUser_list i a ht hf hc
    refine ⟨j, h1, h2, h3, ?_, ?_, ?_⟩
    · rw [h3, List.countP_append, List.countP_filter]
      simp [storedAccount_email]
    · intro hns
      cases a with
      | shadowsocks s => exact absurd rfl (hns s)
      | _ => rfl
    · intro s hs
      subst hs
      cases hcl : i.clients <;> simp only [Account.fits, hcl] at hf <;> try cases hf
      rename_i l
      obtain ⟨_, _, _, _, ⟨m, hm⟩, _⟩ := typed_shadowsocks i l ht hcl
      have hms := method2022_getStr i m hm
      exact ⟨m, hms, by simp [storedAccount, hms, checkShadowsocks2022]⟩
  · intro hc
    obtain ⟨j, h1, h2, h3⟩ := removeUser_list i e ht hc
    refine ⟨j, h1, h2, h3, ?_⟩
    intro b hb
    rw [h3] at hb
    simpa using (List.mem_filter.mp hb).2

/-- C28 on a VMess inbound with the clients `a@example.com` and
`b@example.com`: an update for `a@example.com` leaves `b@example.com` first
and the new account last. -/
theorem updateUser_removeUser_unique_witness :
    ∃ j, Inbound.updateUser
        { Tag := "in", Protocol := "vmess",
          clients := .vmess [some { Email := "a@example.com", Level := 0, ID := [1] },
                             some { Email := "b@example.com", Level := 0, ID := [2] }] }
        (.vmess { Email := "a@example.com", Level := 0, ID := [3] }) = some j ∧
      j.accounts = [.vmess { Email := "b@example.com", Level := 0, ID := [2] },
                    .vmess { Email := "a@example.com", Level := 0, ID := [3] }] := by
  obtain ⟨j, h1, _, h3, _⟩ :=
    (updateUser_removeUser_unique
      { Tag := "in", Protocol := "vmess",
        clients := .vmess [some { Email := "a@example.com", Level := 0, ID := [1] },
                           some { Email := "b@example.com", Level := 0, ID := [2] }] }
      (.vmess { Email := "a@example.com", Level := 0, ID := [3] }) "" (by decide)).1
      (by decide) (by decide)
  exact ⟨j, h1, by rw [h3]; decide⟩

set_option maxRecDepth 100000 in
/-- C28, the update on which the code departs from the claim. On a
Shadowsocks inbound with the method `2022-blake3-chacha8-poly1305`, for a user
with the password `password`, `isActiveInbound` returns the account whose
password is the key derived from `password`. `updateUser`, called with that
account as `SyncUser` calls it, stores an entry that is not the account: its
password is the key derived from that key. -/
theorem updateUser_stores_another_key :
    isActiveInbound
        { Tag := "ss", Protocol := "shadowsocks",
          Settings := [("method", .str "2022-blake3-chacha8-poly1305")],
          clients := .shadowsocks [] }
        ["ss"]
        (setupUserAccount canonicalUUID
          { Email := "u@example.com", Inbounds := ["ss"],
            Proxies := some { Shadowsocks := some { Password := "password",
                                                    Method := "2022-blake3-chacha8-poly1305" } } })
      = some (.shadowsocks { Email := "u@example.com", Level := 0,
                             Password := "XohImNooBHFR0OVvjcYpJ3NgPQ1qq73WKhHvch0VQtg=" }) ∧
    (Inbound.updateUser
        { Tag := "ss", Protocol := "shadowsocks",
          Settings := [("method", .str "2022-blake3-chacha8-poly1305")],
          clients := .shadowsocks [] }
        (.shadowsocks { Email := "u@example.com", Level := 0,
                        Password := "XohImNooBHFR0OVvjcYpJ3NgPQ1qq73WKhHvch0VQtg=" })).map
        Inbound.accounts
      = some [.shadowsocks { Email := "u@example.com", Level := 0,
                             Password := "y6p/q0Uk5DJfwKJBDmJCLeLfrA3BxVtaQQKSQBX09Pc=" }] := by
  decide

/-! ## What `ApplyAPI` keeps -/

/-- When `filterRules` succeeds, it returns the rules that do not target the
tag, in their order. -/
theorem filterRules_eq_filter (apiTag : String) (rules : List JVal) :
    ∀ fl, filterRules rules apiTag = some fl →
      fl = rules.filter (fun r => ruleTargets apiTag r != some true) ∧
      ∀ r ∈ rules, (ruleTargets apiTag r).isSome = true := by
  induction rules with
  | nil =>
    intro fl h
    simp only [filterRules, Option.some.injEq] at h
    subst h
    exact ⟨rfl, fun r hr => by cases hr⟩
  | cons raw rest ih =>
    intro fl h
    unfold filterRules at h
    cases ht : ruleTargets apiTag raw with
    | none => simp [ht] at h
    | some b =>
      cases b with
      | true =>
        simp only [ht] at h
        obtain ⟨h1, h2⟩ := ih fl h
        refine ⟨by simp [List.filter_cons, ht, h1], ?_⟩
        intro r hr
        rcases List.mem_cons.mp hr with rfl | hr
        · simp [ht]
        · exact h2 r hr
      | false =>
        simp only [ht] at h
        cases hr : filterRules rest apiTag with
        | none => simp [hr] at h
        | some fl2 =>
          simp only [hr, Option.map_some', Option.some.injEq] at h
          subst h
          obtain ⟨h1, h2⟩ := ih fl2 hr
          refine ⟨by simp [List.filter_cons, ht, h1], ?_⟩
          intro r hr
          rcases List.mem_cons.mp hr with rfl | hr
          · simp [ht]
          · exact h2 r hr

/-- `filterRules` fails as soon as one rule is neither an object nor `null`. -/
theorem filterRules_fails (apiTag : String) (rules : List JVal) (r : JVal) (hr : r ∈ rules)
    (hn : ruleTargets apiTag r = none) : filterRules rules apiTag = none := by
  cases h : filterRules rules apiTag with
  | none => rfl
  | some fl =>
    have := (filterRules_eq_filter apiTag rules fl h).2 r hr
    simp [hn] at this

/-- The rule list `ApplyAPI` leaves: the administrative rule, followed by the
rules that do not target `API` if every rule is an object or `null`, and by
nothing otherwise. -/
theorem ApplyAPI_rules (c c2 : Config) (apiPort : Int) (h : c.ApplyAPI apiPort = some c2) :
    c2.rules = apiRule :: (filterRules c.rules "API").getD [] := by
  unfold Config.ApplyAPI at h
  cases hr : removeApiInbounds c.InboundConfigs with
  | none => simp [hr] at h
  | some inbounds =>
    simp only [hr, Option.some.injEq] at h
    subst h
    cases hc : c.RouterConfig <;> simp [Config.rules, hc]

/-- One removal of the first loop of `ApplyAPI` keeps the inbounds of the slice
that do not carry the administrative tag. -/
theorem removeApi_step (arr : List Inbound) (i len : Nat) (x : Inbound)
    (hlen : len ≤ arr.length) (hi : i + 1 ≤ len) (hx : arr[i]? = some x)
    (hapi : x.isApi = true) :
    len - 1 ≤ (arr.take i ++ (arr.take len).drop (i + 1) ++ arr.drop (len - 1)).length ∧
    ((arr.take i ++ (arr.take len).drop (i + 1) ++ arr.drop (len - 1)).take (len - 1)).filter
        (fun y => !y.isApi)
      = (arr.take len).filter (fun y => !y.isApi) := by
  have hA : (arr.take i ++ (arr.take len).drop (i + 1)).length = len - 1 := by
    simp only [List.length_append, List.length_take, List.length_drop]
    omega
  constructor
  · simp only [List.length_append, List.length_take, List.length_drop]
    omega
  · rw [List.take_left' hA]
    have hx2 : (arr.take len)[i]? = some x := by
      rw [List.getElem?_take_of_lt (by omega)]
      exact hx
    have hsplit : arr.take len = arr.take i ++ x :: (arr.take len).drop (i + 1) := by
      have h1 : (arr.take len).take i = arr.take i := by
        rw [List.take_take]
        congr 1
        omega
      have h2 : (arr.take len).drop i = x :: (arr.take len).drop (i + 1) := by
        have hlt : i < (arr.take len).length := by
          simp only [List.length_take]; omega
        rw [List.drop_eq_getElem_cons hlt]
        congr 1
        have := List.getElem?_eq_getElem hlt
        rw [hx2] at this
        exact (Option.some.inj this).symm
      calc arr.take len = (arr.take len).take i ++ (arr.take len).drop i :=
            (List.take_append_drop i _).symm
        _ = arr.take i ++ x :: (arr.take len).drop (i + 1) := by rw [h1, h2]
    conv_rhs => rw [hsplit]
    simp [List.filter_append, List.filter_cons, hapi]

/-- The first loop of `ApplyAPI`, when it returns, has kept the inbounds that
do not carry the administrative tag, in their order. -/
theorem removeApiLoop_keeps (steps : Nat) :
    ∀ (i : Nat) (arr : List Inbound) (len : Nat) (r : List Inbound × Nat),
      len ≤ arr.length → removeApiLoop steps i arr len = some r →
      r.2 ≤ r.1.length ∧
      (r.1.take r.2).filter (fun y => !y.isApi) = (arr.take len).filter (fun y => !y.isApi) := by
  induction steps with
  | zero =>
    intro i arr len r hlen h
    simp only [removeApiLoop, Option.some.injEq] at h
    subst h
    exact ⟨hlen, rfl⟩
  | succ n ih =>
    intro i arr len r hlen h
    unfold removeApiLoop at h
    cases hx : arr[i]? with
    | none => simp [hx] at h
    | some x =>
      simp only [hx] at h
      by_cases hapi : x.Tag = "API_INBOUND"
      · simp only [hapi, if_true] at h
        by_cases hi : i + 1 ≤ len
        · simp only [hi, if_true] at h
          have hstep := removeApi_step arr i len x hlen hi hx (by simp [Inbound.isApi, hapi])
          obtain ⟨h1, h2⟩ := ih _ _ _ r hstep.1 h
          exact ⟨h1, h2.trans hstep.2⟩
        · simp [hi] at h
      · simp only [hapi, if_false] at h
        exact ih _ _ _ r hlen h

/-- The inbounds `ApplyAPI` leaves: the administrative inbound first, and after
it, in their order, all the inbounds it found that do not carry the
administrative tag. -/
theorem ApplyAPI_inbounds (c c2 : Config) (apiPort : Int) (h : c.ApplyAPI apiPort = some c2) :
    ∃ kept, c2.InboundConfigs = apiInbound apiPort :: kept ∧
      kept.filter (fun y => !y.isApi) = c.InboundConfigs.filter (fun y => !y.isApi) := by
  unfold Config.ApplyAPI at h
  cases hr : removeApiInbounds c.InboundConfigs with
  | none => simp [hr] at h
  | some inbounds =>
    simp only [hr, Option.some.injEq] at h
    subst h
    refine ⟨inbounds, by simp [Config.checkPolicy], ?_⟩
    unfold removeApiInbounds at hr
    cases hl : removeApiLoop c.InboundConfigs.length 0 c.InboundConfigs c.InboundConfigs.length with
    | none => simp [hl] at hr
    | some r =>
      simp only [hl, Option.map_some', Option.some.injEq] at hr
      subst hr
      have := (removeApiLoop_keeps _ 0 _ _ r (le_refl _) hl).2
      simpa using this

/-- C29, the configuration on which the code departs from the claim: the rule
list holds a rule for the outbound `direct` and a second entry that is a JSON
string, not an object. `filterRules` fails on the second entry; `ApplyAPI`
stores the nil list it returns with the error, drops the error, and returns
normally with the administrative rule as the only rule: the rule for `direct`
is gone. -/
theorem ApplyAPI_discards_rules :
    (Config.ApplyAPI
        { RouterConfig := some { RuleList :=
            [.obj [("outboundTag", .str "direct"), ("type", .str "field")],
             .str "not a rule"] } } 8080).map Config.rules
      = some [apiRule] ∧
    filterRules
        [.obj [("outboundTag", .str "direct"), ("type", .str "field")], .str "not a rule"]
        "API" = none :=
  ⟨rfl, rfl⟩

/-! ## Variants and panics on the single-user path -/

/-- The account `isActiveInbound` returns is of the variant of the protocol of
the inbound; a Shadowsocks-2022 account is returned only when the method of the
inbound is a string with the prefix `2022-blake3`. -/
theorem isActiveInbound_variant (inbound : Inbound) (inbounds : List String)
    (settings : ProxySettings) (a : Account)
    (h : isActiveInbound inbound inbounds settings = some a) :
    match a with
    | .vless _ => inbound.Protocol = "vless"
    | .vmess _ => inbound.Protocol = "vmess"
    | .trojan _ => inbound.Protocol = "trojan"
    | .shadowsocksTcp _ => inbound.Protocol = "shadowsocks" ∧ inbound.method2022 = none
    | .shadowsocks _ =>
      inbound.Protocol = "shadowsocks" ∧
        ∃ m, inbound.Settings.getStr "method" = some m ∧ hasPrefix m "2022-blake3" = true := by
  unfold isActiveInbound at h
  split_ifs at h with h0 h1 h2 h3 h4
  · cases hv : settings.Vless <;> simp only [hv] at h
    · cases h
    · cases h; exact h1
  · cases hv : settings.Vmess <;> simp only [hv] at h
    · cases h
    · cases h; exact h2
  · cases hv : settings.Trojan <;> simp only [hv] at h
    · cases h
    · cases h; exact h3
  · cases hm : inbound.method2022 with
    | none =>
      simp only [hm] at h
      cases hv : settings.Shadowsocks <;> simp only [hv] at h
      · cases h
      · cases h; exact ⟨h4, rfl⟩
    | some m =>
      simp only [hm] at h
      cases hv : settings.Shadowsocks2022 <;> simp only [hv] at h
      · cases h
      · cases h
        refine ⟨h4, m, method2022_getStr inbound m hm, ?_⟩
        unfold Inbound.method2022 at hm
        cases hg : inbound.Settings.getStr "method" with
        | none => simp [hg] at hm
        | some m2 =>
          simp only [hg] at hm
          split_ifs at hm with hp
          cases hm
          exact hp

/-- With the account `isActiveInbound` returns, `updateUser` panics only on a
nil entry of the client list or on a nil map: the assertion on the method
cannot fail. -/
theorem updateUser_of_active (inbound : Inbound) (inbounds : List String)
    (settings : ProxySettings) (a : Account)
    (h : isActiveInbound inbound inbounds settings = some a)
    (hn : inbound.clients.noNil = true) (hs : inbound.clients ≠ .noMap) :
    ∃ j, inbound.updateUser a = some j := by
  apply updateUser_total inbound a hn hs
  intro s hs
  subst hs
  have := isActiveInbound_variant inbound inbounds settings _ h
  obtain ⟨_, m, hm, _⟩ := this
  exact ⟨m, hm⟩

/-- C30, the run on which the code departs from the claim. A bulk
synchronisation with a user whose VMess identifier is not a UUID returns and
leaves a nil entry in the client list of the VMess inbound. `SyncUser` for
another user of that inbound then panics: the removal loop of `updateUser`
reads the email of the nil entry. -/
theorem SyncUser_panics_on_nil_client :
    (Config.syncUsers canonicalUUID
        { InboundConfigs := [{ Tag := "in", Protocol := "vmess" }] }
        [{ Email := "u@example.com", Inbounds := ["in"],
           Proxies := some { Vmess := some { Id := "not-a-uuid" } } }]).map
        (fun c => c.InboundConfigs.map (fun i => i.clients.noNil))
      = some [false] ∧
    (Config.syncUsers canonicalUUID
        { InboundConfigs := [{ Tag := "in", Protocol := "vmess" }] }
        [{ Email := "u@example.com", Inbounds := ["in"],
           Proxies := some { Vmess := some { Id := "not-a-uuid" } } }]).bind
        (fun c =>
          (SyncUser canonicalUUID (fun _ => none) c.InboundConfigs
            { Email := "v@example.com", Inbounds := ["in"],
              Proxies :=
                some { Vmess := some { Id := "123e4567-e89b-12d3-a456-426614174000" } } }).map
            (fun r => r.calls))
      = none := by
  decide

/-! ## The bulk path and the single-user path -/

/-- On an inbound without client list `removeUser` leaves no account. -/
theorem removeUser_empty (i : Inbound) (h : i.clients = .raw none) (e : String) :
    (i.removeUser e).map Inbound.accounts = some [] := by
  unfold Inbound.removeUser
  split_ifs
  · simp [h, removeClient, Inbound.storeClients, Inbound.accounts, Clients.accounts]
  · simp [h, removeClient, Inbound.storeClients, Inbound.accounts, Clients.accounts]
  · simp [h, removeClient, Inbound.storeClients, Inbound.accounts, Clients.accounts]
  · split <;>
      simp [h, removeClient, Inbound.storeClients, Inbound.accounts, Clients.accounts]
  · simp [Inbound.accounts, h, Clients.accounts]

/-- On an inbound without client list `updateUser` leaves the stored account
alone, if the method assertion of the Shadowsocks-2022 case holds. -/
theorem updateUser_empty (i : Inbound) (h : i.clients = .raw none) (a : Account)
    (hm : ∀ s, a = .shadowsocks s → ∃ m, i.Settings.getStr "method" = some m) :
    (i.updateUser a).map Inbound.accounts = some [storedAccount i a] := by
  cases a with
  | shadowsocks s =>
    obtain ⟨m, hms⟩ := hm s rfl
    simp [Inbound.updateUser, Inbound.storeClients, h, removeClient, hms, storedAccount,
      Inbound.accounts, Clients.accounts]
  | vmess _ =>
    simp [Inbound.updateUser, Inbound.storeClients, h, removeClient, storedAccount,
      Inbound.accounts, Clients.accounts]
  | vless _ =>
    simp [Inbound.updateUser, Inbound.storeClients, h, removeClient, storedAccount,
      Inbound.accounts, Clients.accounts]
  | trojan _ =>
    simp [Inbound.updateUser, Inbound.storeClients, h, removeClient, storedAccount,
      Inbound.accounts, Clients.accounts]
  | shadowsocksTcp _ =>
    simp [Inbound.updateUser, Inbound.storeClients, h, removeClient, storedAccount,
      Inbound.accounts, Clients.accounts]

/-- One pass of the loop of `SyncUser` on an inbound without client list
leaves the stored account of `isActiveInbound`, or nothing. -/
theorem syncInbound_empty (u : User) (settings : ProxySettings) (i : Inbound)
    (hex : i.exclude = false) (h : i.clients = .raw none) :
    (syncInbound u settings i).map Inbound.accounts
      = some (match isActiveInbound i u.Inbounds settings with
              | some a => [storedAccount i a]
              | none => []) := by
  unfold syncInbound
  rw [hex]
  simp only [Bool.false_eq_true, if_false]
  cases hact : isActiveInbound i u.Inbounds settings with
  | none => exact removeUser_empty i h u.Email
  | some a =>
    apply updateUser_empty i h
    intro s hs
    subst hs
    obtain ⟨m, h1, _⟩ := isActiveInbound_shadowsocks i u.Inbounds _ s hact
    exact ⟨m, method2022_getStr i m h1⟩

/-- The single-user path on an inbound taken without client list. -/
theorem singleAccounts_eq (parse : UUIDParser) (i : Inbound) (u : User)
    (hex : i.exclude = false) :
    singleAccounts parse i u
      = some (match isActiveInbound i u.Inbounds (setupUserAccount parse u) with
              | some a => [storedAccount i a]
              | none => []) :=
  syncInbound_empty u (setupUserAccount parse u) { i with clients := .raw none } hex rfl

/-- The bulk path for one user whose identifiers parse, on an inbound without
client list: the list then holds the account of `isActiveInbound`, or
nothing. -/
theorem syncUsers_one (parse : UUIDParser) (i : Inbound) (u : User)
    (h : i.clients = .raw none) (hids : idsParse parse [u]) :
    (i.syncUsers parse [u]).map Inbound.accounts
      = some (match isActiveInbound i u.Inbounds (setupUserAccount parse u) with
              | some a => [a]
              | none => []) := by
  have hid := hids u (List.mem_singleton.mpr rfl)
  unfold Inbound.syncUsers isActiveInbound
  by_cases h1 : i.Protocol = "vmess"
  · cases hv : u.getVmess with
    | none =>
      by_cases hin : i.Tag ∈ u.Inbounds <;>
        simp [h1, hin, h, Inbound.storeClients, vmessClients, hv, setupUserAccount, Inbound.accounts, Clients.accounts]
    | some v =>
      obtain ⟨id, hp⟩ := Option.isSome_iff_exists.mp (hid.1 v hv)
      by_cases hin : i.Tag ∈ u.Inbounds <;>
        simp [h1, hin, h, Inbound.storeClients, vmessClients, hv, setupUserAccount, Inbound.accounts, Clients.accounts,
          NewVmessAccount, hp]
  · by_cases h2 : i.Protocol = "vless"
    · cases hv : u.getVless with
      | none =>
        by_cases hin : i.Tag ∈ u.Inbounds <;>
          simp [h2, hin, h, Inbound.storeClients, vlessClients, hv, setupUserAccount, Inbound.accounts,
            Clients.accounts]
      | some v =>
        obtain ⟨id, hp⟩ := Option.isSome_iff_exists.mp (hid.2 v hv)
        by_cases hin : i.Tag ∈ u.Inbounds <;>
          simp [h2, hin, h, Inbound.storeClients, vlessClients, hv, setupUserAccount, Inbound.accounts,
            Clients.accounts, NewVlessAccount, hp]
    · by_cases h3 : i.Protocol = "trojan"
      · cases hv : u.getTrojan <;> by_cases hin : i.Tag ∈ u.Inbounds <;>
          simp [h3, hin, h, Inbound.storeClients, trojanClients, hv, setupUserAccount, Inbound.accounts,
            Clients.accounts]
      · by_cases h4 : i.Protocol = "shadowsocks"
        · cases hmm : i.method2022 with
          | none =>
            cases hv : u.getShadowsocks <;> by_cases hin : i.Tag ∈ u.Inbounds <;>
              simp [h4, hin, h, Inbound.storeClients, hmm, shadowsocksTcpClients, hv, setupUserAccount,
                Inbound.accounts, Clients.accounts]
          | some m =>
            cases hv : u.getShadowsocks <;> by_cases hin : i.Tag ∈ u.Inbounds <;>
              simp [h4, hin, h, Inbound.storeClients, hmm, shadowsocks2022Clients, hv, setupUserAccount,
                Inbound.accounts, Clients.accounts]
        · simp [h1, h2, h3, h4, Inbound.accounts, h, Clients.accounts]

/-- The bulk path on an inbound taken without client list, for one user whose
identifiers parse. -/
theorem bulkAccounts_eq (parse : UUIDParser) (i : Inbound) (u : User)
    (hids : idsParse parse [u]) :
    bulkAccounts parse i u
      = some (match isActiveInbound i u.Inbounds (setupUserAccount parse u) with
              | some a => [a]
              | none => []) :=
  syncUsers_one parse { i with clients := .raw none } u rfl hids

/-- When the identifiers of the user parse and the method of a Shadowsocks-2022
inbound names one of the ciphers `EnsureBase64Password` knows, the bulk path
and the single-user path store the same accounts for the user in an inbound
that is not excluded. -/
theorem bulk_single_agree (parse : UUIDParser) (i : Inbound) (u : User)
    (hex : i.exclude = false) (hids : idsParse parse [u])
    (hm : ∀ m, i.method2022 = some m → namesCipher m = true) :
    bulkAccounts parse i u = singleAccounts parse i u := by
  rw [singleAccounts_eq parse i u hex, bulkAccounts_eq parse i u hids]
  cases hact : isActiveInbound i u.Inbounds (setupUserAccount parse u) with
  | none => rfl
  | some a => simp only [storedAccount_eq i u.Inbounds _ a hact hm]

set_option maxRecDepth 100000 in
/-- C27, two users on which the two paths depart from each other. For a user
of a VLess inbound whose identifier is not a UUID, the bulk path panics, while
the single-user path returns and stores nothing. For a user of a Shadowsocks
inbound with the method `2022-blake3-chacha8-poly1305`, which has the prefix
`2022-blake3` and names none of the ciphers `EnsureBase64Password` knows, the
bulk path stores the key derived from the password, and the single-user path,
which normalises in `isActiveInbound` and again in `updateUser`, stores the key
derived from that key. -/
theorem bulk_single_differ :
    bulkAccounts canonicalUUID { Tag := "in", Protocol := "vless" }
        { Email := "u@example.com", Inbounds := ["in"],
          Proxies := some { Vless := some { Id := "not-a-uuid", Flow := "" } } }
      = none ∧
    singleAccounts canonicalUUID { Tag := "in", Protocol := "vless" }
        { Email := "u@example.com", Inbounds := ["in"],
          Proxies := some { Vless := some { Id := "not-a-uuid", Flow := "" } } }
      = some [] ∧
    bulkAccounts canonicalUUID
        { Tag := "ss", Protocol := "shadowsocks",
          Settings := [("method", .str "2022-blake3-chacha8-poly1305")] }
        { Email := "u@example.com", Inbounds := ["ss"],
          Proxies := some { Shadowsocks := some { Password := "password",
                                                  Method := "2022-blake3-chacha8-poly1305" } } }
      = some [.shadowsocks { Email := "u@example.com", Level := 0,
                             Password := "XohImNooBHFR0OVvjcYpJ3NgPQ1qq73WKhHvch0VQtg=" }] ∧
    singleAccounts canonicalUUID
        { Tag := "ss", Protocol := "shadowsocks",
          Settings := [("method", .str "2022-blake3-chacha8-poly1305")] }
        { Email := "u@example.com", Inbounds := ["ss"],
          Proxies := some { Shadowsocks := some { Password := "password",
                                                  Method := "2022-blake3-chacha8-poly1305" } } }
      = some [.shadowsocks { Email := "u@example.com", Level := 0,
                             Password := "y6p/q0Uk5DJfwKJBDmJCLeLfrA3BxVtaQQKSQBX09Pc=" }] := by
  decide

/-! ## Enumerating the processes of the engine -/

/-- The body of the loop over `/proc` appends `p` exactly for an entry that is
a directory named by the positive number of `p`, whose `exe` link is accepted
and whose `stat` text gives the parent and the state of `p`. -/
theorem procEntry_eq_some (h : Host) (absPath : String) (entry : DirEntry)
    (p : ProcessInfo) :
    procEntry h absPath entry = some p ↔
      entry.IsDir = true ∧ Atoi entry.Name = some p.PID ∧ 0 < p.PID ∧
      (∃ exePath, h.exe p.PID = .ok exePath ∧ pathsMatch h exePath absPath = true) ∧
      ∃ data first comm state ppidStr rest,
        h.stat p.PID = .ok data ∧
        Fields data = first :: comm :: state :: ppidStr :: rest ∧
        Atoi ppidStr = some p.PPID ∧ p.IsZombie = zombieState state := by
  obtain ⟨pid, ppid, z⟩ := p
  unfold procEntry
  cases hd : entry.IsDir
  · simp
  cases ha : Atoi entry.Name with
  | none => simp
  | some n =>
    by_cases hn : n ≤ 0
    · simp only [Bool.not_true, Bool.false_eq_true, if_false, if_pos hn, Option.some.injEq,
        true_and]
      constructor
      · intro hp
        exact absurd hp (by simp)
      · rintro ⟨h1, h2, -⟩
        omega
    simp only [Bool.not_true, Bool.false_eq_true, if_false, if_neg hn, Option.some.injEq,
      true_and]
    constructor
    · intro hp
      cases he : h.exe n with
      | error e => simp [he] at hp
      | ok exePath =>
        cases hm : pathsMatch h exePath absPath
        · simp [he, hm] at hp
        cases hs : h.stat n with
        | error e => simp [he, hm, hs] at hp
        | ok data =>
          simp only [he, hm, hs, Bool.not_true, Bool.false_eq_true, if_false] at hp
          split at hp
          · rename_i first comm state ppidStr rest hf
            cases hq : Atoi ppidStr with
            | none => simp [hq] at hp
            | some m =>
              simp only [hq, Option.some.injEq, ProcessInfo.mk.injEq] at hp
              obtain ⟨h1, h2, h3⟩ := hp
              subst h1 h2 h3
              exact ⟨rfl, by omega, ⟨exePath, he, hm⟩,
                data, first, comm, state, ppidStr, rest, hs, hf, hq, rfl⟩
          · exact absurd hp (by simp)
    · rintro ⟨h1, h2, ⟨exePath, he, hm⟩, data, first, comm, state, ppidStr, rest, hs, hf, hq, hz⟩
      subst h1
      simp only [he, hm, hs, hf, hq, Bool.not_true, Bool.false_eq_true, if_false, hz,
        zombieState]

/-- The test of the loop over the output of `ps`: the path found for the
process is accepted, or the fourth field is, or its last element is the name
of the executable. -/
theorem psMatch_iff (h : Host) (absPath executableName cmdPath : String) (pid : Int) :
    psMatch h absPath executableName cmdPath pid = true ↔
      ((∃ procPath, getProcessPath h pid = .ok procPath
          ∧ pathsMatch h procPath absPath = true)
        ∨ pathsMatch h cmdPath absPath = true
        ∨ Base cmdPath = executableName) := by
  unfold psMatch
  cases hg : getProcessPath h pid with
  | error e => simp
  | ok procPath =>
    cases hm : pathsMatch h procPath absPath <;> simp [hm]

/-- The body of the loop over the output of `ps` appends `p` exactly for a line
that, trimmed, is not empty, does not begin with `PID`, and whose fields give
the numbers and the state of `p` and pass the test of the loop. -/
theorem psLine_eq_some (h : Host) (absPath executableName line : String)
    (p : ProcessInfo) :
    psLine h absPath executableName line = some p ↔
      TrimSpace line ≠ "" ∧ hasPrefix (TrimSpace line) "PID" = false ∧
      ∃ pidStr ppidStr state cmdPath rest,
        Fields (TrimSpace line) = pidStr :: ppidStr :: state :: cmdPath :: rest ∧
        Atoi pidStr = some p.PID ∧ Atoi ppidStr = some p.PPID ∧
        p.IsZombie = zombieState state ∧
        ((∃ procPath, getProcessPath h p.PID = .ok procPath
            ∧ pathsMatch h procPath absPath = true)
          ∨ pathsMatch h cmdPath absPath = true
          ∨ Base cmdPath = executableName) := by
  obtain ⟨pid, ppid, z⟩ := p
  unfold psLine
  by_cases h0 : TrimSpace line = ""
  · simp [h0]
  cases hpre : hasPrefix (TrimSpace line) "PID"
  swap
  · simp [hpre]
  simp only [h0, hpre, Bool.false_eq_true, or_false, if_false, ne_eq, not_false_eq_true,
    true_and]
  constructor
  · intro hp
    split at hp
    · rename_i pidStr ppidStr state cmdPath rest hf
      cases h1 : Atoi pidStr with
      | none => simp [h1] at hp
      | some n =>
        cases h2 : Atoi ppidStr with
        | none => simp [h1, h2] at hp
        | some m =>
          simp only [h1, h2] at hp
          cases hfound : psMatch h absPath executableName cmdPath n
          · simp [hfound] at hp
          · simp only [hfound, Bool.not_true, Bool.false_eq_true, if_false,
              Option.some.injEq, ProcessInfo.mk.injEq] at hp
            obtain ⟨e1, e2, e3⟩ := hp
            subst e1 e2 e3
            exact ⟨pidStr, ppidStr, state, cmdPath, rest, hf, h1, h2, rfl,
              (psMatch_iff h absPath executableName cmdPath n).1 hfound⟩
    · exact absurd hp (by simp)
  · rintro ⟨pidStr, ppidStr, state, cmdPath, rest, hf, h1, h2, hz, hfound⟩
    have hf2 := (psMatch_iff h absPath executableName cmdPath pid).2 hfound
    simp only [hf, h1, h2, hf2, Bool.not_true, Bool.false_eq_true, if_false, hz, zombieState]

/-- `pathsMatch` accepts two paths exactly when neither is empty, both can be
made absolute, and the absolute paths are equal or resolve, links followed, to
the same path. -/
theorem pathsMatch_iff (h : Host) (candidate target : String) :
    pathsMatch h candidate target = true ↔
      candidate ≠ "" ∧ target ≠ "" ∧
      ∃ candidateAbs targetAbs,
        h.Abs candidate = .ok candidateAbs ∧ h.Abs target = .ok targetAbs ∧
        (candidateAbs = targetAbs ∨
          ∃ real, h.EvalSymlinks candidateAbs = .ok real
            ∧ h.EvalSymlinks targetAbs = .ok real) := by
  unfold pathsMatch
  by_cases hc : candidate = ""
  · simp [hc]
  by_cases ht : target = ""
  · simp [ht]
  simp only [hc, ht, or_self, if_false, ne_eq, not_false_eq_true, true_and]
  cases h1 : h.Abs candidate with
  | error e => simp
  | ok candidateAbs =>
    cases h2 : h.Abs target with
    | error e => simp
    | ok targetAbs =>
      by_cases he : candidateAbs = targetAbs
      · simp [he]
      simp only [he, if_false, Except.ok.injEq, exists_and_left, exists_eq_left', false_or]
      cases h3 : h.EvalSymlinks candidateAbs with
      | error e => simp
      | ok r1 =>
        cases h4 : h.EvalSymlinks targetAbs with
        | error e => simp
        | ok r2 =>
          simp only [beq_iff_eq, Except.ok.injEq, exists_eq_left']
          exact eq_comm

/-- On Linux with a readable `/proc` the enumeration returns the processes of
`/proc`, and `ps` is not asked. -/
theorem findXrayProcesses_proc (h : Host) (path absPath : String)
    (entries : List DirEntry) (habs : h.Abs path = .ok absPath)
    (hos : h.GOOS = "linux") (hdir : h.ReadDir = .ok entries) :
    findXrayProcesses h path = .ok (entries.filterMap (procEntry h absPath)) := by
  simp [findXrayProcesses, findXrayProcessesFromProc, habs, hos, hdir]

/-- Elsewhere, and on Linux when `/proc` cannot be read, the enumeration is
that of the lines of `ps`, and fails when `ps` does. -/
theorem findXrayProcesses_ps (h : Host) (path absPath : String)
    (habs : h.Abs path = .ok absPath)
    (hno : h.GOOS = "linux" → ∃ err, h.ReadDir = .error err) :
    findXrayProcesses h path =
      match h.ps with
      | .error err => .error (.wrapError ("failed to list processes: " ++ err.Error) err)
      | .ok output =>
        .ok ((strSplit output "\n").filterMap (psLine h absPath (Base absPath))) := by
  by_cases hos : h.GOOS = "linux"
  · obtain ⟨err, herr⟩ := hno hos
    simp [findXrayProcesses, findXrayProcessesFromProc, habs, hos, herr]
  · simp [findXrayProcesses, habs, hos]

/-- C22 (amended): when the path can be made absolute, `findXrayProcesses`
returns, on Linux with a readable `/proc`, exactly the processes that `/proc`
lists for the executable: a directory named by a positive number, an `exe` link
that `pathsMatch` accepts, and a `stat` text of four fields or more whose
fourth is a number, each process with that number, the fourth field as parent
and the flag set for the state `Z` or `z`. On another system, or when `/proc`
cannot be read, it fails when `ps` fails, and otherwise returns exactly the
processes of the lines of `ps`, where a process is also taken when the last
element of its command is that of the executable. -/
theorem findXrayProcesses_lists (h : Host) (path absPath : String)
    (habs : h.Abs path = .ok absPath) :
    (∀ entries, h.GOOS = "linux" → h.ReadDir = .ok entries →
      ∃ procs, findXrayProcesses h path = .ok procs ∧
        ∀ p, p ∈ procs ↔ listedInProc h absPath entries p) ∧
    ((h.GOOS = "linux" → ∃ err, h.ReadDir = .error err) →
      (∀ err, h.ps = .error err →
        findXrayProcesses h path
          = .error (.wrapError ("failed to list processes: " ++ err.Error) err)) ∧
      (∀ output, h.ps = .ok output →
        ∃ procs, findXrayProcesses h path = .ok procs ∧
          ∀ p, p ∈ procs ↔ listedByPs h absPath output p)) := by
  refine ⟨?_, ?_⟩
  · intro entries hos hdir
    refine ⟨_, findXrayProcesses_proc h path absPath entries habs hos hdir, ?_⟩
    intro p
    rw [List.mem_filterMap]
    constructor
    · rintro ⟨entry, hmem, hp⟩
      obtain ⟨h1, h2, h3, h4, h5⟩ := (procEntry_eq_some h absPath entry p).1 hp
      exact ⟨⟨entry, hmem, h1, h2⟩, h3, h4, h5⟩
    · rintro ⟨⟨entry, hmem, h1, h2⟩, h3, h4, h5⟩
      exact ⟨entry, hmem, (procEntry_eq_some h absPath entry p).2 ⟨h1, h2, h3, h4, h5⟩⟩
  · intro hno
    have hps := findXrayProcesses_ps h path absPath habs hno
    refine ⟨?_, ?_⟩
    · intro err herr
      rw [hps, herr]
    · intro output hout
      rw [hout] at hps
      refine ⟨_, hps, ?_⟩
      intro p
      rw [List.mem_filterMap]
      constructor
      · rintro ⟨line, hmem, hp⟩
        exact ⟨line, hmem, (psLine_eq_some h absPath (Base absPath) line p).1 hp⟩
      · rintro ⟨line, hmem, hp⟩
        exact ⟨line, hmem, (psLine_eq_some h absPath (Base absPath) line p).2 hp⟩

/-- On a Linux host with two processes of the executable, one of them a
zombie, and a process of another executable, the two are returned. -/
theorem findXrayProcesses_lists_witness :
    hostWithTwo.Abs "/usr/local/bin/xray" = .ok "/usr/local/bin/xray" ∧
    findXrayProcesses hostWithTwo "/usr/local/bin/xray"
      = .ok [{ PID := 4242, PPID := 900, IsZombie := false },
          { PID := 4300, PPID := 1, IsZombie := true }] ∧
    ∃ procs, findXrayProcesses hostWithTwo "/usr/local/bin/xray" = .ok procs ∧
      ∀ p, p ∈ procs ↔ listedInProc hostWithTwo "/usr/local/bin/xray"
        [{ Name := "77", IsDir := true }, { Name := "4242", IsDir := true },
          { Name := "4300", IsDir := true }, { Name := "self", IsDir := true }] p :=
  ⟨rfl, rfl,
    (findXrayProcesses_lists hostWithTwo "/usr/local/bin/xray" "/usr/local/bin/xray" rfl).1
      _ rfl rfl⟩

/-- C22 (counterexample): on a host without `/proc`, `findXrayProcesses` for
`/usr/local/bin/xray` returns process 4242, which runs `/opt/other/xray`, a
path that `pathsMatch` rejects: the names of the two files are equal. And on a
Linux host where process 4242 runs `/usr/local/bin/x ray`, the enumeration for
that path is empty: the name in the `stat` text holds a space, so that the
fourth field is the state and not a number. -/
theorem findXrayProcesses_matches_by_name :
    (findXrayProcesses hostWithPs "/usr/local/bin/xray"
        = .ok [{ PID := 4242, PPID := 1, IsZombie := false }]
      ∧ getProcessPath hostWithPs 4242 = .ok "/opt/other/xray"
      ∧ pathsMatch hostWithPs "/opt/other/xray" "/usr/local/bin/xray" = false) ∧
    (findXrayProcesses hostWithProc "/usr/local/bin/x ray" = .ok []
      ∧ hostWithProc.exe 4242 = .ok "/usr/local/bin/x ray"
      ∧ pathsMatch hostWithProc "/usr/local/bin/x ray" "/usr/local/bin/x ray" = true
      ∧ Fields "4242 (x ray) S 1 4242 4242 0 -1 4194560 120 0 0 0\n"
        = ["4242", "(x", "ray)", "S", "1", "4242", "4242", "0", "-1", "4194560", "120",
            "0", "0", "0"]) :=
  ⟨⟨rfl, rfl, rfl⟩, rfl, rfl, rfl, rfl⟩

end Gate
